import Mathlib

/-! # r_audio_nextframe: frame aggregation, packet queue, sink fan-out, receiver, resampler

A shallow embedding of `src/FrameEncoder.cpp`, `src/AudioProcessor.cpp`, `src/UdpServer.cpp`
and `src/Resampler.cpp`.

External capabilities (libavcodec, the container writer, the datagram socket) are
parameters: each is a function from the history of calls made so far to the
outcome of the next call.  Every call into such a capability is appended to a
trace kept in the state, so that properties about "what was handed to the
encoder" or "what was sent" are statements about these traces.

The `while` loops of the source whose termination is a property of the program
(the aggregation loop, the drain loops) take a fuel argument; `none` means the
fuel ran out before the loop ended.
-/

set_option autoImplicit false

/-! ## Data model -/

/-- One sample position of an audio frame (the values of all channels at that position). -/
abbrev Sample := Int

/-- The codecs the program distinguishes (`AVCodecID`); `OTHER` stands for every other id. -/
inductive AVCodecID
  | MP3 | MP2 | MP1 | AAC | PCM_S16LE | FLAC | VORBIS | OTHER
deriving DecidableEq, Repr

/-- The sample formats the program selects (`AVSampleFormat`). -/
inductive AVSampleFormat
  | FLTP | S16 | S16P
deriving DecidableEq, Repr

/-- An encoded unit (`AVPacket`): payload bytes and timestamp. -/
structure AVPacket where
  data : List Nat
  pts : Int
deriving DecidableEq, Repr

/-- An audio frame (`AVFrame`): its samples, timestamp and sample rate.
`nb_samples` is the number of samples the frame holds. -/
structure AVFrame where
  data : List Sample
  pts : Int
  sample_rate : Int
deriving DecidableEq, Repr

/-- The `nb_samples` field of a frame. -/
def AVFrame.nb_samples (f : AVFrame) : Int := f.data.length

/-- What one `avcodec_send_frame` call followed by the `avcodec_receive_packet` loop yields:
whether the send returned `>= 0`, the packets received before the loop ended, and whether
the loop ended on an error (rather than on `EAGAIN` / `EOF`). -/
structure EncodeResult where
  send_ok : Bool
  packets : List AVPacket
  receive_error : Bool
deriving DecidableEq, Repr

/-- The external encode capability, as far as `FrameEncoder` uses it.
`encode` maps the list of all frames sent so far (the last entry is the frame of the current
call, `none` being the flush frame) to the outcome of the current call.
`av_rescale_q off rate` rescales a sample offset from `1/rate` into the encoder time base. -/
structure Codec where
  frame_size : Int
  get_buffer_ok : Bool
  av_rescale_q : Int → Int → Int
  encode : List (Option AVFrame) → EncodeResult

/-- The `AVPacket** outputPacket` argument: `none` is a null pointer, `some v` a pointer to a
slot currently holding `v`. -/
abbrev OutputSlot := Option (Option AVPacket)

/-- `av_samples_copy(dst, src, dst_offset, src_offset, nb_samples, ...)`: overwrite
`nb_samples` samples of `dst` from position `dst_offset` with the samples of `src` from
position `src_offset`.  The lists are the storage of the two buffers.  The value is what the
C function does only when both ranges lie inside their storage (`av_samples_copy_within`);
otherwise the C function reads or writes outside a buffer and the behaviour of the program
is undefined. -/
def av_samples_copy (dst src : List Sample) (dst_offset src_offset nb_samples : Int) :
    List Sample :=
  dst.take dst_offset.toNat ++ (src.drop src_offset.toNat).take nb_samples.toNat ++
    dst.drop (dst_offset.toNat + nb_samples.toNat)

/-- Whether a call of `av_samples_copy` stays inside the storage of both buffers: offsets
and count are not negative, `dst_offset + nb_samples` is within `dst` and
`src_offset + nb_samples` is within `src`. -/
def av_samples_copy_within (dst src : List Sample) (dst_offset src_offset nb_samples : Int) :
    Bool :=
  decide (0 ≤ dst_offset) && decide (0 ≤ src_offset) && decide (0 ≤ nb_samples) &&
    decide (dst_offset + nb_samples ≤ dst.length) &&
    decide (src_offset + nb_samples ≤ src.length)

/-! ## FrameEncoder -/

/-- State of a `FrameEncoder`.  `codecContext_` and `formatContext_` record whether the
pointer is non-null; `bufferFrame_` is `none` while the pointer is null.
`flush_bufferFrame` and `flush_bufferedSamples` are the two function-local `static`
variables declared inside `flushEncoder`.
The last five fields are traces: frames handed to `avcodec_send_frame`, sample offsets handed
to `av_rescale_q`, packets written with `WRITE_PACKET`, packets pushed on / popped from the
queue, and packets freed by `clearPacketQueue`. -/
structure FrameEncoder where
  codecContext_ : Bool
  sample_fmt : Option AVSampleFormat
  formatContext_ : Bool
  frameCount_ : Int
  bufferFrame_ : Option AVFrame
  bufferedSamples_ : Int
  packetQueue_ : List AVPacket
  flush_bufferFrame : Option AVFrame
  flush_bufferedSamples : Int
  sent : List (Option AVFrame)
  rescaled : List Int
  fileWrites : List AVPacket
  pushed : List AVPacket
  dequeued : List AVPacket
  discarded : List AVPacket
deriving DecidableEq, Repr

namespace FrameEncoder

/-- The constructor `FrameEncoder::FrameEncoder()`. -/
def new : FrameEncoder :=
  { codecContext_ := false, sample_fmt := none, formatContext_ := false, frameCount_ := 0,
    bufferFrame_ := none, bufferedSamples_ := 0, packetQueue_ := [],
    flush_bufferFrame := none, flush_bufferedSamples := 0,
    sent := [], rescaled := [], fileWrites := [], pushed := [], dequeued := [],
    discarded := [] }

/-- `FrameEncoder::initializeEncoder`: `found`, `allocated` and `opened` are the outcomes of
`avcodec_find_encoder`, `avcodec_alloc_context3` and `avcodec_open2`. -/
def initializeEncoder (fe : FrameEncoder) (codecId : AVCodecID)
    (found allocated opened : Bool) : Int × FrameEncoder :=
  if !found then (-1, fe)
  else if !allocated then (-1, fe)
  else
    let fmt :=
      if codecId = AVCodecID.AAC then AVSampleFormat.FLTP
      else if codecId = AVCodecID.PCM_S16LE then AVSampleFormat.S16
      else AVSampleFormat.S16P
    let fe1 := { fe with codecContext_ := true, sample_fmt := some fmt }
    if !opened then (-1, fe1) else (0, fe1)

/-- `packetQueue_.push(av_packet_clone(pkt))` under the queue lock. -/
def push (fe : FrameEncoder) (pkt : AVPacket) : FrameEncoder :=
  { fe with packetQueue_ := fe.packetQueue_ ++ [pkt], pushed := fe.pushed ++ [pkt] }

/-- Body of the receive loop for one received packet: write it to the encoder's own output
file when there is one, push a clone on the queue, store a clone in `*outputPacket` when the
pointer is given, and count it. -/
def storePacket (fe : FrameEncoder) (out : OutputSlot) (pkt : AVPacket) :
    FrameEncoder × OutputSlot :=
  let fe1 := if fe.formatContext_ then { fe with fileWrites := fe.fileWrites ++ [pkt] } else fe
  let fe2 := fe1.push pkt
  ({ fe2 with frameCount_ := fe2.frameCount_ + 1 }, out.map (fun _ => some pkt))

/-- The receive loop over the packets the codec yields. -/
def receivePackets (fe : FrameEncoder) (out : OutputSlot) :
    List AVPacket → FrameEncoder × OutputSlot
  | [] => (fe, out)
  | pkt :: rest => receivePackets (fe.storePacket out pkt).1 (fe.storePacket out pkt).2 rest

/-- `avcodec_send_frame` followed by the receive loop.  The Boolean is `true` when the send
returned `>= 0` and the receive loop ended on `EAGAIN` / `EOF`. -/
def sendAndReceive (c : Codec) (fe : FrameEncoder) (out : OutputSlot)
    (frame : Option AVFrame) : Bool × FrameEncoder × OutputSlot :=
  let fe1 := { fe with sent := fe.sent ++ [frame] }
  let r := c.encode fe1.sent
  if !r.send_ok then (false, fe1, out)
  else
    let p := fe1.receivePackets out r.packets
    (!r.receive_error, p.1, p.2)

/-- The copy of one loop iteration: `av_samples_copy` of `samplesToCopy` samples of the input
frame, from `samplesProcessed` on, into the buffer at `bufferedSamples_`, and
`bufferedSamples_ += samplesToCopy`. -/
def copySamples (fe : FrameEncoder) (frame : AVFrame) (samplesProcessed samplesToCopy : Int) :
    FrameEncoder :=
  { fe with
    bufferFrame_ := fe.bufferFrame_.map (fun (b : AVFrame) =>
      { b with data := av_samples_copy b.data frame.data fe.bufferedSamples_
                          samplesProcessed samplesToCopy })
    bufferedSamples_ := fe.bufferedSamples_ + samplesToCopy }

/-- The `if (bufferedSamples_ == frameSize)` body up to the end of the receive loop: set the
pts of the buffer frame from the offset `samplesProcessed - bufferedSamples_`, send the
buffer frame and receive the packets. -/
def encodeBuffer (c : Codec) (fe : FrameEncoder) (frame : AVFrame) (samplesProcessed : Int)
    (out : OutputSlot) : Bool × FrameEncoder × OutputSlot :=
  let off := samplesProcessed - fe.bufferedSamples_
  let fe1 : FrameEncoder := { fe with
    bufferFrame_ := fe.bufferFrame_.map (fun (b : AVFrame) =>
      { b with pts := frame.pts + c.av_rescale_q off frame.sample_rate })
    rescaled := fe.rescaled ++ [off] }
  fe1.sendAndReceive c out fe1.bufferFrame_

/-- One iteration of the aggregation loop: either `encodeFrame` returns (left), or the loop
goes on with a new state and a new `samplesProcessed` (right). -/
def aggregateStep (c : Codec) (frame : AVFrame) (fe : FrameEncoder) (samplesProcessed : Int)
    (out : OutputSlot) : (Int × FrameEncoder × OutputSlot) ⊕ (FrameEncoder × Int × OutputSlot) :=
  let samplesToCopy :=
    min (c.frame_size - fe.bufferedSamples_) (frame.nb_samples - samplesProcessed)
  let fe1 := fe.copySamples frame samplesProcessed samplesToCopy
  let samplesProcessed1 := samplesProcessed + samplesToCopy
  if fe1.bufferedSamples_ = c.frame_size then
    let r := fe1.encodeBuffer c frame samplesProcessed1 out
    let fe2 : FrameEncoder := r.2.1
    if !r.1 then Sum.inl (-1, fe2, r.2.2)
    else Sum.inr ({ fe2 with bufferedSamples_ := 0 }, samplesProcessed1, r.2.2)
  else Sum.inr (fe1, samplesProcessed1, out)

/-- The aggregation loop of `encodeFrame` (`while (samplesProcessed < frame->nb_samples)`),
started with `samplesProcessed`.  Returns what `encodeFrame` returns. -/
def aggregate (c : Codec) (frame : AVFrame) :
    Nat → FrameEncoder → Int → OutputSlot → Option (Int × FrameEncoder × OutputSlot)
  | 0, _, _, _ => none
  | fuel + 1, fe, samplesProcessed, out =>
    if samplesProcessed < frame.nb_samples then
      match aggregateStep c frame fe samplesProcessed out with
      | Sum.inl r => some r
      | Sum.inr s => aggregate c frame fuel s.1 s.2.1 s.2.2
    else some (0, fe, out)

/-- `FrameEncoder::encodeFrame(frame, outputPacket)`; `frame = none` is the null frame.
When `av_frame_get_buffer` fails the call returns -1 and leaves `bufferFrame_` non-null
without storage (`data = []`).  A later call on a chunk then copies into that frame: the
source writes through a null pointer there, which `encodeFrameWithin` reports; the value
given here describes the call only when `encodeFrameWithin` holds. -/
def encodeFrame (c : Codec) (fuel : Nat) (fe : FrameEncoder) (frame : Option AVFrame)
    (out : OutputSlot) : Option (Int × FrameEncoder × OutputSlot) :=
  if !fe.codecContext_ then some (-1, fe, out)
  else
    match frame with
    | none =>
      let r := fe.sendAndReceive c out none
      some (if r.1 then 0 else -1, r.2.1, r.2.2)
    | some frame =>
      if c.frame_size > 0 then
        match fe.bufferFrame_ with
        | none =>
          if !c.get_buffer_ok then
            let b : AVFrame := { data := [], pts := 0, sample_rate := frame.sample_rate }
            some (-1, { fe with bufferFrame_ := some b }, out)
          else
            let b : AVFrame :=
              { data := List.replicate c.frame_size.toNat 0, pts := 0,
                sample_rate := frame.sample_rate }
            aggregate c frame fuel { fe with bufferFrame_ := some b, bufferedSamples_ := 0 } 0 out
        | some _ => aggregate c frame fuel fe 0 out
      else
        let r := fe.sendAndReceive c out (some frame)
        some (if r.1 then 0 else -1, r.2.1, r.2.2)

/-- The block of `flushEncoder` under "Handle any remaining buffered samples".  It reads the
two function-local statics `bufferFrame` and `bufferedSamples`, as the source does: when the
static frame is non-null and the static count positive, the frame cut to that count is sent
and the statics are reset. -/
def flushRemaining (c : Codec) (fe : FrameEncoder) (out : OutputSlot) :
    FrameEncoder × OutputSlot :=
  match fe.flush_bufferFrame with
  | some b =>
    if fe.flush_bufferedSamples > 0 then
      let b1 : AVFrame := { b with data := b.data.take fe.flush_bufferedSamples.toNat }
      let r := fe.sendAndReceive c out (some b1)
      let fe1 : FrameEncoder := r.2.1
      ({ fe1 with flush_bufferFrame := none, flush_bufferedSamples := 0 }, r.2.2)
    else (fe, out)
  | none => (fe, out)

/-- `FrameEncoder::flushEncoder(outputPacket)`: the remaining-samples block, then
`encodeFrame(nullptr, outputPacket)`. -/
def flushEncoder (c : Codec) (fuel : Nat) (fe : FrameEncoder) (out : OutputSlot) :
    Option (FrameEncoder × OutputSlot) :=
  if !fe.codecContext_ then some (fe, out)
  else
    match encodeFrame c fuel (fe.flushRemaining c out).1 none (fe.flushRemaining c out).2 with
    | none => none
    | some r => some (r.2.1, r.2.2)

/-- `FrameEncoder::getNextEncodedPacket`: the front packet, removed from the queue.  On an
empty queue the wait does not return (`none`): nothing else pushes. -/
def getNextEncodedPacket (fe : FrameEncoder) : Option (AVPacket × FrameEncoder) :=
  match fe.packetQueue_ with
  | [] => none
  | pkt :: rest => some (pkt, { fe with packetQueue_ := rest, dequeued := fe.dequeued ++ [pkt] })

/-- `FrameEncoder::hasEncodedPackets`. -/
def hasEncodedPackets (fe : FrameEncoder) : Bool := !fe.packetQueue_.isEmpty

/-- `FrameEncoder::clearPacketQueue`: free and drop every queued packet. -/
def clearPacketQueue (fe : FrameEncoder) : FrameEncoder :=
  { fe with packetQueue_ := [], discarded := fe.discarded ++ fe.packetQueue_ }

/-- `FrameEncoder::closeEncoder`. -/
def closeEncoder (fe : FrameEncoder) : FrameEncoder :=
  clearPacketQueue { fe with codecContext_ := false }

/-- `FrameEncoder::setOutputFile`: `created` is whether `avformat_alloc_output_context2`
produced a context. -/
def setOutputFile (fe : FrameEncoder) (created : Bool) : FrameEncoder :=
  { fe with formatContext_ := created }

/-- Feed a list of chunks through `encodeFrame` one after the other (no output pointer),
stopping at the first call that does not return `0`. -/
def encodeFrames (c : Codec) (fuel : Nat) : FrameEncoder → List AVFrame → Option (Int × FrameEncoder)
  | fe, [] => some (0, fe)
  | fe, f :: rest =>
    match fe.encodeFrame c fuel (some f) none with
    | none => none
    | some r => if r.1 < 0 then some (r.1, r.2.1) else encodeFrames c fuel r.2.1 rest

end FrameEncoder

/-! ## AudioProcessor -/

/-- A call into one of the two sinks, with the value the call returned: `av_write_frame` on
the local output container with the packet written, or `sendto` on the datagram socket, made
by `sendUdpData(data, length)`; `data` is `none` when the pointer is null (the end marker)
and the bytes pointed to otherwise. -/
inductive Event
  | localWrite (pkt : AVPacket) (ret : Int)
  | udpSend (data : Option (List Nat)) (ret : Int)
deriving DecidableEq, Repr

/-- The per-frame failure reports the main loop of `processAudio` prints on `std::cerr`, each
with the value of `frameCount` it prints. -/
inductive LogLine
  | failedDecode (frameCount : Int)
  | failedResample (frameCount : Int)
  | failedEncode (frameCount : Int)
deriving DecidableEq, Repr

/-- The packets handed to `av_write_frame` on the local container, in call order. -/
def localWrites : List Event → List AVPacket
  | [] => []
  | Event.localWrite pkt _ :: t => pkt :: localWrites t
  | Event.udpSend _ _ :: t => localWrites t

/-- The calls of `sendUdpData` that reached `sendto`, in call order: the `data` argument and
the value `sendto` returned. -/
def udpSends : List Event → List (Option (List Nat) × Int)
  | [] => []
  | Event.localWrite _ _ :: t => udpSends t
  | Event.udpSend data ret :: t => (data, ret) :: udpSends t

/-- The payload of the datagram a `sendUdpData(data, length)` call sends: the bytes pointed
to, or nothing for the null pointer. -/
def datagram (data : Option (List Nat)) : List Nat := data.getD []

/-- What `readFrame`, `decodePacket` and `resampleFrame` make of one input packet: the decoder
returns no frame, or the resampler returns no frame, or a resampled frame reaches the
encoder. -/
inductive InputPacket
  | decodeFails
  | resampleFails
  | resampled (frame : AVFrame)
deriving DecidableEq, Repr

/-- Everything outside `AudioProcessor` and `FrameEncoder` that one run of `processAudio`
meets: the value `socket()` returns, the outcome of each setup step, the codec of the input
stream, the packets `readFrame` returns until it returns null (each with what decoding and
resampling make of it), the frame `flushResampler` returns, and the two sinks: the value the
k-th `sendto` call and the k-th `av_write_frame` call on the local container return. -/
structure Env where
  codec : Codec
  socket_fd : Int
  open_input_ok : Bool
  init_decoder_ok : Bool
  input_codec : AVCodecID
  init_resampler_ok : Bool
  encoder_found : Bool
  encoder_allocated : Bool
  encoder_opened : Bool
  output_context_created : Bool
  local_context_created : Bool
  local_header_ok : Bool
  input : List InputPacket
  flushed : Option AVFrame
  sendto : Nat → List Nat → Int
  av_write_frame : Nat → AVPacket → Int

/-- State of an `AudioProcessor`: its encoder, whether `localFormatContext_` is non-null, the
socket descriptor, the sample format given to `initializeResampler`, the trace of sink calls
and the per-frame failure reports printed. -/
structure AudioProcessor where
  frameEncoder_ : FrameEncoder
  localFormatContext_ : Bool
  udpSocket_ : Int
  resamplerFormat : Option AVSampleFormat
  trace : List Event
  log : List LogLine
deriving DecidableEq, Repr

/-- What a run of `processAudio` leaves: the returned code, the final state, and the final
values of the locals `udpError`, `frameCount` (the number of input packets read) and
`flushedPacket`. -/
structure RunResult where
  code : Int
  ap : AudioProcessor
  udpError : Bool
  frameCount : Int
  flushedPacket : Option AVPacket
deriving DecidableEq, Repr

namespace AudioProcessor

/-- The constructor `AudioProcessor::AudioProcessor()`. -/
def new : AudioProcessor :=
  { frameEncoder_ := FrameEncoder.new, localFormatContext_ := false, udpSocket_ := -1,
    resamplerFormat := none, trace := [], log := [] }

/-- `AudioProcessor::initUdpClient`: `fd` is the value `socket()` returns. -/
def initUdpClient (ap : AudioProcessor) (fd : Int) : Int × AudioProcessor :=
  let ap1 := { ap with udpSocket_ := fd }
  if ap1.udpSocket_ < 0 then (-1, ap1) else (0, ap1)

/-- `AudioProcessor::closeUdpClient`. -/
def closeUdpClient (ap : AudioProcessor) : AudioProcessor :=
  if ap.udpSocket_ ≥ 0 then { ap with udpSocket_ := -1 } else ap

/-- `AudioProcessor::sendUdpData(data, length)`, `length` being the number of bytes `data`
points to: one `sendto` of the whole payload, of the empty payload for the null pointer. -/
def sendUdpData (env : Env) (ap : AudioProcessor) (data : Option (List Nat)) :
    Int × AudioProcessor :=
  if ap.udpSocket_ < 0 then (-1, ap)
  else
    let bytesSent := env.sendto (udpSends ap.trace).length (datagram data)
    let ap1 := { ap with trace := ap.trace ++ [Event.udpSend data bytesSent] }
    if bytesSent < 0 then (-1, ap1) else (bytesSent, ap1)

/-- `AudioProcessor::initializeLocalOutputFile`. -/
def initializeLocalOutputFile (env : Env) (ap : AudioProcessor) : Int × AudioProcessor :=
  if !env.local_context_created then (-1, ap)
  else
    let ap1 := { ap with localFormatContext_ := true }
    if !env.local_header_ok then (-1, ap1) else (0, ap1)

/-- `AudioProcessor::writeLocalOutputPacket(packet)` for a non-null packet. -/
def writeLocalOutputPacket (env : Env) (ap : AudioProcessor) (packet : AVPacket) :
    Int × AudioProcessor :=
  if !ap.localFormatContext_ then (-1, ap)
  else
    let r := env.av_write_frame (localWrites ap.trace).length packet
    let ap1 := { ap with trace := ap.trace ++ [Event.localWrite packet r] }
    if r < 0 then (-1, ap1) else (0, ap1)

/-- `AudioProcessor::closeLocalOutputFile`. -/
def closeLocalOutputFile (ap : AudioProcessor) : AudioProcessor :=
  { ap with localFormatContext_ := false }

/-- The target sample format `processAudio` computes from the codec id of the input stream. -/
def targetSampleFormat (codecId : AVCodecID) : AVSampleFormat :=
  if codecId = AVCodecID.AAC then AVSampleFormat.FLTP
  else if codecId = AVCodecID.MP2 ∨ codecId = AVCodecID.MP1 then AVSampleFormat.S16P
  else if codecId = AVCodecID.MP3 then AVSampleFormat.S16P
  else AVSampleFormat.FLTP

/-- What `processAudio` does with one encoded packet it holds: write it to the local file
(a failure is only reported), then send it over UDP when the socket is open and `udpError`
is not set, setting `udpError` when the send fails. -/
def forwardPacket (env : Env) (ap : AudioProcessor) (udpError : Bool) (pkt : AVPacket) :
    AudioProcessor × Bool :=
  let ap1 := (ap.writeLocalOutputPacket env pkt).2
  if ap1.udpSocket_ ≥ 0 ∧ !udpError then
    let r := ap1.sendUdpData env (some pkt.data)
    if r.1 < 0 then (r.2, true) else (r.2, udpError)
  else (ap1, udpError)

/-- The drain loop `while (frameEncoder_->hasEncodedPackets())`. -/
def drainQueue (env : Env) : Nat → AudioProcessor → Bool → Option (AudioProcessor × Bool)
  | 0, _, _ => none
  | fuel + 1, ap, udpError =>
    if ap.frameEncoder_.hasEncodedPackets then
      match ap.frameEncoder_.getNextEncodedPacket with
      | none => none
      | some r =>
        let p := forwardPacket env { ap with frameEncoder_ := r.2 } udpError r.1
        drainQueue env fuel p.1 p.2
    else some (ap, udpError)

/-- The main loop `while ((packet = frameReader_->readFrame()) != nullptr)` over the packets
still to be read.  Returns the state, `udpError` and `frameCount` at the end of the loop. -/
def mainLoop (env : Env) (fuel : Nat) :
    List InputPacket → AudioProcessor → Bool → Int → Option (AudioProcessor × Bool × Int)
  | [], ap, udpError, frameCount => some (ap, udpError, frameCount)
  | InputPacket.decodeFails :: rest, ap, udpError, frameCount =>
    mainLoop env fuel rest
      { ap with log := ap.log ++ [LogLine.failedDecode (frameCount + 1)] } udpError
      (frameCount + 1)
  | InputPacket.resampleFails :: rest, ap, udpError, frameCount =>
    mainLoop env fuel rest
      { ap with log := ap.log ++ [LogLine.failedResample (frameCount + 1)] } udpError
      (frameCount + 1)
  | InputPacket.resampled frame :: rest, ap, udpError, frameCount =>
    match ap.frameEncoder_.encodeFrame env.codec fuel (some frame) none with
    | none => none
    | some r =>
      let ap1 : AudioProcessor := { ap with frameEncoder_ := r.2.1 }
      if r.1 < 0 then
        some ({ ap1 with log := ap1.log ++ [LogLine.failedEncode (frameCount + 1)] }, udpError,
          frameCount + 1)
      else
        match drainQueue env fuel ap1 udpError with
        | none => none
        | some p => mainLoop env fuel rest p.1 p.2 (frameCount + 1)

/-- The resampler flush of `processAudio`: when `flushResampler` returns a frame, encode it
(the returned value is not looked at) and drain the queue. -/
def flushResamplerStep (env : Env) (fuel : Nat) (ap : AudioProcessor) (udpError : Bool) :
    Option (AudioProcessor × Bool) :=
  match env.flushed with
  | none => some (ap, udpError)
  | some flushedFrame =>
    match ap.frameEncoder_.encodeFrame env.codec fuel (some flushedFrame) none with
    | none => none
    | some r => drainQueue env fuel { ap with frameEncoder_ := r.2.1 } udpError

/-- The encoder flush of `processAudio`: `flushEncoder(&flushedPacket)`, then the packet left
in `flushedPacket`, if any, goes to the two sinks.  Returns the state, `udpError` and
`flushedPacket`. -/
def flushEncoderStep (env : Env) (fuel : Nat) (ap : AudioProcessor) (udpError : Bool) :
    Option (AudioProcessor × Bool × Option AVPacket) :=
  match ap.frameEncoder_.flushEncoder env.codec fuel (some none) with
  | none => none
  | some r =>
    let ap1 : AudioProcessor := { ap with frameEncoder_ := r.1 }
    match r.2 with
    | some (some flushedPacket) =>
      let p := forwardPacket env ap1 udpError flushedPacket
      some (p.1, p.2, some flushedPacket)
    | _ => some (ap1, udpError, none)

/-- The end marker and the clean-up of `processAudio`, and the returned code. -/
def finish (env : Env) (ap : AudioProcessor) (udpError : Bool) (frameCount : Int)
    (flushedPacket : Option AVPacket) : RunResult :=
  let ap1 := if ap.udpSocket_ ≥ 0 ∧ !udpError then (ap.sendUdpData env none).2 else ap
  let ap2 : AudioProcessor := { ap1 with frameEncoder_ := ap1.frameEncoder_.closeEncoder }
  let ap3 := ap2.closeLocalOutputFile.closeUdpClient
  { code := if udpError then -1 else 0, ap := ap3, udpError := udpError,
    frameCount := frameCount, flushedPacket := flushedPacket }

/-- The part of `processAudio` after a successful setup: main loop, resampler flush, encoder
flush, end marker, clean-up. -/
def run (env : Env) (fuel : Nat) (ap : AudioProcessor) : Option RunResult :=
  match mainLoop env fuel env.input ap false 0 with
  | none => none
  | some m =>
    match flushResamplerStep env fuel m.1 m.2.1 with
    | none => none
    | some f =>
      match flushEncoderStep env fuel f.1 f.2 with
      | none => none
      | some e => some (finish env e.1 e.2.1 m.2.2 e.2.2)

/-- What `processAudio` leaves when a setup step fails in state `a`: the socket is closed and
-1 is returned. -/
def setupFailure (a : AudioProcessor) : RunResult :=
  { code := -1, ap := a.closeUdpClient, udpError := false, frameCount := 0,
    flushedPacket := none }

/-- The setup of `processAudio`: either the result returned at once (a step failed), or the
state the main loop starts from. -/
def setup (env : Env) (ap : AudioProcessor) : RunResult ⊕ AudioProcessor :=
  let ap1 := (ap.initUdpClient env.socket_fd).2
  if !env.open_input_ok then Sum.inl (setupFailure ap1)
  else if !env.init_decoder_ok then Sum.inl (setupFailure ap1)
  else
    let ap2 : AudioProcessor :=
      { ap1 with resamplerFormat := some (targetSampleFormat env.input_codec) }
    if !env.init_resampler_ok then
      Sum.inl (setupFailure { ap2 with frameEncoder_ := ap2.frameEncoder_.closeEncoder })
    else
      let r := ap2.frameEncoder_.initializeEncoder AVCodecID.MP3 env.encoder_found
        env.encoder_allocated env.encoder_opened
      let ap3 : AudioProcessor := { ap2 with frameEncoder_ := r.2 }
      if r.1 < 0 then Sum.inl (setupFailure ap3)
      else
        let ap4 : AudioProcessor :=
          { ap3 with frameEncoder_ := ap3.frameEncoder_.setOutputFile env.output_context_created }
        let l := ap4.initializeLocalOutputFile env
        if l.1 < 0 then Sum.inl (setupFailure l.2) else Sum.inr l.2

/-- `AudioProcessor::processAudio` on a freshly constructed `AudioProcessor`. -/
def processAudio (env : Env) (fuel : Nat) : Option RunResult :=
  match setup env AudioProcessor.new with
  | Sum.inl r => some r
  | Sum.inr ap => run env fuel ap

end AudioProcessor

/-! ## Notions used to state the properties -/

/-- The samples of all frames handed to the encoder, concatenated in call order (the flush
frame carries none). -/
def sentSamples : List (Option AVFrame) → List Sample
  | [] => []
  | none :: t => sentSamples t
  | some f :: t => f.data ++ sentSamples t

/-- Every encoder call succeeds: the buffer allocation, every `avcodec_send_frame`, and every
receive loop ends on `EAGAIN` / `EOF`. -/
def Codec.Succeeds (c : Codec) : Prop :=
  c.get_buffer_ok = true ∧
    ∀ h, (c.encode h).send_ok = true ∧ (c.encode h).receive_error = false

/-- The aggregator holds exactly the samples `consumed`: the blocks sent so far are full
blocks of `F` samples, fewer than `F` samples are buffered, and the sent samples followed by
the buffered ones are `consumed`. -/
def Aggregated (F : Nat) (fe : FrameEncoder) (consumed : List Sample) : Prop :=
  ∃ (b : AVFrame) (r : Nat), fe.bufferFrame_ = some b ∧ b.data.length = F ∧
    fe.bufferedSamples_ = r ∧ r < F ∧
    (∀ f ∈ fe.sent, ∃ fr : AVFrame, f = some fr ∧ fr.data.length = F) ∧
    sentSamples fe.sent ++ b.data.take r = consumed

/-- State of the encoder between two `encodeFrame` calls, relative to the samples `X` fed so
far: the codec context is open, and either no buffer frame exists yet (nothing was fed and
nothing sent) or the aggregator holds `X`. -/
def FrameEncoder.Fed (F : Nat) (fe : FrameEncoder) (X : List Sample) : Prop :=
  fe.codecContext_ = true ∧
    ((fe.bufferFrame_ = none ∧ fe.bufferedSamples_ = 0 ∧ fe.sent = [] ∧ X = []) ∨
      Aggregated F fe X)

/-- The state of the aggregator is within bounds: when the codec has a fixed frame size,
`0 ≤ bufferedSamples_ ≤ frame_size`. -/
def FrameEncoder.Bounded (c : Codec) (fe : FrameEncoder) : Prop :=
  0 < c.frame_size → 0 ≤ fe.bufferedSamples_ ∧ fe.bufferedSamples_ ≤ c.frame_size

/-- The samples of a list of chunks, concatenated. -/
def chunkSamples : List AVFrame → List Sample
  | [] => []
  | f :: t => f.data ++ chunkSamples t

/-- The number of samples of a list of chunks: the sum of their `nb_samples`. -/
def totalSamples (chunks : List AVFrame) : Int := (chunks.map AVFrame.nb_samples).sum

/-- An operation on the packet queue: the push the receive loop makes, or a call of
`getNextEncodedPacket`. -/
inductive QueueOp
  | push (pkt : AVPacket)
  | pop
deriving DecidableEq, Repr

/-- Run queue operations in order.  Returns the packets the pops returned, in pop order, and
the final state; `none` when a pop is made on an empty queue (the call would not return). -/
def runQueueOps : FrameEncoder → List QueueOp → Option (List AVPacket × FrameEncoder)
  | fe, [] => some ([], fe)
  | fe, QueueOp.push pkt :: rest => runQueueOps (fe.push pkt) rest
  | fe, QueueOp.pop :: rest =>
    match fe.getNextEncodedPacket with
    | none => none
    | some r =>
      match runQueueOps r.2 rest with
      | none => none
      | some q => some (r.1 :: q.1, q.2)

/-- The packets a sequence of queue operations pushes, in push order. -/
def pushedPackets : List QueueOp → List AVPacket
  | [] => []
  | QueueOp.push pkt :: rest => pkt :: pushedPackets rest
  | QueueOp.pop :: rest => pushedPackets rest

/-- Whether every pop of a sequence of queue operations is made on a non-empty queue, for a
queue that holds `n` packets before the first operation. -/
def popsGuarded : Nat → List QueueOp → Bool
  | _, [] => true
  | n, QueueOp.push _ :: rest => popsGuarded (n + 1) rest
  | 0, QueueOp.pop :: _ => false
  | n + 1, QueueOp.pop :: rest => popsGuarded n rest

/-- The number of pops in a sequence of queue operations. -/
def popCount : List QueueOp → Nat
  | [] => 0
  | QueueOp.push _ :: rest => popCount rest
  | QueueOp.pop :: rest => popCount rest + 1

/-- A small sequence of queue operations: push a, push b, pop, push c, pop. -/
def demoOps : List QueueOp :=
  [QueueOp.push ⟨[1], 0⟩, QueueOp.push ⟨[2], 1⟩, QueueOp.pop, QueueOp.push ⟨[3], 2⟩, QueueOp.pop]

/-- A codec that accepts every frame and yields one packet for each frame it is given, whose
payload is the number of samples of that frame and whose pts is the number of frames sent so
far, and no packet for the flush frame. -/
def demoCodec (frameSize : Int) : Codec :=
  { frame_size := frameSize
    get_buffer_ok := true
    av_rescale_q := fun off _ => off
    encode := fun h =>
      { send_ok := true
        packets := match h.getLast? with
                   | some (some f) => [{ data := [f.data.length], pts := h.length }]
                   | _ => []
        receive_error := false } }

/-- An environment in which every setup step succeeds, the socket is open, the codec is `c`,
the input is `frames` (each decoded and resampled), the resampler flush yields nothing, every
local write succeeds, and the k-th `sendto` (counted from 0) fails exactly when
`sendFails k`. -/
def demoEnv (c : Codec) (frames : List AVFrame) (sendFails : Nat → Bool) : Env :=
  { codec := c
    socket_fd := 3
    open_input_ok := true
    init_decoder_ok := true
    input_codec := AVCodecID.FLAC
    init_resampler_ok := true
    encoder_found := true
    encoder_allocated := true
    encoder_opened := true
    output_context_created := true
    local_context_created := true
    local_header_ok := true
    input := frames.map InputPacket.resampled
    flushed := none
    sendto := fun k data => if sendFails k then -1 else data.length
    av_write_frame := fun _ _ => 0 }

/-- Scenario B: ten frames of one block each (frameSize 2), so ten units; the fifth send
fails. -/
def scenarioB : Env :=
  demoEnv (demoCodec 2) (List.replicate 10 ⟨[1, 2], 0, 48000⟩) (fun k => k == 4)

/-- One frame of one block, so one unit; the send of the unit succeeds and the send of the end
marker fails. -/
def endMarkerFails : Env :=
  demoEnv (demoCodec 2) [⟨[1, 2], 0, 48000⟩] (fun k => k == 1)

/-- No input at all, and every send fails: the only send is that of the end marker. -/
def onlyEndMarkerFails : Env :=
  demoEnv (demoCodec 2) [] (fun _ => true)

/-- A codec with frameSize 2 that yields no packet for a block and two packets, of payloads
[7] and [8], for the flush frame. -/
def flushCodec : Codec :=
  { frame_size := 2
    get_buffer_ok := true
    av_rescale_q := fun off _ => off
    encode := fun h =>
      { send_ok := true
        packets := match h.getLast? with
                   | some none => [{ data := [7], pts := 100 }, { data := [8], pts := 101 }]
                   | _ => []
        receive_error := false } }

/-- One frame of one block on `flushCodec`, every send succeeding: the encoder flush emits two
units. -/
def flushTwoUnits : Env :=
  demoEnv flushCodec [⟨[1, 2], 0, 48000⟩] (fun _ => false)

/-- A codec with frameSize 2 whose first `avcodec_send_frame` fails and whose later calls
yield one packet each. -/
def firstSendFailsCodec : Codec :=
  { frame_size := 2
    get_buffer_ok := true
    av_rescale_q := fun off _ => off
    encode := fun h =>
      { send_ok := h.length != 1
        packets := [{ data := [h.length], pts := 0 }]
        receive_error := false } }

/-- Three input packets: a frame whose encoding fails, then a packet that fails to decode and
a frame. -/
def encodeFailsFirst : Env :=
  { demoEnv firstSendFailsCodec [] (fun _ => false) with
    input := [InputPacket.resampled ⟨[1, 2], 0, 48000⟩, InputPacket.decodeFails,
              InputPacket.resampled ⟨[3, 4], 0, 48000⟩] }

/-- Four input packets on a codec that never fails: a packet that fails to decode, a frame, a
packet that fails to resample, a frame. -/
def decodeAndResampleFail : Env :=
  { demoEnv (demoCodec 2) [] (fun _ => false) with
    input := [InputPacket.decodeFails, InputPacket.resampled ⟨[1, 2], 0, 48000⟩,
              InputPacket.resampleFails, InputPacket.resampled ⟨[3, 4], 0, 48000⟩] }

/-- Whether every setup step of `processAudio` succeeds: the input opens and the decoder, the
resampler, the encoder and the local output file initialise. -/
def Env.setupOk (env : Env) : Bool :=
  env.open_input_ok && env.init_decoder_ok && env.init_resampler_ok && env.encoder_found &&
    env.encoder_allocated && env.encoder_opened && env.local_context_created &&
    env.local_header_ok

/-- The state of the two sinks after the units `U` have been forwarded, `udpError` being `e`:
each unit was written to the local file once, in order; the `sendUdpData` calls made so far
carry the payloads of the first units, in order; without `udpError` no call failed and, the
socket being open, every unit was sent; with `udpError` exactly the last call failed; with
the socket closed no call was made. -/
def SinkInv (socket : Int) (t : List Event) (e : Bool) (U : List AVPacket) : Prop :=
  localWrites t = U ∧
  (udpSends t).map Prod.fst = (U.take (udpSends t).length).map (fun p => some p.data) ∧
  (e = false → (∀ s ∈ udpSends t, 0 ≤ s.2) ∧ (0 ≤ socket → (udpSends t).length = U.length)) ∧
  (e = true → ∃ S s, udpSends t = S ++ [s] ∧ s.2 < 0 ∧ ∀ x ∈ S, 0 ≤ x.2) ∧
  (socket < 0 → udpSends t = [])

/-- A sink event with the value returned by a local write blanked. -/
def Event.eraseWriteRet : Event → Event
  | Event.localWrite pkt _ => Event.localWrite pkt 0
  | Event.udpSend data ret => Event.udpSend data ret

/-- A state with the values returned by the local writes blanked in its trace. -/
def AudioProcessor.eraseWriteRets (ap : AudioProcessor) : AudioProcessor :=
  { ap with trace := ap.trace.map Event.eraseWriteRet }

/-- A run result with the values returned by the local writes blanked in its trace. -/
def RunResult.eraseWriteRets (r : RunResult) : RunResult :=
  { r with ap := r.ap.eraseWriteRets }

/-- The environment `env` with another local-file sink: `w k pkt` is what the k-th
`av_write_frame` call on the local container returns. -/
def Env.withWrites (env : Env) (w : Nat → AVPacket → Int) : Env :=
  { env with av_write_frame := w }

/-- What holds of an `AudioProcessor` and `udpError` at every point of `processAudio` between
the setup and the encoder flush: the local container is open, the two sinks have been given
exactly the units dequeued so far (`SinkInv`), and the aggregator is within bounds. -/
def LoopInv (env : Env) (ap : AudioProcessor) (e : Bool) : Prop :=
  ap.localFormatContext_ = true ∧
    SinkInv ap.udpSocket_ ap.trace e ap.frameEncoder_.dequeued ∧
    FrameEncoder.Bounded env.codec ap.frameEncoder_

/-- How the main loop ended, read from the log and `frameCount`, for a loop entered with
`frameCount = n` on `len` packets: either no encode failure was reported and every packet was
read, or the one encode failure reported is that of the last packet read. -/
def LoopEnd (log : List LogLine) (n : Int) (len : Nat) (frameCount : Int) : Prop :=
  ((∀ k, LogLine.failedEncode k ∉ log) ∧ frameCount = n + len) ∨
    (LogLine.failedEncode frameCount ∈ log ∧ (∀ k, LogLine.failedEncode k ∈ log → k = frameCount) ∧
      frameCount ≤ n + len)

/-- What a run that got past the setup leaves, `socket` being the descriptor the run used:
the code is -1 with `udpError` and 0 without; up to the end marker the sinks have been given
exactly the units dequeued followed by the flushed packet (`SinkInv`); the end marker, one
`sendUdpData(nullptr, 0)`, follows when the socket is open and `udpError` is not set; and the
log and `frameCount` tell how the main loop ended. -/
def RunPost (env : Env) (socket : Int) (r : RunResult) : Prop :=
  r.code = (if r.udpError then -1 else 0) ∧
  (∃ t, SinkInv socket t r.udpError
            (r.ap.frameEncoder_.dequeued ++ r.flushedPacket.toList) ∧
        r.ap.trace = t ++
          (if 0 ≤ socket ∧ r.udpError = false then
            [Event.udpSend none (env.sendto (udpSends t).length [])]
          else [])) ∧
  LoopEnd r.ap.log 0 env.input.length r.frameCount


/-! ## UdpServer: the receiver

`UdpServer::start` loops for ever over sessions: it creates and binds a socket, receives
datagrams until an end marker, a timeout, a receive error or `stop()`, closes the output
container and the socket, and starts again.  The network and the muxer are the environment:
the datagrams and receive failures come as a list of `RecvEvent`s, one per `recvfrom` call
(when the list is exhausted nothing arrives any more and every `recvfrom` times out), and
the results of `socket`, `bind` and of the muxer calls come from a `SessionEnv` per
iteration.  Every operation on the socket and on the container is recorded in order.
Console output is not modelled. -/

/-- The outcome of one `recvfrom` call, or a `stop()` that arrives while the call waits. -/
inductive RecvEvent
  | datagram (payload : List Nat)
  | timeout
  | error
  | stop
  deriving DecidableEq, Repr

/-- One operation of the receiver on its socket or on its output container. -/
inductive ServerEvent
  | socketCreated (fd : Int)
  | bound (ret : Int)
  | socketClosed
  | contextAllocated (fileName : List Char) (ok : Bool)
  | streamCreated (ok : Bool)
  | fileOpened (ret : Int)
  | headerWritten (ret : Int)
  | packetWritten (payload : List Nat) (ret : Int)
  | trailerWritten
  | fileClosed
  | contextFreed
  deriving DecidableEq, Repr

/-- Results the system and the muxer give during one iteration of `start`: `socket`, `bind`,
the clock reading formatted by `strftime`, `avformat_alloc_output_context2`,
`avformat_new_stream`, the `AVFMT_NOFILE` flag of the muxer, `avio_open`,
`avformat_write_header`, and `av_write_frame` for the `i`-th packet of the session. -/
structure SessionEnv where
  socket : Int
  bind : Int
  timestamp : List Char
  alloc_ok : Bool
  stream_ok : Bool
  nofile : Bool
  avio_open : Int
  write_header : Int
  av_write_frame : Nat → List Nat → Int

/-- The members of `UdpServer`. -/
structure UdpServer where
  running_ : Bool
  socket_fd_ : Int
  deriving DecidableEq, Repr

/-- The locals of one iteration of `start` (`formatContext` is true when the pointer is not
null), the number of packets handed to `av_write_frame` so far, and the operations the
iteration has performed, oldest first. -/
structure Session where
  endMarkerReceived : Bool
  dataReceived : Bool
  formatContext : Bool
  packets : Nat
  events : List ServerEvent
  deriving DecidableEq, Repr

/-- How one iteration of the outer loop of `start` ends: `start` returns a code, or the
loop goes round with the receive events that are left. -/
inductive IterationResult
  | returned (code : Int) (srv : UdpServer) (events : List ServerEvent)
  | looped (srv : UdpServer) (s : Session) (rest : List RecvEvent)

/-- What `start` has done once the fuel (a bound on the number of iterations) is used up or
`start` has returned: `code` is `none` while `start` is still looping. -/
structure StartResult where
  code : Option Int
  srv : UdpServer
  trace : List ServerEvent
  rest : List RecvEvent

namespace UdpServer

/-- The size of the receive buffer: `BUFFER_SIZE`. -/
def BUFFER_SIZE : Nat := 4096

/-- The bytes `recvfrom(socket_fd_, buffer, BUFFER_SIZE, ...)` leaves in the buffer, counted
by `bytes_received`: on a datagram socket the bytes of a message beyond the size of the
buffer are discarded by the system. -/
def recvfrom (payload : List Nat) : List Nat := payload.take BUFFER_SIZE

/-- The receiver's `generateOutputFileName()`: the formatted time followed by
`_recv.mp3`. -/
def generateOutputFileName (timestamp : List Char) : List Char :=
  timestamp ++ "_recv.mp3".toList

/-- The method `stop()`, with the close it performs. -/
def stop (srv : UdpServer) : UdpServer × List ServerEvent :=
  if 0 ≤ srv.socket_fd_ then
    ({ running_ := false, socket_fd_ := -1 }, [ServerEvent.socketClosed])
  else ({ srv with running_ := false }, [])

/-- The block of `start` run on the first nonempty datagram: create the output context, the
stream, open the file and write the header.  The Boolean is false when the block ends in
`break`. -/
def openOutput (env : SessionEnv) (s : Session) : Session × Bool :=
  let name := generateOutputFileName env.timestamp
  let s1 : Session :=
    { s with
      dataReceived := true
      events := s.events ++ [ServerEvent.contextAllocated name env.alloc_ok] }
  if !env.alloc_ok then (s1, false)
  else
    let s2 : Session :=
      { s1 with
        formatContext := true
        events := s1.events ++ [ServerEvent.streamCreated env.stream_ok] }
    if !env.stream_ok then (s2, false)
    else
      let s3 : Session :=
        if env.nofile then s2
        else { s2 with events := s2.events ++ [ServerEvent.fileOpened env.avio_open] }
      if !env.nofile && decide (env.avio_open < 0) then (s3, false)
      else
        let s4 : Session :=
          { s3 with events := s3.events ++ [ServerEvent.headerWritten env.write_header] }
        if env.write_header < 0 then (s4, false) else (s4, true)

/-- The body of the receive loop for one `recvfrom` result.  The Boolean is false when the
body ends in `break`.  A `stop()` that arrives while `recvfrom` waits clears `running_` and
closes the socket; the loop test comes next. -/
def receive (env : SessionEnv) (srv : UdpServer) (s : Session) :
    RecvEvent → UdpServer × Session × Bool
  | RecvEvent.timeout => (srv, { s with endMarkerReceived := true }, true)
  | RecvEvent.error => (srv, s, false)
  | RecvEvent.stop =>
      let r := stop srv
      (r.1, { s with events := s.events ++ r.2 }, true)
  | RecvEvent.datagram payload =>
      let buffer := recvfrom payload
      if buffer.length = 0 then (srv, { s with endMarkerReceived := true }, true)
      else
        let r := if s.dataReceived then (s, true) else openOutput env s
        if r.2 then
          let s1 : Session := r.1
          let e := ServerEvent.packetWritten buffer (env.av_write_frame s1.packets buffer)
          (srv, { s1 with packets := s1.packets + 1, events := s1.events ++ [e] }, true)
        else (srv, r.1, false)

/-- The receive loop `while (running_ && !endMarkerReceived)`: each turn takes the next
receive event; when none is left `recvfrom` times out. -/
def receiveLoop (env : SessionEnv) :
    List RecvEvent → UdpServer → Session → UdpServer × Session × List RecvEvent
  | [], srv, s =>
      if srv.running_ && !s.endMarkerReceived then
        (srv, { s with endMarkerReceived := true }, [])
      else (srv, s, [])
  | ev :: rest, srv, s =>
      if srv.running_ && !s.endMarkerReceived then
        let r := receive env srv s ev
        if r.2.2 then receiveLoop env rest r.1 r.2.1 else (r.1, r.2.1, rest)
      else (srv, s, ev :: rest)

/-- The block "close file if we opened it" after the receive loop. -/
def closeOutput (env : SessionEnv) (s : Session) : Session :=
  if s.formatContext then
    { s with events := s.events ++ [ServerEvent.trailerWritten] ++
        (if env.nofile then [] else [ServerEvent.fileClosed]) ++ [ServerEvent.contextFreed] }
  else s

/-- The block "close socket" at the end of an iteration. -/
def closeSocket (srv : UdpServer) (s : Session) : UdpServer × Session :=
  if 0 ≤ srv.socket_fd_ then
    ({ srv with socket_fd_ := -1 }, { s with events := s.events ++ [ServerEvent.socketClosed] })
  else (srv, s)

/-- One iteration of the outer loop of `start`. -/
def iteration (env : SessionEnv) (srv : UdpServer) (events : List RecvEvent) :
    IterationResult :=
  if env.socket < 0 then
    IterationResult.returned (-1) { srv with socket_fd_ := env.socket }
      [ServerEvent.socketCreated env.socket]
  else if env.bind < 0 then
    IterationResult.returned (-1) { srv with socket_fd_ := -1 }
      [ServerEvent.socketCreated env.socket, ServerEvent.bound env.bind,
       ServerEvent.socketClosed]
  else
    let s0 : Session :=
      { endMarkerReceived := false, dataReceived := false, formatContext := false,
        packets := 0,
        events := [ServerEvent.socketCreated env.socket, ServerEvent.bound env.bind] }
    let r := receiveLoop env events { running_ := true, socket_fd_ := env.socket } s0
    let c := closeSocket r.1 (closeOutput env r.2.1)
    IterationResult.looped c.1 c.2 r.2.2

/-- The method `start`, as far as `fuel` iterations of its outer loop: iteration `k` runs in
the environment `envs k`, and the operations performed are appended to `trace`. -/
def start (envs : Nat → SessionEnv) :
    Nat → Nat → UdpServer → List ServerEvent → List RecvEvent → StartResult
  | 0, _, srv, trace, events => { code := none, srv := srv, trace := trace, rest := events }
  | fuel + 1, k, srv, trace, events =>
      match iteration (envs k) srv events with
      | IterationResult.returned code srv1 evs =>
          { code := some code, srv := srv1, trace := trace ++ evs, rest := events }
      | IterationResult.looped srv1 s rest =>
          start envs fuel (k + 1) srv1 (trace ++ s.events) rest

end UdpServer

/-! ### Notions used to state the properties of the receiver -/

/-- The operations recorded when the payloads `ps` are written as packets number `i`,
`i + 1`, ... of a session. -/
def UdpServer.packetEvents (env : SessionEnv) : Nat → List (List Nat) → List ServerEvent
  | _, [] => []
  | i, p :: ps =>
      ServerEvent.packetWritten p (env.av_write_frame i p) :: UdpServer.packetEvents env (i + 1) ps

/-- The payloads of the packets written, in the order of the record. -/
def writtenPayloads : List ServerEvent → List (List Nat)
  | [] => []
  | ServerEvent.packetWritten p _ :: t => p :: writtenPayloads t
  | _ :: t => writtenPayloads t

/-- The operations on the container when it is set up without failure for a muxer that
writes to a file: context, stream, file, header. -/
def UdpServer.openedEvents (env : SessionEnv) : List ServerEvent :=
  [ServerEvent.contextAllocated (UdpServer.generateOutputFileName env.timestamp) true,
   ServerEvent.streamCreated true,
   ServerEvent.fileOpened env.avio_open,
   ServerEvent.headerWritten env.write_header]

/-- The record of a complete session that writes the payloads `ps`: socket and bind, the
container set up, one packet per payload, then trailer, file close, context free and socket
close. -/
def UdpServer.recordedSession (env : SessionEnv) (ps : List (List Nat)) : List ServerEvent :=
  [ServerEvent.socketCreated env.socket, ServerEvent.bound env.bind] ++
    UdpServer.openedEvents env ++ UdpServer.packetEvents env 0 ps ++
    [ServerEvent.trailerWritten, ServerEvent.fileClosed, ServerEvent.contextFreed,
     ServerEvent.socketClosed]

/-- The record of an iteration in which nothing but the socket is touched. -/
def UdpServer.idleSession (env : SessionEnv) : List ServerEvent :=
  [ServerEvent.socketCreated env.socket, ServerEvent.bound env.bind, ServerEvent.socketClosed]

/-- The environment in which the socket, the bind and the set-up of the container succeed,
for a muxer that writes to a file. -/
def SessionEnv.Succeeds (env : SessionEnv) : Prop :=
  0 ≤ env.socket ∧ 0 ≤ env.bind ∧ env.alloc_ok = true ∧ env.stream_ok = true ∧
    env.nofile = false ∧ 0 ≤ env.avio_open ∧ 0 ≤ env.write_header

/-- The operations one iteration has performed. -/
def IterationResult.events : IterationResult → List ServerEvent
  | IterationResult.returned _ _ evs => evs
  | IterationResult.looped _ s _ => s.events

/-- Recognises a call of `avformat_write_header`. -/
def ServerEvent.isHeader : ServerEvent → Bool
  | ServerEvent.headerWritten _ => true
  | _ => false

/-- Recognises a call of `av_write_frame`. -/
def ServerEvent.isPacket : ServerEvent → Bool
  | ServerEvent.packetWritten _ _ => true
  | _ => false

/-- Recognises an operation on the output container. -/
def ServerEvent.onContainer : ServerEvent → Bool
  | ServerEvent.socketCreated _ => false
  | ServerEvent.bound _ => false
  | ServerEvent.socketClosed => false
  | _ => true

/-- The number of times the header was written. -/
def headerCount (t : List ServerEvent) : Nat := t.countP ServerEvent.isHeader

/-- A header was written with success somewhere in the record. -/
def Headed (t : List ServerEvent) : Prop := ∃ h : Int, 0 ≤ h ∧ ServerEvent.headerWritten h ∈ t

/-- Every packet of the record comes after a header written with success. -/
def HeaderFirst (t : List ServerEvent) : Prop :=
  ∀ t1 p r t2, t = t1 ++ ServerEvent.packetWritten p r :: t2 → Headed t1

/-- An environment in which every call succeeds; the clock reads `20240101_120000`. -/
def demoSession : SessionEnv :=
  { socket := 3, bind := 0, timestamp := "20240101_120000".toList, alloc_ok := true,
    stream_ok := true, nofile := false, avio_open := 0, write_header := 0,
    av_write_frame := fun _ _ => 0 }

/-- Scenario D: three nonempty datagrams and the zero-length end marker. -/
def scenarioD : List RecvEvent :=
  [RecvEvent.datagram [1], RecvEvent.datagram [2, 3], RecvEvent.datagram [4],
   RecvEvent.datagram []]

/-- The inactivity variant of scenario D: the sender stops without the end marker, and a
datagram of a later session follows. -/
def scenarioTimeout : List RecvEvent :=
  [RecvEvent.datagram [1], RecvEvent.datagram [2, 3], RecvEvent.timeout,
   RecvEvent.datagram [9]]

/-- The first datagram of the iteration is the zero-length one. -/
def emptyFirst : List RecvEvent := [RecvEvent.datagram [], RecvEvent.datagram [7]]

/-- What holds of the record of an iteration at every test of the receive loop: no packet
before a header written with success, at most one header, and the header is there exactly
when data has been received. -/
def Session.Inv (s : Session) : Prop :=
  HeaderFirst s.events ∧ headerCount s.events ≤ 1 ∧
    (s.dataReceived = true → Headed s.events) ∧
    (s.dataReceived = false → headerCount s.events = 0)

/-- What holds of the record of an iteration at its end. -/
def Session.Post (s : Session) : Prop :=
  HeaderFirst s.events ∧ headerCount s.events ≤ 1

/-- A receiver that has not yet started. -/
def UdpServer.new : UdpServer := { running_ := false, socket_fd_ := -1 }

/-! ## Resampler

`libswresample` is the environment.  Its state is the sequence of `swr_convert` calls made
so far; `Swr` gives what `swr_get_delay`, `swr_convert` and `swr_next_pts` return after such
a sequence, and whether `av_frame_get_buffer` succeeds for a requested size.  The sample
values are converted by the library and do not appear: the resampler is followed through
its sample counts and through the capacity its output buffer was allocated with. -/

/-- One call of `swr_convert`: the room offered for the output and the number of input
samples given (`none` for the null input of a flush). -/
structure SwrCall where
  out_count : Int
  in_count : Option Int
  deriving DecidableEq, Repr

/-- What the library returns: `get_delay calls base` after the calls made so far, the result
of the next `swr_convert` call, `swr_next_pts`, and `av_frame_get_buffer` for a frame of the
given `nb_samples`. -/
structure Swr where
  get_delay : List SwrCall → Int → Int
  convert : List SwrCall → SwrCall → Int
  next_pts : List SwrCall → Int
  get_buffer : Int → Bool

/-- The fields of a decoded frame that `resampleFrame` reads. -/
structure InputFrame where
  sample_rate : Int
  nb_samples : Int
  deriving DecidableEq, Repr

/-- The frame `resampledFrame_`: `nb_samples`, `pts`, and the number of samples per channel
its buffer was allocated for by `av_frame_get_buffer`.  When that call fails for want of
memory, libavutil unreferences the frame: it is left without buffer (capacity 0) and with
`nb_samples` reset to 0. -/
structure ResampledFrame where
  nb_samples : Int
  capacity : Int
  pts : Int
  deriving DecidableEq, Repr

/-- The members of `Resampler`, and the `swr_convert` calls made so far. -/
structure Resampler where
  swrContext_ : Bool
  resampledFrame_ : Option ResampledFrame
  targetSampleFormat_ : Option AVSampleFormat
  calls : List SwrCall
  deriving DecidableEq, Repr

/-- Modelled from the spec: `av_rescale_rnd(a, b, c, AV_ROUND_UP)` of libavutil, the
quotient `a * b / c` rounded up, for `c > 0`. -/
def av_rescale_rnd_up (a b c : Int) : Int := (a * b + (c - 1)) / c

/-- The conversion of a 64-bit value to `int`: reduction modulo `2 ^ 32` into
`[-2 ^ 31, 2 ^ 31)`. -/
def toInt32 (x : Int) : Int := (x + 2147483648) % 4294967296 - 2147483648

namespace Resampler

/-- A `Resampler` as constructed. -/
def new : Resampler :=
  { swrContext_ := false, resampledFrame_ := none, targetSampleFormat_ := none, calls := [] }

/-- `Resampler::initializeResampler`: `params` tells whether the codec parameters are not
null, `allocated`, `initialised` and `frameAllocated` are the outcomes of `swr_alloc`,
`swr_init` and `av_frame_alloc`. -/
def initializeResampler (swr : Swr) (rs : Resampler) (params : Bool)
    (targetSampleFormat : AVSampleFormat) (allocated initialised frameAllocated : Bool) :
    Int × Resampler :=
  if !params then (-1, rs)
  else
    let rs1 : Resampler := { rs with targetSampleFormat_ := some targetSampleFormat }
    if !allocated then (-1, rs1)
    else
      let rs2 : Resampler := { rs1 with swrContext_ := true }
      if !initialised then (-1, rs2)
      else if !frameAllocated then (-1, rs2)
      else
        let ok := swr.get_buffer 1024
        let frame : ResampledFrame :=
          if ok then { nb_samples := 1024, capacity := 1024, pts := 0 }
          else { nb_samples := 0, capacity := 0, pts := 0 }
        let rs3 : Resampler := { rs2 with resampledFrame_ := some frame }
        if !ok then (-1, rs3) else (0, rs3)

/-- The value of `dst_nb_samples` in `resampleFrame`: the rescaled count, stored in an
`int`. -/
def dstNbSamples (delay sample_rate nb_samples : Int) : Int :=
  toInt32 (av_rescale_rnd_up (delay + nb_samples) 48000 sample_rate)

/-- `Resampler::resampleFrame`: the frame returned (`none` for a null pointer) and the new
state.  The source dereferences `resampledFrame_` without a test, also right after the
`av_frame_alloc` of the growth branch, which is taken to return a frame: the value given
here describes the call only in a state whose `resampledFrame_` is not null
(`Resampler.Allocated`). -/
def resampleFrame (swr : Swr) (rs : Resampler) (inputFrame : Option InputFrame) :
    Option ResampledFrame × Resampler :=
  if !rs.swrContext_ then (none, rs)
  else
    match inputFrame, rs.resampledFrame_ with
    | none, _ => (none, rs)
    | some _, none => (none, rs)
    | some f, some old =>
        let dst := dstNbSamples (swr.get_delay rs.calls f.sample_rate) f.sample_rate
          f.nb_samples
        let grow : Bool := decide (dst > old.nb_samples)
        let ok := swr.get_buffer dst
        let frame : ResampledFrame :=
          if grow then
            (if ok then { nb_samples := dst, capacity := dst, pts := 0 }
             else { nb_samples := 0, capacity := 0, pts := 0 })
          else old
        if grow && !ok then (none, { rs with resampledFrame_ := some frame })
        else
          let call : SwrCall := { out_count := dst, in_count := some f.nb_samples }
          let ret := swr.convert rs.calls call
          let calls := rs.calls ++ [call]
          if ret < 0 then (none, { rs with resampledFrame_ := some frame, calls := calls })
          else
            let out : ResampledFrame :=
              { frame with nb_samples := ret, pts := swr.next_pts calls }
            (some out, { rs with resampledFrame_ := some out, calls := calls })

/-- `Resampler::flushResampler`.  The source dereferences `resampledFrame_` without a test:
the value given here describes the call only in a state whose `resampledFrame_` is not
null (`Resampler.Allocated`). -/
def flushResampler (swr : Swr) (rs : Resampler) : Option ResampledFrame × Resampler :=
  if !rs.swrContext_ then (none, rs)
  else
    match rs.resampledFrame_ with
    | none => (none, rs)
    | some frame =>
        let call : SwrCall := { out_count := frame.nb_samples, in_count := none }
        let ret := swr.convert rs.calls call
        let calls := rs.calls ++ [call]
        if ret ≤ 0 then (none, { rs with calls := calls })
        else
          let out : ResampledFrame := { frame with nb_samples := ret }
          (some out, { rs with resampledFrame_ := some out, calls := calls })

/-- The capacity of the output buffer, 0 when there is no frame. -/
def capacity (rs : Resampler) : Int :=
  match rs.resampledFrame_ with
  | some frame => frame.capacity
  | none => 0

/-- A sequence of `resampleFrame` calls on the given frames. -/
def resampleFrames (swr : Swr) : Resampler → List InputFrame → Resampler
  | rs, [] => rs
  | rs, f :: fs => resampleFrames swr (resampleFrame swr rs (some f)).2 fs

end Resampler

/-! ### A converter with a fixed latency, for the examples -/

/-- The samples a converter with latency `latency` gives on one call when it holds `pending`
samples: on input everything but the last `latency` samples, on a flush everything, never
more than the room offered. -/
def latencyEmitted (latency pending : Int) (c : SwrCall) : Int :=
  match c.in_count with
  | some n => max 0 (min c.out_count (pending + n - latency))
  | none => max 0 (min c.out_count pending)

/-- The samples the converter holds after the given calls. -/
def latencyPending (latency : Int) (calls : List SwrCall) : Int :=
  calls.foldl (fun pending c => pending + c.in_count.getD 0 - latencyEmitted latency pending c) 0

/-- A converter between equal rates that holds back `latency` samples until it is flushed;
every allocation succeeds. -/
def latencySwr (latency : Int) : Swr :=
  { get_delay := fun calls _ => latencyPending latency calls
    convert := fun calls c => latencyEmitted latency (latencyPending latency calls) c
    next_pts := fun _ => 0
    get_buffer := fun _ => true }

/-- A resampler initialised for an S16P target with the converter `swr`. -/
def demoResampler (swr : Swr) : Resampler :=
  (Resampler.initializeResampler swr Resampler.new true AVSampleFormat.S16P true true true).2

/-! ## Output file name -/

/-- `std::string::find_last_of`: the index of the last character of `s` that is one of
`chars`, `none` for `npos`. -/
def find_last_of : List Char → List Char → Option Nat
  | [], _ => none
  | c :: s, chars =>
      match find_last_of s chars with
      | some i => some (i + 1)
      | none => if c ∈ chars then some 0 else none

/-- The helper `generateOutputFileName` of `AudioProcessor.cpp`. -/
def generateOutputFileName (inputFilePath : List Char) (codecId : AVCodecID) : List Char :=
  let fileName :=
    match find_last_of inputFilePath ['/', '\\'] with
    | some slashPos => inputFilePath.drop (slashPos + 1)
    | none => inputFilePath
  let baseName :=
    match find_last_of fileName ['.'] with
    | some dotPos => fileName.take dotPos
    | none => fileName
  match codecId with
  | AVCodecID.PCM_S16LE => baseName ++ "_48000.wav".toList
  | AVCodecID.AAC => baseName ++ "_48000.aac".toList
  | AVCodecID.FLAC => baseName ++ "_48000.flac".toList
  | AVCodecID.VORBIS => baseName ++ "_48000.ogg".toList
  | AVCodecID.MP3 => baseName ++ "_48000.mp3".toList
  | _ => baseName ++ "_48000.mp3".toList

/-- The extension the specification gives for a codec. -/
def specExtension : AVCodecID → String
  | AVCodecID.PCM_S16LE => "wav"
  | AVCodecID.AAC => "aac"
  | AVCodecID.FLAC => "flac"
  | AVCodecID.VORBIS => "ogg"
  | _ => "mp3"

/-- The specification's last path component: `comp` is what follows the last `/` or `\` of
`path`, or `path` itself when it has neither. -/
def IsLastComponent (path comp : List Char) : Prop :=
  (∀ c ∈ comp, c ≠ '/' ∧ c ≠ '\\') ∧
    (path = comp ∨ ∃ dir sep, (sep = '/' ∨ sep = '\\') ∧ path = dir ++ sep :: comp)

/-- The specification's base name: `base` is `comp` without its last `.`-extension, or
`comp` itself when it has no `.`. -/
def IsBaseName (comp base : List Char) : Prop :=
  (comp = base ∧ '.' ∉ comp) ∨ ∃ ext, '.' ∉ ext ∧ comp = base ++ '.' :: ext

/-! ## Further notions for the aggregator -/

/-- The samples the aggregator carries: the first `bufferedSamples_` samples of the buffer
frame, none while there is no buffer frame. -/
def FrameEncoder.carried (fe : FrameEncoder) : List Sample :=
  match fe.bufferFrame_ with
  | some b => b.data.take fe.bufferedSamples_.toNat
  | none => []

/-- The timestamps of the frames handed to the encoder, in call order (the flush frame
carries none). -/
def sentPts : List (Option AVFrame) → List Int
  | [] => []
  | none :: t => sentPts t
  | some f :: t => f.pts :: sentPts t

/-- The sample offsets of the first `m` blocks of a call that starts with `r` carried
samples: block number `j + 1` begins `j * frameSize - r` samples after the first sample of
the chunk. -/
def blockOffsets (frameSize r : Int) (m : Nat) : List Int :=
  (List.range m).map (fun j => (j : Int) * frameSize - r)

/-- An open encoder at frameSize 4 that carries the three samples 1, 2, 3. -/
def carriesThree : FrameEncoder :=
  { FrameEncoder.new with
    codecContext_ := true
    bufferFrame_ := some ⟨[1, 2, 3, 0], 0, 48000⟩
    bufferedSamples_ := 3 }

/-- The state with which `encodeFrame` enters its aggregation loop on a chunk: the state
itself when the buffer frame exists, the state with a fresh buffer frame and
`bufferedSamples_ = 0` when it is created; `none` when the call returns before the loop or
the codec has no fixed frame size. -/
def FrameEncoder.loopEntry (c : Codec) (fe : FrameEncoder) (frame : AVFrame) :
    Option FrameEncoder :=
  if !fe.codecContext_ then none
  else if c.frame_size > 0 then
    match fe.bufferFrame_ with
    | none =>
      if !c.get_buffer_ok then none
      else
        let b : AVFrame :=
          { data := List.replicate c.frame_size.toNat 0, pts := 0,
            sample_rate := frame.sample_rate }
        some { fe with bufferFrame_ := some b, bufferedSamples_ := 0 }
    | some _ => some fe
  else none

/-- The buffer frame, when there is one, has storage for `frame_size` samples: its
allocation succeeded. -/
def FrameEncoder.Stored (c : Codec) (fe : FrameEncoder) : Prop :=
  ∀ b, fe.bufferFrame_ = some b → b.data.length = c.frame_size.toNat

/-- Whether the copy of one loop iteration, of `samplesToCopy` samples of the chunk from
`samplesProcessed` on into the buffer frame at `bufferedSamples_`, stays inside the storage
of the buffer frame and of the chunk. -/
def FrameEncoder.copyWithin (fe : FrameEncoder) (frame : AVFrame)
    (samplesProcessed samplesToCopy : Int) : Bool :=
  match fe.bufferFrame_ with
  | some b =>
      av_samples_copy_within b.data frame.data fe.bufferedSamples_ samplesProcessed
        samplesToCopy
  | none => false

/-- Whether every copy the aggregation loop makes in its first `fuel` iterations, started
with `samplesProcessed`, stays inside the storage of the buffer frame and of the chunk.
Where it is false the source has undefined behaviour at that copy. -/
def FrameEncoder.aggregateWithin (c : Codec) (frame : AVFrame) :
    Nat → FrameEncoder → Int → OutputSlot → Bool
  | 0, _, _, _ => true
  | fuel + 1, fe, samplesProcessed, out =>
    if samplesProcessed < frame.nb_samples then
      fe.copyWithin frame samplesProcessed
          (min (c.frame_size - fe.bufferedSamples_) (frame.nb_samples - samplesProcessed)) &&
        match FrameEncoder.aggregateStep c frame fe samplesProcessed out with
        | Sum.inl _ => true
        | Sum.inr s => FrameEncoder.aggregateWithin c frame fuel s.1 s.2.1 s.2.2
    else true

/-- Whether every copy a call of `encodeFrame` makes in the first `fuel` iterations of its
aggregation loop stays inside the storage of the buffer frame and of the chunk. -/
def FrameEncoder.encodeFrameWithin (c : Codec) (fuel : Nat) (fe : FrameEncoder)
    (frame : Option AVFrame) (out : OutputSlot) : Bool :=
  match frame with
  | none => true
  | some f =>
    match fe.loopEntry c f with
    | none => true
    | some fe0 => FrameEncoder.aggregateWithin c f fuel fe0 0 out

/-- A codec with frameSize 4 for which `av_frame_get_buffer` fails; every encoder call
succeeds. -/
def noBufferCodec : Codec :=
  { demoCodec 4 with get_buffer_ok := false }

/-- The states a `FrameEncoder` reaches: the state after construction and
`initializeEncoder`, and from a reachable state the state after `setOutputFile`, after any
call of `encodeFrame` that returns, after `getNextEncodedPacket`, after `flushEncoder`,
after `clearPacketQueue` and after `closeEncoder`. -/
inductive FrameEncoder.Reachable (c : Codec) : FrameEncoder → Prop
  | init (codecId : AVCodecID) (found allocated opened : Bool) :
      FrameEncoder.Reachable c
        (FrameEncoder.new.initializeEncoder codecId found allocated opened).2
  | setOutputFile (fe : FrameEncoder) (created : Bool) :
      FrameEncoder.Reachable c fe → FrameEncoder.Reachable c (fe.setOutputFile created)
  | encodeFrame (fe : FrameEncoder) (fuel : Nat) (frame : Option AVFrame) (out : OutputSlot)
      (res : Int × FrameEncoder × OutputSlot) :
      FrameEncoder.Reachable c fe → fe.encodeFrame c fuel frame out = some res →
      FrameEncoder.Reachable c res.2.1
  | pop (fe : FrameEncoder) (r : AVPacket × FrameEncoder) :
      FrameEncoder.Reachable c fe → fe.getNextEncodedPacket = some r →
      FrameEncoder.Reachable c r.2
  | flushEncoder (fe : FrameEncoder) (fuel : Nat) (out : OutputSlot)
      (r : FrameEncoder × OutputSlot) :
      FrameEncoder.Reachable c fe → fe.flushEncoder c fuel out = some r →
      FrameEncoder.Reachable c r.1
  | clearPacketQueue (fe : FrameEncoder) :
      FrameEncoder.Reachable c fe → FrameEncoder.Reachable c fe.clearPacketQueue
  | closeEncoder (fe : FrameEncoder) :
      FrameEncoder.Reachable c fe → FrameEncoder.Reachable c fe.closeEncoder

/-- The states in which the aggregation loop of a call of `encodeFrame` on `frame` tests
its condition: the entry state with `samplesProcessed = 0`, and the state after every
iteration that does not return. -/
inductive FrameEncoder.AtLoopHead (c : Codec) (frame : AVFrame) :
    FrameEncoder → Int → OutputSlot → Prop
  | entry (fe fe0 : FrameEncoder) (out : OutputSlot) :
      FrameEncoder.Reachable c fe → fe.loopEntry c frame = some fe0 →
      FrameEncoder.AtLoopHead c frame fe0 0 out
  | next (fe : FrameEncoder) (q : Int) (out : OutputSlot)
      (s : FrameEncoder × Int × OutputSlot) :
      FrameEncoder.AtLoopHead c frame fe q out → q < frame.nb_samples →
      FrameEncoder.aggregateStep c frame fe q out = Sum.inr s →
      FrameEncoder.AtLoopHead c frame s.1 s.2.1 s.2.2

/-! ## Further scenarios -/

/-- A codec with frameSize 2 whose second `avcodec_send_frame` fails; every other call
succeeds and yields one packet for a frame (its payload is the number of the call) and no
packet for the flush frame. -/
def secondSendFailsCodec : Codec :=
  { frame_size := 2
    get_buffer_ok := true
    av_rescale_q := fun off _ => off
    encode := fun h =>
      { send_ok := h.length != 2
        packets := match h.getLast? with
                   | some (some _) => [{ data := [h.length], pts := 0 }]
                   | _ => []
        receive_error := false } }

/-- One input frame of two blocks on `secondSendFailsCodec`: the first block is encoded, the
second one fails.  The resampler flush yields nothing. -/
def blockThenFailure : Env :=
  demoEnv secondSendFailsCodec [⟨[1, 2, 3, 4], 0, 48000⟩] (fun _ => false)

/-- The scenario `blockThenFailure` with a resampler flush that yields a frame without
samples. -/
def blockThenFailureFlushed : Env :=
  { blockThenFailure with flushed := some ⟨[], 0, 48000⟩ }

/-- Two sessions: a datagram, then `stop()` is called while the receiver waits; a datagram
of the next session and its end marker follow. -/
def stoppedThenResumed : List RecvEvent :=
  [RecvEvent.datagram [1], RecvEvent.stop, RecvEvent.datagram [2], RecvEvent.datagram []]

/-! ## The main loop seen from the encoder -/

/-- The resampled frames among the input packets, in order: the packets that fail to decode
or to resample are left out. -/
def resampledFrames : List InputPacket → List AVFrame
  | [] => []
  | InputPacket.resampled frame :: rest => frame :: resampledFrames rest
  | InputPacket.decodeFails :: rest => resampledFrames rest
  | InputPacket.resampleFails :: rest => resampledFrames rest

/-- The encoder after a drain loop: every queued packet was dequeued, in order. -/
def FrameEncoder.drained (fe : FrameEncoder) : FrameEncoder :=
  { fe with packetQueue_ := [], dequeued := fe.dequeued ++ fe.packetQueue_ }

/-- The amended reading of the main loop, at the encoder: the frames are given to
`encodeFrame` one after the other and the queue is drained after each, up to and including
the first frame for which `encodeFrame` returns a negative value; the frames after that one
are not touched.  The Boolean tells whether a frame failed. -/
def FrameEncoder.encodeUntilFailure (c : Codec) (fuel : Nat) :
    FrameEncoder → List AVFrame → Option (Bool × FrameEncoder)
  | fe, [] => some (false, fe)
  | fe, f :: rest =>
    match fe.encodeFrame c fuel (some f) none with
    | none => none
    | some r =>
      if r.1 < 0 then some (true, r.2.1)
      else FrameEncoder.encodeUntilFailure c fuel r.2.1.drained rest

/-! ## The receive loop -/

namespace FrameEncoder

/-- Closed form of the receive loop: every packet is appended to the queue (and to the
encoder's own file when there is one), and the output slot, when given, ends up holding the
packet stored last. -/
theorem receivePackets_eq (pkts : List AVPacket) (fe : FrameEncoder) (out : OutputSlot) :
    fe.receivePackets out pkts =
      ({ fe with
          fileWrites := fe.fileWrites ++ (if fe.formatContext_ then pkts else [])
          packetQueue_ := fe.packetQueue_ ++ pkts
          pushed := fe.pushed ++ pkts
          frameCount_ := fe.frameCount_ + pkts.length },
        out.map (fun v => pkts.foldl (fun _ p => some p) v)) := by
  induction pkts generalizing fe out with
  | nil => cases out <;> simp [receivePackets]
  | cons pkt rest ih =>
    rw [receivePackets, ih]
    cases hf : fe.formatContext_ <;> cases out <;>
      simp [storePacket, push, hf] <;> omega

end FrameEncoder

/-! ## The aggregation loop when every encoder call succeeds -/

theorem sentSamples_append (l₁ l₂ : List (Option AVFrame)) :
    sentSamples (l₁ ++ l₂) = sentSamples l₁ ++ sentSamples l₂ := by
  induction l₁ with
  | nil => rfl
  | cons a t ih => cases a <;> simp [sentSamples, ih]

namespace FrameEncoder

theorem sendAndReceive_ok (c : Codec) (hok : c.Succeeds) (fe : FrameEncoder) (out : OutputSlot)
    (frame : Option AVFrame) :
    fe.sendAndReceive c out frame =
      (true,
        { fe with
          sent := fe.sent ++ [frame]
          fileWrites := fe.fileWrites ++
            (if fe.formatContext_ then (c.encode (fe.sent ++ [frame])).packets else [])
          packetQueue_ := fe.packetQueue_ ++ (c.encode (fe.sent ++ [frame])).packets
          pushed := fe.pushed ++ (c.encode (fe.sent ++ [frame])).packets
          frameCount_ := fe.frameCount_ + (c.encode (fe.sent ++ [frame])).packets.length },
        out.map (fun v => (c.encode (fe.sent ++ [frame])).packets.foldl (fun _ p => some p) v)) := by
  simp [sendAndReceive, hok.2, receivePackets_eq]

theorem av_samples_copy_length (dst src : List Sample) (r q k : Nat)
    (hr : r + k ≤ dst.length) (hq : q + k ≤ src.length) :
    (av_samples_copy dst src r q k).length = dst.length := by
  simp [av_samples_copy]
  omega

theorem av_samples_copy_take (dst src : List Sample) (r q k : Nat)
    (hr : r + k ≤ dst.length) (hq : q + k ≤ src.length) :
    (av_samples_copy dst src r q k).take (r + k) = dst.take r ++ (src.drop q).take k := by
  have h1 : (dst.take r ++ (src.drop q).take k).length = r + k := by
    simp; omega
  simp only [av_samples_copy, Int.toNat_ofNat]
  rw [List.take_append_of_le_length (by rw [h1]), List.take_of_length_le (by rw [h1])]

/-- One loop iteration on an aggregator that holds `X`, with `q` samples of the frame already
consumed: it consumes `k ≥ 1` more samples and leaves an aggregator holding `X` followed by
these samples. -/
theorem aggregateStep_spec (c : Codec) (F : Nat) (hF : c.frame_size = F)
    (hok : c.Succeeds) (frame : AVFrame) (q : Nat) (fe : FrameEncoder) (X : List Sample)
    (out : OutputSlot) (hq : q < frame.data.length) (hinv : Aggregated F fe X) :
    ∃ (k : Nat) (fe' : FrameEncoder) (out' : OutputSlot), 1 ≤ k ∧ q + k ≤ frame.data.length ∧
      aggregateStep c frame fe q out = Sum.inr (fe', ((q + k : Nat) : Int), out') ∧
      Aggregated F fe' (X ++ (frame.data.drop q).take k) ∧
      fe'.codecContext_ = fe.codecContext_ := by
  obtain ⟨b, r, hb, hlen, hr, hrF, hblocks, hsamples⟩ := hinv
  have hkInt : min (c.frame_size - fe.bufferedSamples_) (frame.nb_samples - (q:Int)) =
      ((min (F - r) (frame.data.length - q) : Nat) : Int) := by
    simp only [hF, hr, AVFrame.nb_samples]; omega
  generalize hk : min (F - r) (frame.data.length - q) = k at hkInt
  have hk1 : 1 ≤ k := by omega
  have hk2 : q + k ≤ frame.data.length := by omega
  have hk3 : r + k ≤ b.data.length := by omega
  refine ⟨k, ?_⟩
  by_cases hfull : r + k = F
  · have hfe1 : (fe.copySamples frame q k).bufferedSamples_ = c.frame_size := by
      simp only [copySamples, hr, hF]; omega
    have hcopy : (av_samples_copy b.data frame.data r q k).length = F :=
      (av_samples_copy_length b.data frame.data r q k hk3 hk2).trans hlen
    have htake : av_samples_copy b.data frame.data r q k =
        b.data.take r ++ (frame.data.drop q).take k := by
      rw [← av_samples_copy_take _ _ _ _ _ hk3 hk2, List.take_of_length_le (by omega)]
    refine ⟨{ ((fe.copySamples frame q k).encodeBuffer c frame ((q : Int) + k) out).2.1 with
              bufferedSamples_ := 0 },
            ((fe.copySamples frame q k).encodeBuffer c frame ((q : Int) + k) out).2.2,
            hk1, hk2, ?_, ?_, ?_⟩
    · simp only [aggregateStep, hkInt, hfe1, if_true]
      simp [encodeBuffer, sendAndReceive_ok c hok]
    · refine ⟨{ b with data := av_samples_copy b.data frame.data r q k,
                       pts := frame.pts + c.av_rescale_q ((q : Int) + k - (r + k)) frame.sample_rate },
        0, ?_, hcopy, rfl, by omega, ?_, ?_⟩
      · simp [encodeBuffer, sendAndReceive_ok c hok, copySamples, hb, hr]
      · intro f hf
        simp only [encodeBuffer, sendAndReceive_ok c hok, copySamples, hb, hr,
          Option.map_some', List.mem_append, List.mem_singleton] at hf
        rcases hf with hf | hf
        · exact hblocks f hf
        · exact ⟨_, hf, hcopy⟩
      · simp only [encodeBuffer, sendAndReceive_ok c hok, copySamples, hb, hr,
          Option.map_some', sentSamples_append, sentSamples, List.take_zero, List.append_nil]
        rw [htake, ← hsamples]
        simp
    · simp [encodeBuffer, sendAndReceive_ok c hok, copySamples]
  · refine ⟨fe.copySamples frame q k, out, hk1, hk2, ?_, ?_, rfl⟩
    · simp only [aggregateStep, hkInt]
      have : ¬ ((fe.copySamples frame q k).bufferedSamples_ = c.frame_size) := by
        simp only [copySamples, hr, hF]; omega
      simp [this]
    · refine ⟨{ b with data := av_samples_copy b.data frame.data r q k }, r + k, ?_, ?_, ?_, ?_,
        hblocks, ?_⟩
      · simp [copySamples, hb, hr]
      · simpa using (av_samples_copy_length b.data frame.data r q k hk3 hk2).trans hlen
      · simp [copySamples, hr]
      · omega
      · show sentSamples fe.sent ++ (av_samples_copy b.data frame.data r q k).take (r + k) = _
        rw [av_samples_copy_take _ _ _ _ _ hk3 hk2, ← hsamples]
        simp

/-- The aggregation loop, given one unit of fuel more than the samples left, returns `0` and
leaves an aggregator holding the samples held before followed by the rest of the frame. -/
theorem aggregate_spec (c : Codec) (F : Nat) (hF : c.frame_size = F)
    (hok : c.Succeeds) (frame : AVFrame) :
    ∀ (fuel q : Nat) (fe : FrameEncoder) (X : List Sample) (out : OutputSlot),
      q ≤ frame.data.length → frame.data.length - q < fuel → Aggregated F fe X →
      ∃ fe' out', aggregate c frame fuel fe q out = some (0, fe', out') ∧
        Aggregated F fe' (X ++ frame.data.drop q) ∧
        fe'.codecContext_ = fe.codecContext_ := by
  intro fuel
  induction fuel with
  | zero => intro q fe X out _ h; omega
  | succ n ih =>
    intro q fe X out hq hfuel hinv
    by_cases hlt : q < frame.data.length
    · have hlt' : (q : Int) < frame.nb_samples := by simp [AVFrame.nb_samples]; exact hlt
      obtain ⟨k, fe1, out1, hk1, hk2, hstep, hinv1, hctx1⟩ :=
        aggregateStep_spec c F hF hok frame q fe X out hlt hinv
      obtain ⟨fe2, out2, hrun, hinv2, hctx2⟩ := ih (q + k) fe1 _ out1 hk2 (by omega) hinv1
      refine ⟨fe2, out2, ?_, ?_, hctx2.trans hctx1⟩
      · rw [aggregate]
        simp only [hlt', if_true, hstep]
        exact hrun
      · have : (frame.data.drop q).take k ++ frame.data.drop (q + k) = frame.data.drop q := by
          rw [← List.drop_drop]; exact List.take_append_drop k _
        rw [← this, ← List.append_assoc]; exact hinv2
    · have hqe : q = frame.data.length := by omega
      have hnlt : ¬ ((q : Int) < frame.nb_samples) := by simp [AVFrame.nb_samples]; omega
      rw [aggregate]
      simp only [hnlt, if_false]
      refine ⟨fe, out, rfl, ?_, rfl⟩
      simpa [hqe] using hinv

/-- `encodeFrame` on a frame, with more fuel than the frame has samples, returns `0` and
leaves the samples fed so far followed by the samples of the frame. -/
theorem encodeFrame_spec (c : Codec) (F : Nat) (hF : c.frame_size = F) (hpos : 0 < F)
    (hok : c.Succeeds) (frame : AVFrame) (fuel : Nat) (fe : FrameEncoder) (X : List Sample)
    (out : OutputSlot) (hfuel : frame.data.length < fuel) (hinv : Fed F fe X) :
    ∃ fe' out', fe.encodeFrame c fuel (some frame) out = some (0, fe', out') ∧
      Fed F fe' (X ++ frame.data) := by
  obtain ⟨hctx, hcase⟩ := hinv
  have hfs : c.frame_size > 0 := by rw [hF]; exact_mod_cast hpos
  rcases hcase with ⟨hnone, _, hsent, hX⟩ | hagg
  · have hstart : Aggregated F
        { fe with
          bufferFrame_ := some { data := List.replicate c.frame_size.toNat 0, pts := 0,
                                 sample_rate := frame.sample_rate }
          bufferedSamples_ := 0 } [] := by
      refine ⟨_, 0, rfl, ?_, rfl, hpos, ?_, ?_⟩
      · simp [hF]
      · simp [hsent]
      · simp [hsent, sentSamples]
    obtain ⟨fe', out', hrun, hinv', hctx'⟩ :=
      aggregate_spec c F hF hok frame fuel 0 _ [] out (Nat.zero_le _) (by omega) hstart
    refine ⟨fe', out', ?_, ?_, ?_⟩
    · simp only [encodeFrame, hfs, hnone, hok.1]
      simpa [hctx] using hrun
    · exact hctx'.trans hctx
    · right; simpa [hX] using hinv'
  · obtain ⟨fe', out', hrun, hinv', hctx'⟩ :=
      aggregate_spec c F hF hok frame fuel 0 fe X out (Nat.zero_le _) (by omega) hagg
    obtain ⟨b, _, hb, _⟩ := hagg
    refine ⟨fe', out', ?_, ?_, ?_⟩
    · simp only [encodeFrame, hfs, hb]
      simpa [hctx] using hrun
    · exact hctx'.trans hctx
    · right; simpa using hinv'

/-- Feeding chunks one after the other returns `0` and leaves the samples fed before followed
by the samples of all the chunks. -/
theorem encodeFrames_spec (c : Codec) (F : Nat) (hF : c.frame_size = F) (hpos : 0 < F)
    (hok : c.Succeeds) (fuel : Nat) (chunks : List AVFrame) :
    ∀ (fe : FrameEncoder) (X : List Sample), (∀ f ∈ chunks, f.data.length < fuel) → Fed F fe X →
      ∃ fe', fe.encodeFrames c fuel chunks = some (0, fe') ∧
        Fed F fe' (X ++ chunkSamples chunks) := by
  induction chunks with
  | nil => intro fe X _ h; exact ⟨fe, rfl, by simpa [chunkSamples] using h⟩
  | cons f rest ih =>
    intro fe X hfuel hinv
    obtain ⟨fe1, out1, hrun, hinv1⟩ :=
      encodeFrame_spec c F hF hpos hok f fuel fe X none (hfuel f (List.mem_cons_self _ _)) hinv
    obtain ⟨fe2, hrun2, hinv2⟩ :=
      ih fe1 _ (fun g hg => hfuel g (List.mem_cons_of_mem _ hg)) hinv1
    refine ⟨fe2, ?_, ?_⟩
    · simp only [encodeFrames, hrun]
      simpa using hrun2
    · simpa [chunkSamples, List.append_assoc] using hinv2

end FrameEncoder

theorem chunkSamples_length (chunks : List AVFrame) :
    ((chunkSamples chunks).length : Int) = totalSamples chunks := by
  induction chunks with
  | nil => rfl
  | cons f t ih =>
    simp only [chunkSamples, List.length_append, Nat.cast_add, ih]
    simp [totalSamples, AVFrame.nb_samples]

theorem sentSamples_length (F : Nat) (sent : List (Option AVFrame))
    (h : ∀ f ∈ sent, ∃ fr : AVFrame, f = some fr ∧ fr.data.length = F) :
    (sentSamples sent).length = sent.length * F := by
  induction sent with
  | nil => simp [sentSamples]
  | cons a t ih =>
    obtain ⟨fr, rfl, hfr⟩ := h a (List.mem_cons_self _ _)
    simp only [sentSamples, List.length_append, List.length_cons, hfr,
      ih (fun f hf => h f (List.mem_cons_of_mem _ hf))]
    ring

/-- A fresh encoder whose initialisation succeeded has been fed nothing. -/
theorem FrameEncoder.fed_new (F : Nat) (codecId : AVCodecID) :
    FrameEncoder.Fed F (FrameEncoder.new.initializeEncoder codecId true true true).2 [] := by
  refine ⟨?_, Or.inl ⟨?_, ?_, ?_, rfl⟩⟩ <;> simp [FrameEncoder.initializeEncoder, FrameEncoder.new]

/-- C2: for every frameSize > 0 and every sequence of chunks with N samples in total fed to a
fresh encoder through `encodeFrame`, all encoder calls succeeding, every call returns 0, the
encoder has been handed exactly floor(N / frameSize) blocks, each of exactly frameSize
samples, and `bufferedSamples_` is N mod frameSize afterwards. -/
theorem C2_full_blocks_and_remainder (c : Codec) (codecId : AVCodecID)
    (chunks : List AVFrame) (fuel : Nat)
    (hpos : 0 < c.frame_size) (hok : c.Succeeds)
    (hfuel : ∀ f ∈ chunks, f.data.length < fuel) :
    ∃ fe', (FrameEncoder.new.initializeEncoder codecId true true true).2.encodeFrames
        c fuel chunks = some (0, fe') ∧
      (fe'.sent.length : Int) = totalSamples chunks / c.frame_size ∧
      (∀ f ∈ fe'.sent, ∃ fr : AVFrame, f = some fr ∧ fr.nb_samples = c.frame_size) ∧
      fe'.bufferedSamples_ = totalSamples chunks % c.frame_size := by
  obtain ⟨F, hF⟩ : ∃ F : Nat, c.frame_size = F := ⟨c.frame_size.toNat, by omega⟩
  have hFpos : 0 < F := by omega
  obtain ⟨fe', hrun, _, hcase⟩ :=
    FrameEncoder.encodeFrames_spec c F hF hFpos hok fuel chunks _ []
      hfuel (FrameEncoder.fed_new F codecId)
  refine ⟨fe', hrun, ?_⟩
  rw [← chunkSamples_length, hF]
  rcases hcase with ⟨_, hbs, hsent, hX⟩ | ⟨b, r, hb, hlen, hr, hrF, hblocks, hsamples⟩
  · simp only [List.nil_append] at hX
    simp [hX, hsent, hbs]
  · have hN : (chunkSamples chunks).length = fe'.sent.length * F + r := by
      have := congrArg List.length hsamples
      simp only [List.nil_append, List.length_append, List.length_take,
        sentSamples_length F _ hblocks] at this
      omega
    refine ⟨?_, ?_, ?_⟩
    · rw [hN]
      norm_cast
      rw [Nat.add_comm, Nat.add_mul_div_right _ _ hFpos, Nat.div_eq_of_lt hrF, Nat.zero_add]
    · intro f hf
      obtain ⟨fr, rfl, hfr⟩ := hblocks f hf
      exact ⟨fr, rfl, by simp [AVFrame.nb_samples, hfr]⟩
    · rw [hN, hr]
      norm_cast
      rw [Nat.add_comm, Nat.add_mul_mod_self_right, Nat.mod_eq_of_lt hrF]

/-- C2, witness: three chunks of 1024 samples at frameSize 1152 give exactly 2 full blocks and
leave 768 samples buffered. -/
theorem C2_witness :
    ∃ fe', (FrameEncoder.new.initializeEncoder AVCodecID.MP3 true true true).2.encodeFrames
        (demoCodec 1152) 1025 (List.replicate 3 ⟨List.replicate 1024 0, 0, 48000⟩) =
          some (0, fe') ∧
      (fe'.sent.length : Int) = 2 ∧
      (∀ f ∈ fe'.sent, ∃ fr : AVFrame, f = some fr ∧ fr.nb_samples = 1152) ∧
      fe'.bufferedSamples_ = 768 := by
  have h := C2_full_blocks_and_remainder (demoCodec 1152) AVCodecID.MP3
    (List.replicate 3 ⟨List.replicate 1024 0, 0, 48000⟩) 1025 (by decide)
    ⟨rfl, fun _ => ⟨rfl, rfl⟩⟩
    (by intro f hf; rw [List.eq_of_mem_replicate hf, List.length_replicate]; decide)
  have hN : totalSamples (List.replicate 3 ⟨List.replicate 1024 0, 0, 48000⟩) = 3072 := by
    simp only [totalSamples, List.map_replicate, List.sum_replicate, AVFrame.nb_samples,
      List.length_replicate]
    norm_num
  have e1 : (3072 : Int) / (demoCodec 1152).frame_size = 2 := by
    show (3072 : Int) / 1152 = 2
    norm_num
  have e2 : (3072 : Int) % (demoCodec 1152).frame_size = 768 := by
    show (3072 : Int) % 1152 = 768
    norm_num
  rw [hN, e1, e2] at h
  exact h

/-! ## The end-of-stream flush of the aggregator -/

/-- C1, evaluated: at frameSize 4, after the chunks [1,2,3] and [4,5,6] and `flushEncoder`,
the frames handed to the encoder are the full block [1,2,3,4] and the null flush frame: the
samples 5 and 6 of the input are in no block. -/
theorem C1_flushEncoder_loses_remainder :
    (((FrameEncoder.new.initializeEncoder AVCodecID.MP3 true true true).2.encodeFrames
        (demoCodec 4) 10 [⟨[1, 2, 3], 0, 48000⟩, ⟨[4, 5, 6], 0, 48000⟩]).bind
      (fun r => r.2.flushEncoder (demoCodec 4) 10 none)).map
        (fun p => (p.1.sent.map (Option.map AVFrame.data), sentSamples p.1.sent)) =
      some ([some [1, 2, 3, 4], none], [1, 2, 3, 4]) ∧
    chunkSamples [⟨[1, 2, 3], 0, 48000⟩, ⟨[4, 5, 6], 0, 48000⟩] = [1, 2, 3, 4, 5, 6] := by
  decide

/-- C3, evaluated: at frameSize 4, after the chunk [7,8,9] three samples are buffered
(`bufferedSamples_ = 3`), and `flushEncoder` hands the encoder the null flush frame only: no
block of three samples is sent, and `bufferedSamples_` is still 3 afterwards. -/
theorem C3_flushEncoder_sends_no_final_block :
    ((FrameEncoder.new.initializeEncoder AVCodecID.MP3 true true true).2.encodeFrames
        (demoCodec 4) 10 [⟨[7, 8, 9], 0, 48000⟩]).map
      (fun r => (r.2.bufferedSamples_, r.2.sent)) = some (3, []) ∧
    (((FrameEncoder.new.initializeEncoder AVCodecID.MP3 true true true).2.encodeFrames
        (demoCodec 4) 10 [⟨[7, 8, 9], 0, 48000⟩]).bind
      (fun r => r.2.flushEncoder (demoCodec 4) 10 none)).map
        (fun p => (p.1.bufferedSamples_, p.1.sent)) = some (3, [none]) := by
  decide

/-! ## The packet queue -/

theorem runQueueOps_fifo (ops : List QueueOp) :
    ∀ (fe : FrameEncoder) (popped : List AVPacket) (fe' : FrameEncoder),
      runQueueOps fe ops = some (popped, fe') →
      fe.packetQueue_ ++ pushedPackets ops = popped ++ fe'.packetQueue_ := by
  induction ops with
  | nil =>
    intro fe popped fe' h
    simp only [runQueueOps, Option.some.injEq, Prod.mk.injEq] at h
    obtain ⟨rfl, rfl⟩ := h
    simp [pushedPackets]
  | cons op rest ih =>
    intro fe popped fe' h
    cases op with
    | push pkt =>
      simp only [runQueueOps] at h
      have := ih _ _ _ h
      simpa [pushedPackets, FrameEncoder.push] using this
    | pop =>
      simp only [runQueueOps] at h
      cases hq : fe.packetQueue_ with
      | nil => simp [FrameEncoder.getNextEncodedPacket, hq] at h
      | cons pkt q =>
        simp only [FrameEncoder.getNextEncodedPacket, hq] at h
        split at h
        · exact absurd h (by simp)
        · rename_i r hr
          simp only [Option.some.injEq, Prod.mk.injEq] at h
          obtain ⟨rfl, rfl⟩ := h
          have := ih _ _ _ hr
          simpa [pushedPackets] using this

/-- A sequence of queue operations returns exactly when each of its pops is made on a
non-empty queue. -/
theorem runQueueOps_returns (ops : List QueueOp) :
    ∀ fe : FrameEncoder,
      (runQueueOps fe ops).isSome = popsGuarded fe.packetQueue_.length ops := by
  induction ops with
  | nil => intro fe; simp [runQueueOps, popsGuarded]
  | cons op rest ih =>
    intro fe
    cases op with
    | push pkt =>
      simp only [runQueueOps, popsGuarded]
      rw [ih (fe.push pkt)]
      simp [FrameEncoder.push]
    | pop =>
      cases hq : fe.packetQueue_ with
      | nil => simp [runQueueOps, FrameEncoder.getNextEncodedPacket, hq, popsGuarded]
      | cons pkt q =>
        have h := ih { fe with packetQueue_ := q, dequeued := fe.dequeued ++ [pkt] }
        simp only [runQueueOps, FrameEncoder.getNextEncodedPacket, hq, List.length_cons,
          popsGuarded]
        rw [← h]
        cases runQueueOps { fe with packetQueue_ := q, dequeued := fe.dequeued ++ [pkt] } rest
          <;> rfl

/-- The number of packets a sequence of queue operations returns is its number of pops. -/
theorem runQueueOps_length (ops : List QueueOp) :
    ∀ (fe : FrameEncoder) (popped : List AVPacket) (fe' : FrameEncoder),
      runQueueOps fe ops = some (popped, fe') → popped.length = popCount ops := by
  induction ops with
  | nil =>
    intro fe popped fe' h
    simp only [runQueueOps, Option.some.injEq, Prod.mk.injEq] at h
    rw [← h.1]
    rfl
  | cons op rest ih =>
    intro fe popped fe' h
    cases op with
    | push pkt =>
      simp only [runQueueOps] at h
      simpa [popCount] using ih _ _ _ h
    | pop =>
      simp only [runQueueOps] at h
      split at h
      · exact absurd h (by simp)
      · rename_i r hr
        split at h
        · exact absurd h (by simp)
        · rename_i q hq
          simp only [Option.some.injEq, Prod.mk.injEq] at h
          rw [← h.1]
          simp [popCount, ih _ _ _ hq]

/-- C4: a sequence of pushes and `getNextEncodedPacket` calls on a fresh encoder returns
exactly when each pop is made on a non-empty queue.  For every such sequence the calls
return, one packet per pop; the packets pushed are exactly the packets popped followed by
the packets still queued, in the same order; so the k-th pop returns the k-th pushed
packet, and no entry is reordered, dropped or duplicated. -/
theorem C4_queue_is_fifo (ops : List QueueOp) (h : popsGuarded 0 ops = true) :
    (∀ ops2, (runQueueOps FrameEncoder.new ops2).isSome = popsGuarded 0 ops2) ∧
      ∃ popped fe', runQueueOps FrameEncoder.new ops = some (popped, fe') ∧
        popped.length = popCount ops ∧
        pushedPackets ops = popped ++ fe'.packetQueue_ ∧
        ∀ k, k < popped.length → popped[k]? = (pushedPackets ops)[k]? := by
  refine ⟨fun ops2 => runQueueOps_returns ops2 FrameEncoder.new, ?_⟩
  have hs : (runQueueOps FrameEncoder.new ops).isSome = true :=
    (runQueueOps_returns ops FrameEncoder.new).trans h
  obtain ⟨r, hr⟩ := Option.isSome_iff_exists.mp hs
  have key : pushedPackets ops = r.1 ++ r.2.packetQueue_ := by
    simpa [FrameEncoder.new] using runQueueOps_fifo ops _ r.1 r.2 hr
  refine ⟨r.1, r.2, hr, runQueueOps_length ops _ r.1 r.2 hr, key, fun k hk => ?_⟩
  rw [key, List.getElem?_append_left hk]

/-- C4, witness: push a, push b, pop, push c, pop returns a then b and leaves c queued; a
pop on the empty queue does not return. -/
theorem C4_witness :
    popsGuarded 0 demoOps = true ∧
      runQueueOps FrameEncoder.new demoOps =
        some ([⟨[1], 0⟩, ⟨[2], 1⟩],
          { FrameEncoder.new with
            packetQueue_ := [⟨[3], 2⟩], pushed := [⟨[1], 0⟩, ⟨[2], 1⟩, ⟨[3], 2⟩],
            dequeued := [⟨[1], 0⟩, ⟨[2], 1⟩] }) ∧
      runQueueOps FrameEncoder.new [QueueOp.push ⟨[1], 0⟩, QueueOp.pop, QueueOp.pop] = none ∧
      ∃ popped fe', runQueueOps FrameEncoder.new demoOps = some (popped, fe') ∧
        popped.length = popCount demoOps ∧
        pushedPackets demoOps = popped ++ fe'.packetQueue_ ∧
        ∀ k, k < popped.length → popped[k]? = (pushedPackets demoOps)[k]? :=
  ⟨by decide, by decide, by decide, (C4_queue_is_fifo demoOps (by decide)).2⟩

/-! ## The encoder for an arbitrary codec: bounds, termination, fuel -/

namespace FrameEncoder

/-- The send and the receive loop leave the aggregation counters and the pop side of the
queue alone. -/
theorem sendAndReceive_keeps (c : Codec) (fe : FrameEncoder) (out : OutputSlot)
    (frame : Option AVFrame) :
    (fe.sendAndReceive c out frame).2.1.dequeued = fe.dequeued ∧
    (fe.sendAndReceive c out frame).2.1.discarded = fe.discarded ∧
    (fe.sendAndReceive c out frame).2.1.bufferedSamples_ = fe.bufferedSamples_ ∧
    (fe.sendAndReceive c out frame).2.1.codecContext_ = fe.codecContext_ := by
  simp only [sendAndReceive]
  split <;> simp [receivePackets_eq]

theorem encodeBuffer_keeps (c : Codec) (fe : FrameEncoder) (frame : AVFrame) (sp : Int)
    (out : OutputSlot) :
    (fe.encodeBuffer c frame sp out).2.1.dequeued = fe.dequeued ∧
    (fe.encodeBuffer c frame sp out).2.1.discarded = fe.discarded ∧
    (fe.encodeBuffer c frame sp out).2.1.bufferedSamples_ = fe.bufferedSamples_ ∧
    (fe.encodeBuffer c frame sp out).2.1.codecContext_ = fe.codecContext_ := by
  simp only [encodeBuffer]
  exact sendAndReceive_keeps c _ out _

/-- One loop iteration leaves the pop side of the queue and the codec context alone. -/
theorem aggregateStep_keeps (c : Codec) (frame : AVFrame) (fe : FrameEncoder) (q : Int)
    (out : OutputSlot) :
    match aggregateStep c frame fe q out with
    | Sum.inl r => r.2.1.dequeued = fe.dequeued ∧ r.2.1.discarded = fe.discarded ∧
        r.2.1.codecContext_ = fe.codecContext_
    | Sum.inr s => s.1.dequeued = fe.dequeued ∧ s.1.discarded = fe.discarded ∧
        s.1.codecContext_ = fe.codecContext_ := by
  simp only [aggregateStep]
  generalize min (c.frame_size - fe.bufferedSamples_) (frame.nb_samples - q) = k
  obtain ⟨hd, hdi, _, hc⟩ := encodeBuffer_keeps c (fe.copySamples frame q k) frame (q + k) out
  split_ifs
  · exact ⟨hd, hdi, hc⟩
  · exact ⟨hd, hdi, hc⟩
  · exact ⟨rfl, rfl, rfl⟩

/-- The aggregation loop leaves the pop side of the queue and the codec context alone. -/
theorem aggregate_queue (c : Codec) (frame : AVFrame) :
    ∀ (fuel : Nat) (fe : FrameEncoder) (q : Int) (out : OutputSlot)
      (r : Int × FrameEncoder × OutputSlot),
      aggregate c frame fuel fe q out = some r →
      r.2.1.dequeued = fe.dequeued ∧ r.2.1.discarded = fe.discarded ∧
        r.2.1.codecContext_ = fe.codecContext_ := by
  intro fuel
  induction fuel with
  | zero => intro fe q out r h; simp [aggregate] at h
  | succ n ih =>
    intro fe q out r h
    rw [aggregate] at h
    split_ifs at h with hq
    · have hstep := aggregateStep_keeps c frame fe q out
      cases hs : aggregateStep c frame fe q out with
      | inl v =>
        rw [hs] at h hstep
        simp only [Option.some.injEq] at h
        subst h
        exact hstep
      | inr s =>
        rw [hs] at h hstep
        obtain ⟨a2, a3, a4⟩ := hstep
        obtain ⟨b2, b3, b4⟩ := ih _ _ _ _ h
        exact ⟨b2.trans a2, b3.trans a3, b4.trans a4⟩
    · simp only [Option.some.injEq] at h
      subst h
      exact ⟨rfl, rfl, rfl⟩

/-- One loop iteration on a state within bounds: on a return the state is still within bounds;
otherwise fewer than `frame_size` samples are buffered, `samplesProcessed` has not decreased
and stays within the frame, and it has increased unless the buffer was full on entry. -/
theorem aggregateStep_bounds (c : Codec) (frame : AVFrame) (fe : FrameEncoder) (q : Int)
    (out : OutputSlot) (hfs : 0 < c.frame_size) (h0 : 0 ≤ fe.bufferedSamples_)
    (h1 : fe.bufferedSamples_ ≤ c.frame_size) (hq : q < frame.nb_samples) :
    match aggregateStep c frame fe q out with
    | Sum.inl r => 0 ≤ r.2.1.bufferedSamples_ ∧ r.2.1.bufferedSamples_ ≤ c.frame_size ∧
        r.2.1.dequeued = fe.dequeued ∧ r.2.1.discarded = fe.discarded ∧
        r.2.1.codecContext_ = fe.codecContext_
    | Sum.inr s => 0 ≤ s.1.bufferedSamples_ ∧ s.1.bufferedSamples_ < c.frame_size ∧
        q ≤ s.2.1 ∧ s.2.1 ≤ frame.nb_samples ∧ (fe.bufferedSamples_ < c.frame_size → q < s.2.1) ∧
        s.1.dequeued = fe.dequeued ∧ s.1.discarded = fe.discarded ∧
        s.1.codecContext_ = fe.codecContext_ := by
  simp only [aggregateStep]
  generalize hk : min (c.frame_size - fe.bufferedSamples_) (frame.nb_samples - q) = k
  have hc1 : (fe.copySamples frame q k).bufferedSamples_ = fe.bufferedSamples_ + k := rfl
  have hc2 : (fe.copySamples frame q k).dequeued = fe.dequeued := rfl
  have hc3 : (fe.copySamples frame q k).codecContext_ = fe.codecContext_ := rfl
  have hc4 : (fe.copySamples frame q k).discarded = fe.discarded := rfl
  obtain ⟨hd, hdi, hb, hc⟩ := encodeBuffer_keeps c (fe.copySamples frame q k) frame (q + k) out
  split_ifs with hfull hfail
  · simp only [hd, hdi, hb, hc, hc1, hc2, hc3, hc4]
    refine ⟨?_, ?_, trivial, trivial, trivial⟩ <;> omega
  · simp only [hd, hdi, hc, hc2, hc3, hc4]
    refine ⟨le_refl _, hfs, ?_, ?_, ?_, trivial, trivial, trivial⟩ <;> omega
  · simp only [hc1, hc2, hc3, hc4]
    refine ⟨?_, ?_, ?_, ?_, ?_, trivial, trivial, trivial⟩ <;> omega

/-- The aggregation loop keeps the state within bounds and leaves the pop side of the queue
alone. -/
theorem aggregate_keeps (c : Codec) (frame : AVFrame) (hfs : 0 < c.frame_size) :
    ∀ (fuel : Nat) (fe : FrameEncoder) (q : Int) (out : OutputSlot)
      (r : Int × FrameEncoder × OutputSlot),
      0 ≤ fe.bufferedSamples_ → fe.bufferedSamples_ ≤ c.frame_size →
      aggregate c frame fuel fe q out = some r →
      0 ≤ r.2.1.bufferedSamples_ ∧ r.2.1.bufferedSamples_ ≤ c.frame_size ∧
        r.2.1.dequeued = fe.dequeued ∧ r.2.1.discarded = fe.discarded ∧
        r.2.1.codecContext_ = fe.codecContext_ := by
  intro fuel
  induction fuel with
  | zero => intro fe q out r _ _ h; simp [aggregate] at h
  | succ n ih =>
    intro fe q out r h0 h1 h
    rw [aggregate] at h
    split_ifs at h with hq
    · have hstep := aggregateStep_bounds c frame fe q out hfs h0 h1 hq
      cases hs : aggregateStep c frame fe q out with
      | inl v =>
        rw [hs] at h hstep
        simp only [Option.some.injEq] at h
        subst h
        exact hstep
      | inr s =>
        rw [hs] at h hstep
        obtain ⟨a0, a1, _, _, _, a2, a3, a4⟩ := hstep
        obtain ⟨b0, b1, b2, b3, b4⟩ := ih _ _ _ _ a0 (le_of_lt a1) h
        exact ⟨b0, b1, b2.trans a2, b3.trans a3, b4.trans a4⟩
    · simp only [Option.some.injEq] at h
      subst h
      exact ⟨h0, h1, rfl, rfl, rfl⟩

/-- The aggregation loop ends: from a state within bounds, one unit of fuel per sample left,
one more when the buffer is full on entry, and one for the exit test are enough. -/
theorem aggregate_terminates (c : Codec) (frame : AVFrame) (hfs : 0 < c.frame_size) :
    ∀ (fuel : Nat) (fe : FrameEncoder) (q : Int) (out : OutputSlot),
      0 ≤ fe.bufferedSamples_ → fe.bufferedSamples_ ≤ c.frame_size →
      (frame.nb_samples - q).toNat + (if fe.bufferedSamples_ = c.frame_size then 1 else 0) < fuel →
      ∃ r, aggregate c frame fuel fe q out = some r := by
  intro fuel
  induction fuel with
  | zero => intro fe q out _ _ h; omega
  | succ n ih =>
    intro fe q out h0 h1 hfuel
    rw [aggregate]
    split_ifs with hq
    · have hstep := aggregateStep_bounds c frame fe q out hfs h0 h1 hq
      cases hs : aggregateStep c frame fe q out with
      | inl v => exact ⟨v, rfl⟩
      | inr s =>
        rw [hs] at hstep
        obtain ⟨a0, a1, a2, a3, a4, _⟩ := hstep
        apply ih _ _ _ a0 (le_of_lt a1)
        have hne : ¬ s.1.bufferedSamples_ = c.frame_size := by omega
        simp only [hne, if_false]
        split_ifs at hfuel with hfull
        · omega
        · have := a4 (by omega)
          omega
    · exact ⟨_, rfl⟩

/-- More fuel does not change what the aggregation loop returns. -/
theorem aggregate_mono (c : Codec) (frame : AVFrame) :
    ∀ (n m : Nat) (fe : FrameEncoder) (q : Int) (out : OutputSlot)
      (r : Int × FrameEncoder × OutputSlot),
      n ≤ m → aggregate c frame n fe q out = some r → aggregate c frame m fe q out = some r := by
  intro n
  induction n with
  | zero => intro m fe q out r _ h; simp [aggregate] at h
  | succ n ih =>
    intro m fe q out r hnm h
    obtain ⟨m', rfl⟩ : ∃ m', m = m' + 1 := ⟨m - 1, by omega⟩
    rw [aggregate] at h ⊢
    split_ifs at h ⊢ with hq
    · cases hs : aggregateStep c frame fe q out with
      | inl v => rw [hs] at h; exact h
      | inr s => rw [hs] at h; exact ih m' _ _ _ _ (by omega) h
    · exact h

theorem encodeFrame_closed (c : Codec) (fuel : Nat) (fe : FrameEncoder)
    (frame : Option AVFrame) (out : OutputSlot) (hctx : fe.codecContext_ = false) :
    fe.encodeFrame c fuel frame out = some (-1, fe, out) := by
  simp [encodeFrame, hctx]

theorem encodeFrame_null (c : Codec) (fuel : Nat) (fe : FrameEncoder) (out : OutputSlot)
    (hctx : fe.codecContext_ = true) :
    fe.encodeFrame c fuel none out =
      some (if (fe.sendAndReceive c out none).1 then 0 else -1,
        (fe.sendAndReceive c out none).2.1, (fe.sendAndReceive c out none).2.2) := by
  simp [encodeFrame, hctx]

theorem encodeFrame_direct (c : Codec) (fuel : Nat) (fe : FrameEncoder) (f : AVFrame)
    (out : OutputSlot) (hctx : fe.codecContext_ = true) (hfs : ¬ 0 < c.frame_size) :
    fe.encodeFrame c fuel (some f) out =
      some (if (fe.sendAndReceive c out (some f)).1 then 0 else -1,
        (fe.sendAndReceive c out (some f)).2.1, (fe.sendAndReceive c out (some f)).2.2) := by
  simp [encodeFrame, hctx, hfs]

theorem encodeFrame_alloc_fails (c : Codec) (fuel : Nat) (fe : FrameEncoder) (f : AVFrame)
    (out : OutputSlot) (hctx : fe.codecContext_ = true) (hfs : 0 < c.frame_size)
    (hb : fe.bufferFrame_ = none) (hbuf : c.get_buffer_ok = false) :
    fe.encodeFrame c fuel (some f) out =
      some (-1,
        { fe with
          bufferFrame_ := some { data := [], pts := 0, sample_rate := f.sample_rate } },
        out) := by
  simp [encodeFrame, hctx, hfs, hb, hbuf]

theorem encodeFrame_alloc (c : Codec) (fuel : Nat) (fe : FrameEncoder) (f : AVFrame)
    (out : OutputSlot) (hctx : fe.codecContext_ = true) (hfs : 0 < c.frame_size)
    (hb : fe.bufferFrame_ = none) (hbuf : c.get_buffer_ok = true) :
    fe.encodeFrame c fuel (some f) out =
      aggregate c f fuel
        { fe with
          bufferFrame_ := some { data := List.replicate c.frame_size.toNat 0, pts := 0,
                                 sample_rate := f.sample_rate }
          bufferedSamples_ := 0 } 0 out := by
  simp [encodeFrame, hctx, hfs, hb, hbuf]

theorem encodeFrame_buffered (c : Codec) (fuel : Nat) (fe : FrameEncoder) (f : AVFrame)
    (out : OutputSlot) (hctx : fe.codecContext_ = true) (hfs : 0 < c.frame_size)
    (b : AVFrame) (hb : fe.bufferFrame_ = some b) :
    fe.encodeFrame c fuel (some f) out = aggregate c f fuel fe 0 out := by
  simp [encodeFrame, hctx, hfs, hb]

/-- The cases of `encodeFrame`: whatever the fuel, it returns at once with the state's
counters and queue untouched, or it is one send and receive, or it is the aggregation loop
from a state with the same counters and queue, `bufferedSamples_` being reset to 0 when the
buffer frame is created. -/
theorem encodeFrame_cases (c : Codec) (fe : FrameEncoder) (frame : Option AVFrame)
    (out : OutputSlot) :
    (∃ v fe', (∀ fuel, fe.encodeFrame c fuel frame out = some (v, fe', out)) ∧
        fe'.bufferedSamples_ = fe.bufferedSamples_ ∧ fe'.dequeued = fe.dequeued ∧
        fe'.discarded = fe.discarded ∧ fe'.codecContext_ = fe.codecContext_) ∨
    (∃ v fr, ∀ fuel, fe.encodeFrame c fuel frame out =
        some (v, (fe.sendAndReceive c out fr).2.1, (fe.sendAndReceive c out fr).2.2)) ∨
    (∃ f fe', frame = some f ∧ 0 < c.frame_size ∧
        (∀ fuel, fe.encodeFrame c fuel frame out = aggregate c f fuel fe' 0 out) ∧
        (fe'.bufferedSamples_ = fe.bufferedSamples_ ∨ fe'.bufferedSamples_ = 0) ∧
        fe'.dequeued = fe.dequeued ∧ fe'.discarded = fe.discarded ∧
        fe'.codecContext_ = fe.codecContext_) := by
  cases hctx : fe.codecContext_ with
  | false =>
    exact Or.inl ⟨_, _, fun fuel => encodeFrame_closed c fuel fe frame out hctx,
      rfl, rfl, rfl, hctx.symm ▸ rfl⟩
  | true =>
    cases frame with
    | none => exact Or.inr (Or.inl ⟨_, _, fun fuel => encodeFrame_null c fuel fe out hctx⟩)
    | some f =>
      by_cases hfs : 0 < c.frame_size
      · cases hb : fe.bufferFrame_ with
        | none =>
          cases hbuf : c.get_buffer_ok with
          | false =>
            exact Or.inl ⟨_, _,
              fun fuel => encodeFrame_alloc_fails c fuel fe f out hctx hfs hb hbuf,
              rfl, rfl, rfl, hctx.symm ▸ rfl⟩
          | true =>
            exact Or.inr (Or.inr ⟨f, _, rfl, hfs,
              fun fuel => encodeFrame_alloc c fuel fe f out hctx hfs hb hbuf,
              Or.inr rfl, rfl, rfl, hctx.symm ▸ rfl⟩)
        | some b =>
          exact Or.inr (Or.inr ⟨f, fe, rfl, hfs,
            fun fuel => encodeFrame_buffered c fuel fe f out hctx hfs b hb,
            Or.inl rfl, rfl, rfl, hctx.symm ▸ rfl⟩)
      · exact Or.inr (Or.inl ⟨_, _, fun fuel => encodeFrame_direct c fuel fe f out hctx hfs⟩)

/-- `encodeFrame` keeps the state within bounds and leaves the pop side of the queue alone. -/
theorem encodeFrame_keeps (c : Codec) (fuel : Nat) (fe : FrameEncoder) (frame : Option AVFrame)
    (out : OutputSlot) (r : Int × FrameEncoder × OutputSlot)
    (h : fe.encodeFrame c fuel frame out = some r) :
    (Bounded c fe → Bounded c r.2.1) ∧ r.2.1.dequeued = fe.dequeued ∧
      r.2.1.discarded = fe.discarded ∧ r.2.1.codecContext_ = fe.codecContext_ := by
  rcases encodeFrame_cases c fe frame out with
    ⟨v, fe', he, h1, h2, h3, h4⟩ | ⟨v, fr, he⟩ | ⟨f, fe', _, hfs, he, h1, h2, h3, h4⟩
  · rw [he] at h; simp only [Option.some.injEq] at h; subst h
    exact ⟨fun hb hfs => by simpa only [h1] using hb hfs, h2, h3, h4⟩
  · rw [he] at h; simp only [Option.some.injEq] at h; subst h
    obtain ⟨a, b, cc, d⟩ := sendAndReceive_keeps c fe out fr
    exact ⟨fun hb hfs => by simpa only [cc] using hb hfs, a, b, d⟩
  · rw [he] at h
    refine ⟨fun hb => ?_, ?_⟩
    · have hbd : 0 ≤ fe'.bufferedSamples_ ∧ fe'.bufferedSamples_ ≤ c.frame_size := by
        rcases h1 with h1 | h1 <;> rw [h1]
        · exact hb hfs
        · exact ⟨le_refl _, le_of_lt hfs⟩
      obtain ⟨a0, a1, _⟩ := aggregate_keeps c f hfs fuel _ _ _ _ hbd.1 hbd.2 h
      exact fun _ => ⟨a0, a1⟩
    · obtain ⟨a, b, d⟩ := aggregate_queue c f fuel _ _ _ _ h
      exact ⟨a.trans h2, b.trans h3, d.trans h4⟩

/-- `encodeFrame` returns: from a state within bounds, two units of fuel more than the frame
has samples are enough. -/
theorem encodeFrame_terminates (c : Codec) (fuel : Nat) (fe : FrameEncoder)
    (frame : Option AVFrame) (out : OutputSlot) (hb : Bounded c fe)
    (hfuel : ∀ f, frame = some f → f.data.length + 1 < fuel) :
    ∃ r, fe.encodeFrame c fuel frame out = some r := by
  rcases encodeFrame_cases c fe frame out with
    ⟨v, fe', he, _⟩ | ⟨v, fr, he⟩ | ⟨f, fe', hf, hfs, he, h1, _⟩
  · exact ⟨_, he fuel⟩
  · exact ⟨_, he fuel⟩
  · rw [he]
    have hbd : 0 ≤ fe'.bufferedSamples_ ∧ fe'.bufferedSamples_ ≤ c.frame_size := by
      rcases h1 with h1 | h1 <;> rw [h1]
      · exact hb hfs
      · exact ⟨le_refl _, le_of_lt hfs⟩
    apply aggregate_terminates c f hfs fuel fe' 0 out hbd.1 hbd.2
    have := hfuel f hf
    simp only [AVFrame.nb_samples]
    split_ifs <;> omega

/-- More fuel does not change what `encodeFrame` returns. -/
theorem encodeFrame_mono (c : Codec) (n m : Nat) (fe : FrameEncoder) (frame : Option AVFrame)
    (out : OutputSlot) (r : Int × FrameEncoder × OutputSlot) (hnm : n ≤ m)
    (h : fe.encodeFrame c n frame out = some r) : fe.encodeFrame c m frame out = some r := by
  rcases encodeFrame_cases c fe frame out with
    ⟨v, fe', he, _⟩ | ⟨v, fr, he⟩ | ⟨f, fe', hf, hfs, he, _⟩
  · rw [he] at h ⊢; exact h
  · rw [he] at h ⊢; exact h
  · rw [he] at h ⊢; exact aggregate_mono c f n m _ _ _ _ hnm h

theorem flushRemaining_keeps (c : Codec) (fe : FrameEncoder) (out : OutputSlot) :
    (fe.flushRemaining c out).1.dequeued = fe.dequeued ∧
    (fe.flushRemaining c out).1.discarded = fe.discarded ∧
    (fe.flushRemaining c out).1.bufferedSamples_ = fe.bufferedSamples_ ∧
    (fe.flushRemaining c out).1.codecContext_ = fe.codecContext_ := by
  simp only [flushRemaining]
  cases fe.flush_bufferFrame with
  | none => exact ⟨rfl, rfl, rfl, rfl⟩
  | some b =>
    simp only
    split_ifs
    · exact sendAndReceive_keeps c fe out _
    · exact ⟨rfl, rfl, rfl, rfl⟩

/-- `flushEncoder` returns whatever the fuel, and what it returns does not depend on the
fuel. -/
theorem flushEncoder_total (c : Codec) (fe : FrameEncoder) (out : OutputSlot) :
    ∃ r, ∀ fuel, fe.flushEncoder c fuel out = some r := by
  simp only [flushEncoder]
  cases hctx : fe.codecContext_ with
  | false => exact ⟨(fe, out), fun _ => by simp⟩
  | true =>
    have hpc : (fe.flushRemaining c out).1.codecContext_ = true :=
      (flushRemaining_keeps c fe out).2.2.2.trans hctx
    exact ⟨((fe.flushRemaining c out).1.sendAndReceive c (fe.flushRemaining c out).2 none).2,
      fun fuel => by rw [encodeFrame_null c fuel _ _ hpc]; simp⟩

/-- `flushEncoder` leaves the pop side of the queue alone. -/
theorem flushEncoder_keeps (c : Codec) (fuel : Nat) (fe : FrameEncoder) (out : OutputSlot)
    (r : FrameEncoder × OutputSlot) (h : fe.flushEncoder c fuel out = some r) :
    r.1.dequeued = fe.dequeued ∧ r.1.discarded = fe.discarded := by
  simp only [flushEncoder] at h
  split_ifs at h with hctx
  · simp only [Option.some.injEq] at h; subst h; exact ⟨rfl, rfl⟩
  · split at h
    · exact absurd h (by simp)
    · rename_i v hv
      simp only [Option.some.injEq] at h; subst h
      obtain ⟨_, a, b, _⟩ := encodeFrame_keeps c fuel _ none _ v hv
      obtain ⟨a', b', _⟩ := flushRemaining_keeps c fe out
      exact ⟨a.trans a', b.trans b'⟩

end FrameEncoder

/-! ## The two sinks -/

theorem localWrites_append (t₁ t₂ : List Event) :
    localWrites (t₁ ++ t₂) = localWrites t₁ ++ localWrites t₂ := by
  induction t₁ with
  | nil => rfl
  | cons a t ih => cases a <;> simp [localWrites, ih]

theorem udpSends_append (t₁ t₂ : List Event) :
    udpSends (t₁ ++ t₂) = udpSends t₁ ++ udpSends t₂ := by
  induction t₁ with
  | nil => rfl
  | cons a t ih => cases a <;> simp [udpSends, ih]

namespace AudioProcessor

/-- Closed form of `forwardPacket` when the local container is open: one local write, then
one send when the socket is open and `udpError` is not set, which sets `udpError` when it
fails. -/
theorem forwardPacket_eq (env : Env) (ap : AudioProcessor) (e : Bool) (pkt : AVPacket)
    (hl : ap.localFormatContext_ = true) :
    forwardPacket env ap e pkt =
      if 0 ≤ ap.udpSocket_ ∧ e = false then
        ({ ap with trace := ap.trace ++
              [Event.localWrite pkt (env.av_write_frame (localWrites ap.trace).length pkt),
               Event.udpSend (some pkt.data)
                 (env.sendto (udpSends ap.trace).length pkt.data)] },
          decide (env.sendto (udpSends ap.trace).length pkt.data < 0))
      else
        ({ ap with trace := ap.trace ++
              [Event.localWrite pkt (env.av_write_frame (localWrites ap.trace).length pkt)] },
          e) := by
  have hw : (ap.writeLocalOutputPacket env pkt).2 =
      { ap with trace := ap.trace ++
          [Event.localWrite pkt (env.av_write_frame (localWrites ap.trace).length pkt)] } := by
    simp only [writeLocalOutputPacket, hl]
    split_ifs <;> simp_all
  simp only [forwardPacket, hw]
  cases e with
  | true => simp
  | false =>
    by_cases hs : 0 ≤ ap.udpSocket_
    · have hs' : ¬ ap.udpSocket_ < 0 := by omega
      simp only [sendUdpData, hs', udpSends_append, udpSends, datagram]
      by_cases hr : env.sendto (udpSends ap.trace).length pkt.data < 0
      · simp [hs, hr]
      · simp [hs, hr]
    · simp [hs]

/-- `forwardPacket` touches the trace only. -/
theorem forwardPacket_fields (env : Env) (ap : AudioProcessor) (e : Bool) (pkt : AVPacket) :
    (forwardPacket env ap e pkt).1.frameEncoder_ = ap.frameEncoder_ ∧
    (forwardPacket env ap e pkt).1.localFormatContext_ = ap.localFormatContext_ ∧
    (forwardPacket env ap e pkt).1.udpSocket_ = ap.udpSocket_ ∧
    (forwardPacket env ap e pkt).1.log = ap.log ∧
    (forwardPacket env ap e pkt).1.resamplerFormat = ap.resamplerFormat := by
  have hw : ∀ a : AudioProcessor, (a.writeLocalOutputPacket env pkt).2.frameEncoder_ = a.frameEncoder_ ∧
      (a.writeLocalOutputPacket env pkt).2.localFormatContext_ = a.localFormatContext_ ∧
      (a.writeLocalOutputPacket env pkt).2.udpSocket_ = a.udpSocket_ ∧
      (a.writeLocalOutputPacket env pkt).2.log = a.log ∧
      (a.writeLocalOutputPacket env pkt).2.resamplerFormat = a.resamplerFormat := by
    intro a
    simp only [writeLocalOutputPacket]
    split_ifs <;> exact ⟨rfl, rfl, rfl, rfl, rfl⟩
  have hs : ∀ (a : AudioProcessor) d, (a.sendUdpData env d).2.frameEncoder_ = a.frameEncoder_ ∧
      (a.sendUdpData env d).2.localFormatContext_ = a.localFormatContext_ ∧
      (a.sendUdpData env d).2.udpSocket_ = a.udpSocket_ ∧
      (a.sendUdpData env d).2.log = a.log ∧
      (a.sendUdpData env d).2.resamplerFormat = a.resamplerFormat := by
    intro a d
    simp only [sendUdpData]
    split_ifs <;> exact ⟨rfl, rfl, rfl, rfl, rfl⟩
  obtain ⟨w1, w2, w3, w4, w5⟩ := hw ap
  obtain ⟨s1, s2, s3, s4, s5⟩ := hs (ap.writeLocalOutputPacket env pkt).2 (some pkt.data)
  simp only [forwardPacket]
  split_ifs
  · exact ⟨s1.trans w1, s2.trans w2, s3.trans w3, s4.trans w4, s5.trans w5⟩
  · exact ⟨s1.trans w1, s2.trans w2, s3.trans w3, s4.trans w4, s5.trans w5⟩
  · exact ⟨w1, w2, w3, w4, w5⟩

/-- Forwarding one more unit keeps the sinks in the state `SinkInv` describes. -/
theorem forwardPacket_inv (env : Env) (ap : AudioProcessor) (e : Bool) (pkt : AVPacket)
    (U : List AVPacket) (hl : ap.localFormatContext_ = true)
    (h : SinkInv ap.udpSocket_ ap.trace e U) :
    SinkInv ap.udpSocket_ (forwardPacket env ap e pkt).1.trace (forwardPacket env ap e pkt).2
      (U ++ [pkt]) := by
  obtain ⟨h1, h2, h3, h4, h5⟩ := h
  have hlen : (udpSends ap.trace).length ≤ U.length := by
    have := congrArg List.length h2
    simp only [List.length_map, List.length_take] at this
    omega
  rw [forwardPacket_eq env ap e pkt hl]
  split_ifs with hc
  · obtain ⟨hs, he⟩ := hc
    obtain ⟨h3a, h3b⟩ := h3 he
    have hSU := h3b hs
    refine ⟨?_, ?_, ?_, ?_, ?_⟩
    · simp [localWrites_append, localWrites, h1]
    · simp only [udpSends_append, udpSends, localWrites, List.append_nil, List.nil_append,
        List.map_append, List.map_cons, List.map_nil, List.length_append, List.length_singleton]
      rw [hSU, List.take_of_length_le (by simp), List.map_append, h2, hSU,
        List.take_of_length_le (le_refl _)]
      simp
    · intro hd
      simp only [decide_eq_false_iff_not, not_lt] at hd
      simp only [udpSends_append, udpSends, List.nil_append, List.mem_append, List.mem_singleton,
        List.length_append, List.length_singleton]
      refine ⟨?_, fun _ => by rw [hSU]⟩
      rintro s (hs' | rfl)
      · exact h3a s hs'
      · exact hd
    · intro hd
      simp only [decide_eq_true_eq] at hd
      exact ⟨udpSends ap.trace,
        (some pkt.data, env.sendto (udpSends ap.trace).length pkt.data),
        by simp [udpSends_append, udpSends], hd, h3a⟩
    · intro hneg; omega
  · have hu : udpSends (ap.trace ++
        [Event.localWrite pkt (env.av_write_frame (localWrites ap.trace).length pkt)]) =
        udpSends ap.trace := by simp [udpSends_append, udpSends]
    refine ⟨?_, ?_, ?_, ?_, ?_⟩
    · simp [localWrites_append, localWrites, h1]
    · simp only [hu]
      rw [List.take_append_of_le_length hlen]
      exact h2
    · intro he
      simp only [hu]
      refine ⟨(h3 he).1, fun hs => absurd ⟨hs, he⟩ hc⟩
    · intro he
      simp only [hu]
      exact h4 he
    · intro hneg
      simp only [hu]
      exact h5 hneg

/-- More fuel does not change what the drain loop returns. -/
theorem drainQueue_mono (env : Env) :
    ∀ (n m : Nat) (ap : AudioProcessor) (e : Bool) (r : AudioProcessor × Bool),
      n ≤ m → drainQueue env n ap e = some r → drainQueue env m ap e = some r := by
  intro n
  induction n with
  | zero => intro m ap e r _ h; simp [drainQueue] at h
  | succ n ih =>
    intro m ap e r hnm h
    obtain ⟨m', rfl⟩ : ∃ m', m = m' + 1 := ⟨m - 1, by omega⟩
    rw [drainQueue] at h ⊢
    split_ifs at h ⊢ with hq
    · cases hg : ap.frameEncoder_.getNextEncodedPacket with
      | none => rw [hg] at h; exact absurd h (by simp)
      | some v =>
        rw [hg] at h
        exact ih m' _ _ _ (by omega) h
    · exact h

/-- The drain loop, given more fuel than the queue has packets, pops every queued packet in
order and forwards each one; it ends with the queue empty and the sinks in the state
`SinkInv` describes for all units dequeued so far. -/
theorem drainQueue_spec (env : Env) :
    ∀ (Q : List AVPacket) (ap : AudioProcessor) (e : Bool),
      ap.frameEncoder_.packetQueue_ = Q → ap.localFormatContext_ = true →
      SinkInv ap.udpSocket_ ap.trace e ap.frameEncoder_.dequeued →
      ∃ ap' e', (∀ fuel, Q.length < fuel → drainQueue env fuel ap e = some (ap', e')) ∧
        ap'.frameEncoder_ =
          { ap.frameEncoder_ with
            packetQueue_ := [], dequeued := ap.frameEncoder_.dequeued ++ Q } ∧
        ap'.localFormatContext_ = true ∧ ap'.udpSocket_ = ap.udpSocket_ ∧ ap'.log = ap.log ∧
        ap'.resamplerFormat = ap.resamplerFormat ∧
        SinkInv ap.udpSocket_ ap'.trace e' ap'.frameEncoder_.dequeued := by
  intro Q
  induction Q with
  | nil =>
    intro ap e hQ hl hinv
    refine ⟨ap, e, ?_, ?_, hl, rfl, rfl, rfl, hinv⟩
    · intro fuel hf
      obtain ⟨n, rfl⟩ : ∃ n, fuel = n + 1 := ⟨fuel - 1, by omega⟩
      simp [drainQueue, FrameEncoder.hasEncodedPackets, hQ]
    · cases hfe : ap.frameEncoder_
      rw [hfe] at hQ
      simp only at hQ
      simp [hQ]
  | cons pkt rest ih =>
    intro ap e hQ hl hinv
    have hpop : ap.frameEncoder_.getNextEncodedPacket =
        some (pkt, { ap.frameEncoder_ with
          packetQueue_ := rest, dequeued := ap.frameEncoder_.dequeued ++ [pkt] }) := by
      simp [FrameEncoder.getNextEncodedPacket, hQ]
    obtain ⟨f1, f2, f3, f4, f5⟩ := forwardPacket_fields env
      { ap with frameEncoder_ := { ap.frameEncoder_ with
          packetQueue_ := rest, dequeued := ap.frameEncoder_.dequeued ++ [pkt] } } e pkt
    have hinv1 := forwardPacket_inv env
      { ap with frameEncoder_ := { ap.frameEncoder_ with
          packetQueue_ := rest, dequeued := ap.frameEncoder_.dequeued ++ [pkt] } } e pkt
      ap.frameEncoder_.dequeued hl hinv
    obtain ⟨ap', e', hrun, hfe, hl', hs', hlog', hrf', hinv'⟩ := ih _ _
      (by rw [f1]) (by rw [f2]; exact hl) (by rw [f3, f1]; exact hinv1)
    refine ⟨ap', e', ?_, ?_, hl', hs'.trans f3, hlog'.trans f4, hrf'.trans f5, ?_⟩
    · intro fuel hf
      obtain ⟨n, rfl⟩ : ∃ n, fuel = n + 1 := ⟨fuel - 1, by omega⟩
      rw [drainQueue]
      simp only [FrameEncoder.hasEncodedPackets, hQ, hpop]
      simpa using hrun n (by simpa using hf)
    · rw [hfe, f1]; simp
    · rw [f3] at hinv'; exact hinv'

/-- More fuel does not change what the main loop returns. -/
theorem mainLoop_mono (env : Env) (n m : Nat) (hnm : n ≤ m) :
    ∀ (input : List InputPacket) (ap : AudioProcessor) (e : Bool) (k : Int)
      (r : AudioProcessor × Bool × Int),
      mainLoop env n input ap e k = some r → mainLoop env m input ap e k = some r := by
  intro input
  induction input with
  | nil => intro ap e k r h; simpa [mainLoop] using h
  | cons p rest ih =>
    intro ap e k r h
    cases p with
    | decodeFails => rw [mainLoop] at h ⊢; exact ih _ _ _ _ h
    | resampleFails => rw [mainLoop] at h ⊢; exact ih _ _ _ _ h
    | resampled frame =>
      rw [mainLoop] at h ⊢
      cases he : ap.frameEncoder_.encodeFrame env.codec n (some frame) none with
      | none => rw [he] at h; exact absurd h (by simp)
      | some v =>
        rw [he] at h
        rw [FrameEncoder.encodeFrame_mono env.codec n m _ _ _ v hnm he]
        simp only at h ⊢
        split_ifs at h ⊢ with hv
        · exact h
        · cases hd : drainQueue env n { ap with frameEncoder_ := v.2.1 } e with
          | none => rw [hd] at h; exact absurd h (by simp)
          | some p =>
            rw [hd] at h
            rw [drainQueue_mono env n m _ _ p hnm hd]
            exact ih _ _ _ _ h

theorem loopEnd_shift (log : List LogLine) (n : Int) (len : Nat) (n' : Int)
    (h : LoopEnd log (n + 1) len n') : LoopEnd log n (len + 1) n' := by
  rcases h with ⟨a, b⟩ | ⟨a, b, c⟩
  · exact Or.inl ⟨a, by push_cast; omega⟩
  · exact Or.inr ⟨a, b, by push_cast; omega⟩

/-- The main loop returns, given enough fuel, and keeps `LoopInv`; the log and `frameCount`
tell how it ended. -/
theorem mainLoop_spec (env : Env) :
    ∀ (input : List InputPacket) (ap : AudioProcessor) (e : Bool) (n : Int),
      LoopInv env ap e → (∀ k, LogLine.failedEncode k ∉ ap.log) →
      ∃ (N : Nat) (ap' : AudioProcessor) (e' : Bool) (n' : Int),
        (∀ fuel, N ≤ fuel → mainLoop env fuel input ap e n = some (ap', e', n')) ∧
        LoopInv env ap' e' ∧ ap'.udpSocket_ = ap.udpSocket_ ∧
        ap'.resamplerFormat = ap.resamplerFormat ∧ LoopEnd ap'.log n input.length n' := by
  intro input
  induction input with
  | nil =>
    intro ap e n hinv hlog
    exact ⟨0, ap, e, n, fun _ _ => rfl, hinv, rfl, rfl, Or.inl ⟨hlog, by simp⟩⟩
  | cons p rest ih =>
    intro ap e n hinv hlog
    cases p with
    | decodeFails =>
      obtain ⟨N, ap', e', n', hrun, hinv', hs, hrf, hend⟩ :=
        ih { ap with log := ap.log ++ [LogLine.failedDecode (n + 1)] } e (n + 1) hinv
          (by simpa using hlog)
      exact ⟨N, ap', e', n', fun fuel hf => by rw [mainLoop]; exact hrun fuel hf, hinv', hs, hrf,
        loopEnd_shift _ _ _ _ hend⟩
    | resampleFails =>
      obtain ⟨N, ap', e', n', hrun, hinv', hs, hrf, hend⟩ :=
        ih { ap with log := ap.log ++ [LogLine.failedResample (n + 1)] } e (n + 1) hinv
          (by simpa using hlog)
      exact ⟨N, ap', e', n', fun fuel hf => by rw [mainLoop]; exact hrun fuel hf, hinv', hs, hrf,
        loopEnd_shift _ _ _ _ hend⟩
    | resampled frame =>
      obtain ⟨hl, hsink, hbd⟩ := hinv
      obtain ⟨r1, hr1⟩ := FrameEncoder.encodeFrame_terminates env.codec (frame.data.length + 2)
        ap.frameEncoder_ (some frame) none hbd
        (by intro f hf; simp only [Option.some.injEq] at hf; subst hf; omega)
      obtain ⟨hb1, hd1, _, _⟩ := FrameEncoder.encodeFrame_keeps _ _ _ _ _ _ hr1
      by_cases hv : r1.1 < 0
      · refine ⟨frame.data.length + 2,
          { ap with frameEncoder_ := r1.2.1, log := ap.log ++ [LogLine.failedEncode (n + 1)] },
          e, n + 1, ?_, ⟨hl, ?_, hb1 hbd⟩, rfl, rfl,
          Or.inr ⟨by simp, ?_, by simp only [List.length_cons]; push_cast; omega⟩⟩
        · intro fuel hf
          rw [mainLoop, FrameEncoder.encodeFrame_mono _ _ fuel _ _ _ r1 hf hr1]
          simp [hv]
        · simpa only [hd1] using hsink
        · intro k hk
          simp only [List.mem_append, List.mem_singleton, LogLine.failedEncode.injEq] at hk
          rcases hk with hk | hk
          · exact absurd hk (hlog k)
          · exact hk
      · obtain ⟨ap2, e2, hrun2, hfe2, hl2, hs2, hlog2, hrf2, hinv2⟩ :=
          drainQueue_spec env r1.2.1.packetQueue_ { ap with frameEncoder_ := r1.2.1 } e rfl hl
            (by simpa only [hd1] using hsink)
        have hbd2 : FrameEncoder.Bounded env.codec ap2.frameEncoder_ := by
          rw [hfe2]; exact hb1 hbd
        obtain ⟨N3, ap', e', n', hrun3, hinv', hs3, hrf3, hend⟩ :=
          ih ap2 e2 (n + 1) ⟨hl2, by rw [hs2]; exact hinv2, hbd2⟩ (by rw [hlog2]; exact hlog)
        refine ⟨max (frame.data.length + 2) (max (r1.2.1.packetQueue_.length + 1) N3),
          ap', e', n', ?_, hinv', hs3.trans hs2, hrf3.trans hrf2, loopEnd_shift _ _ _ _ hend⟩
        intro fuel hf
        rw [mainLoop, FrameEncoder.encodeFrame_mono _ _ fuel _ _ _ r1 (by omega) hr1]
        simp only [hv, if_false]
        rw [hrun2 fuel (by omega)]
        exact hrun3 fuel (by omega)

/-- More fuel does not change what the resampler flush returns. -/
theorem flushResamplerStep_mono (env : Env) (n m : Nat) (hnm : n ≤ m) (ap : AudioProcessor)
    (e : Bool) (r : AudioProcessor × Bool) (h : flushResamplerStep env n ap e = some r) :
    flushResamplerStep env m ap e = some r := by
  simp only [flushResamplerStep] at h ⊢
  cases hf : env.flushed with
  | none => rw [hf] at h; exact h
  | some f =>
    rw [hf] at h
    simp only at h ⊢
    cases he : ap.frameEncoder_.encodeFrame env.codec n (some f) none with
    | none => rw [he] at h; exact absurd h (by simp)
    | some v =>
      rw [he] at h
      rw [FrameEncoder.encodeFrame_mono env.codec n m _ _ _ v hnm he]
      exact drainQueue_mono env n m _ _ r hnm h

/-- The resampler flush returns, given enough fuel, and keeps `LoopInv`. -/
theorem flushResamplerStep_spec (env : Env) (ap : AudioProcessor) (e : Bool)
    (hinv : LoopInv env ap e) :
    ∃ (N : Nat) (ap' : AudioProcessor) (e' : Bool),
      (∀ fuel, N ≤ fuel → flushResamplerStep env fuel ap e = some (ap', e')) ∧
      LoopInv env ap' e' ∧ ap'.udpSocket_ = ap.udpSocket_ ∧ ap'.log = ap.log ∧
      ap'.resamplerFormat = ap.resamplerFormat := by
  cases hf : env.flushed with
  | none =>
    exact ⟨0, ap, e, fun fuel _ => by simp [flushResamplerStep, hf], hinv, rfl, rfl, rfl⟩
  | some f =>
    obtain ⟨hl, hsink, hbd⟩ := hinv
    obtain ⟨r1, hr1⟩ := FrameEncoder.encodeFrame_terminates env.codec (f.data.length + 2)
      ap.frameEncoder_ (some f) none hbd
      (by intro g hg; simp only [Option.some.injEq] at hg; subst hg; omega)
    obtain ⟨hb1, hd1, _, _⟩ := FrameEncoder.encodeFrame_keeps _ _ _ _ _ _ hr1
    obtain ⟨ap2, e2, hrun2, hfe2, hl2, hs2, hlog2, hrf2, hinv2⟩ :=
      drainQueue_spec env r1.2.1.packetQueue_ { ap with frameEncoder_ := r1.2.1 } e rfl hl
        (by simpa only [hd1] using hsink)
    have hbd2 : FrameEncoder.Bounded env.codec ap2.frameEncoder_ := by
      rw [hfe2]; exact hb1 hbd
    refine ⟨max (f.data.length + 2) (r1.2.1.packetQueue_.length + 1), ap2, e2, ?_,
      ⟨hl2, by rw [hs2]; exact hinv2, hbd2⟩, hs2, hlog2, hrf2⟩
    intro fuel hfu
    simp only [flushResamplerStep, hf]
    rw [FrameEncoder.encodeFrame_mono _ _ fuel _ _ _ r1 (by omega) hr1]
    exact hrun2 fuel (by omega)

/-- The encoder flush returns whatever the fuel; afterwards the sinks have been given the
units dequeued so far followed by the packet left in `flushedPacket`, if any. -/
theorem flushEncoderStep_spec (env : Env) (ap : AudioProcessor) (e : Bool)
    (hinv : LoopInv env ap e) :
    ∃ (ap' : AudioProcessor) (e' : Bool) (fp : Option AVPacket),
      (∀ fuel, flushEncoderStep env fuel ap e = some (ap', e', fp)) ∧
      ap'.udpSocket_ = ap.udpSocket_ ∧ ap'.log = ap.log ∧
      ap'.resamplerFormat = ap.resamplerFormat ∧
      SinkInv ap.udpSocket_ ap'.trace e' (ap'.frameEncoder_.dequeued ++ fp.toList) := by
  obtain ⟨hl, hsink, _⟩ := hinv
  obtain ⟨r, hr⟩ := FrameEncoder.flushEncoder_total env.codec ap.frameEncoder_ (some none)
  obtain ⟨hd, _⟩ := FrameEncoder.flushEncoder_keeps _ 0 _ _ _ (hr 0)
  rcases hslot : r.2 with _ | _ | fp
  · refine ⟨{ ap with frameEncoder_ := r.1 }, e, none, ?_, rfl, rfl, rfl, ?_⟩
    · intro fuel; simp [flushEncoderStep, hr fuel, hslot]
    · simpa [hd] using hsink
  · refine ⟨{ ap with frameEncoder_ := r.1 }, e, none, ?_, rfl, rfl, rfl, ?_⟩
    · intro fuel; simp [flushEncoderStep, hr fuel, hslot]
    · simpa [hd] using hsink
  · obtain ⟨f1, f2, f3, f4, f5⟩ := forwardPacket_fields env { ap with frameEncoder_ := r.1 } e fp
    have hinv1 := forwardPacket_inv env { ap with frameEncoder_ := r.1 } e fp
      ap.frameEncoder_.dequeued hl hsink
    refine ⟨(forwardPacket env { ap with frameEncoder_ := r.1 } e fp).1,
      (forwardPacket env { ap with frameEncoder_ := r.1 } e fp).2, some fp, ?_, f3, f4, f5, ?_⟩
    · intro fuel; simp [flushEncoderStep, hr fuel, hslot]
    · rw [f1]; simpa [hd] using hinv1

/-- What `finish` leaves: the code, the locals, the trace with the end marker appended when
the socket is open and `udpError` is not set, and the queue emptied by `closeEncoder`. -/
theorem finish_eq (env : Env) (ap : AudioProcessor) (e : Bool) (n : Int)
    (fp : Option AVPacket) :
    (finish env ap e n fp).code = (if e then -1 else 0) ∧
    (finish env ap e n fp).udpError = e ∧
    (finish env ap e n fp).frameCount = n ∧
    (finish env ap e n fp).flushedPacket = fp ∧
    (finish env ap e n fp).ap.trace = ap.trace ++
      (if 0 ≤ ap.udpSocket_ ∧ e = false then
        [Event.udpSend none (env.sendto (udpSends ap.trace).length [])]
      else []) ∧
    (finish env ap e n fp).ap.frameEncoder_.dequeued = ap.frameEncoder_.dequeued ∧
    (finish env ap e n fp).ap.frameEncoder_.discarded =
      ap.frameEncoder_.discarded ++ ap.frameEncoder_.packetQueue_ ∧
    (finish env ap e n fp).ap.log = ap.log := by
  have hs' : ∀ x : Int, ¬ x < 0 ↔ 0 ≤ x := fun x => not_lt
  cases e <;> by_cases hs : 0 ≤ ap.udpSocket_ <;>
    simp [finish, sendUdpData, hs, hs', closeLocalOutputFile, closeUdpClient,
      FrameEncoder.closeEncoder, FrameEncoder.clearPacketQueue, datagram]
  all_goals (split_ifs <;> first | omega | simp)

/-- More fuel does not change what the run after the setup returns. -/
theorem run_mono (env : Env) (n m : Nat) (hnm : n ≤ m) (ap : AudioProcessor) (r : RunResult)
    (h : run env n ap = some r) : run env m ap = some r := by
  simp only [run] at h ⊢
  cases hm : mainLoop env n env.input ap false 0 with
  | none => rw [hm] at h; exact absurd h (by simp)
  | some v =>
    rw [hm] at h
    rw [mainLoop_mono env n m hnm _ _ _ _ v hm]
    simp only at h ⊢
    cases hf : flushResamplerStep env n v.1 v.2.1 with
    | none => rw [hf] at h; exact absurd h (by simp)
    | some w =>
      rw [hf] at h
      rw [flushResamplerStep_mono env n m hnm _ _ w hf]
      simp only at h ⊢
      cases he : flushEncoderStep env n w.1 w.2 with
      | none => rw [he] at h; exact absurd h (by simp)
      | some x =>
        rw [he] at h
        have : flushEncoderStep env m w.1 w.2 = some x := by
          simp only [flushEncoderStep] at he ⊢
          obtain ⟨q, hq⟩ := FrameEncoder.flushEncoder_total env.codec w.1.frameEncoder_ (some none)
          rw [hq n] at he
          rw [hq m]
          exact he
        rw [this]
        exact h

/-- The run after the setup returns, given enough fuel, and leaves what `RunPost` says. -/
theorem run_spec (env : Env) (ap : AudioProcessor) (hinv : LoopInv env ap false)
    (hlog : ap.log = []) :
    ∃ (N : Nat) (r : RunResult), (∀ fuel, N ≤ fuel → run env fuel ap = some r) ∧
      RunPost env ap.udpSocket_ r := by
  obtain ⟨N1, ap1, e1, n1, hrun1, hinv1, hs1, _, hend⟩ :=
    mainLoop_spec env env.input ap false 0 hinv (by simp [hlog])
  obtain ⟨N2, ap2, e2, hrun2, hinv2, hs2, hlog2, _⟩ := flushResamplerStep_spec env ap1 e1 hinv1
  obtain ⟨ap3, e3, fp, hrun3, hs3, hlog3, _, hsink3⟩ := flushEncoderStep_spec env ap2 e2 hinv2
  have hsock : ap3.udpSocket_ = ap.udpSocket_ := hs3.trans (hs2.trans hs1)
  obtain ⟨c1, c2, c3, c4, c5, c6, _, c8⟩ := finish_eq env ap3 e3 n1 fp
  refine ⟨max N1 N2, finish env ap3 e3 n1 fp, ?_, ?_, ?_, ?_⟩
  · intro fuel hf
    simp only [run, hrun1 fuel (by omega), hrun2 fuel (by omega), hrun3 fuel]
  · rw [c1, c2]
  · refine ⟨ap3.trace, ?_, ?_⟩
    · rw [c2, c6, c4, ← hs1, ← hs2]; exact hsink3
    · rw [c5, c2, hsock]
  · rw [c8, c3, hlog3, hlog2]; exact hend

theorem initUdpClient_snd (ap : AudioProcessor) (fd : Int) :
    (ap.initUdpClient fd).2 = { ap with udpSocket_ := fd } := by
  simp only [initUdpClient]
  split_ifs <;> rfl

/-- When every setup step succeeds, the main loop starts from a state with the socket
descriptor `socket()` returned, the local container open, empty traces and an empty
aggregator. -/
theorem setup_ok (env : Env) (h : env.setupOk = true) :
    ∃ ap, setup env AudioProcessor.new = Sum.inr ap ∧ ap.udpSocket_ = env.socket_fd ∧
      ap.localFormatContext_ = true ∧ ap.trace = [] ∧ ap.log = [] ∧
      ap.frameEncoder_.dequeued = [] ∧ ap.frameEncoder_.bufferedSamples_ = 0 := by
  simp only [Env.setupOk, Bool.and_eq_true] at h
  obtain ⟨⟨⟨⟨⟨⟨⟨h1, h2⟩, h3⟩, h4⟩, h5⟩, h6⟩, h7⟩, h8⟩ := h
  refine ⟨{ AudioProcessor.new with
      udpSocket_ := env.socket_fd
      resamplerFormat := some (targetSampleFormat env.input_codec)
      localFormatContext_ := true
      frameEncoder_ := { FrameEncoder.new with
        codecContext_ := true, sample_fmt := some AVSampleFormat.S16P,
        formatContext_ := env.output_context_created } }, ?_, rfl, rfl, rfl, rfl, rfl, rfl⟩
  simp [setup, h1, h2, h3, h4, h5, h6, h7, h8, FrameEncoder.initializeEncoder,
    initializeLocalOutputFile, initUdpClient_snd, FrameEncoder.setOutputFile,
    AudioProcessor.new]

/-- What is left when `processAudio` returns from its setup: nothing was read, encoded,
written or sent. -/
theorem setupFailure_spec (a : AudioProcessor) (ht : a.trace = []) (hl : a.log = [])
    (hd : a.frameEncoder_.dequeued = []) :
    ∃ r : RunResult, (Sum.inl (setupFailure a) : RunResult ⊕ AudioProcessor) = Sum.inl r ∧
      r.code = -1 ∧ r.ap.trace = [] ∧ r.udpError = false ∧ r.frameCount = 0 ∧
      r.flushedPacket = none ∧ r.ap.frameEncoder_.dequeued = [] ∧ r.ap.log = [] := by
  refine ⟨_, rfl, rfl, ?_, rfl, rfl, rfl, ?_, ?_⟩ <;>
    simp only [setupFailure, closeUdpClient] <;> split_ifs <;> assumption

/-- When a setup step fails, `processAudio` returns -1 at once: nothing was read, encoded,
written or sent. -/
theorem setup_fails (env : Env) (h : env.setupOk = false) :
    ∃ r, setup env AudioProcessor.new = Sum.inl r ∧ r.code = -1 ∧ r.ap.trace = [] ∧
      r.udpError = false ∧ r.frameCount = 0 ∧ r.flushedPacket = none ∧
      r.ap.frameEncoder_.dequeued = [] ∧ r.ap.log = [] := by
  cases h1 : env.open_input_ok with
  | false =>
    simp only [setup, initUdpClient_snd, h1, Bool.not_false, if_true]
    exact setupFailure_spec _ rfl rfl rfl
  | true =>
  cases h2 : env.init_decoder_ok with
  | false =>
    simp only [setup, initUdpClient_snd, h1, h2, Bool.not_false, Bool.not_true, Bool.false_eq_true, if_true,
      if_false]
    exact setupFailure_spec _ rfl rfl rfl
  | true =>
  cases h3 : env.init_resampler_ok with
  | false =>
    simp only [setup, initUdpClient_snd, h1, h2, h3, Bool.not_false, Bool.not_true, Bool.false_eq_true, if_true,
      if_false]
    exact setupFailure_spec _ rfl rfl rfl
  | true =>
  cases h4 : env.encoder_found with
  | false =>
    simp only [setup, initUdpClient_snd, h1, h2, h3, h4, FrameEncoder.initializeEncoder, Bool.not_false,
      Bool.not_true, Bool.false_eq_true, if_true, if_false]
    exact setupFailure_spec _ rfl rfl rfl
  | true =>
  cases h5 : env.encoder_allocated with
  | false =>
    simp only [setup, initUdpClient_snd, h1, h2, h3, h4, h5, FrameEncoder.initializeEncoder, Bool.not_false,
      Bool.not_true, Bool.false_eq_true, if_true, if_false]
    exact setupFailure_spec _ rfl rfl rfl
  | true =>
  cases h6 : env.encoder_opened with
  | false =>
    simp only [setup, initUdpClient_snd, h1, h2, h3, h4, h5, h6, FrameEncoder.initializeEncoder, Bool.not_false,
      Bool.not_true, Bool.false_eq_true, if_true, if_false]
    exact setupFailure_spec _ rfl rfl rfl
  | true =>
  cases h7 : env.local_context_created with
  | false =>
    simp only [setup, initUdpClient_snd, h1, h2, h3, h4, h5, h6, h7, FrameEncoder.initializeEncoder,
      initializeLocalOutputFile, Bool.not_false, Bool.not_true, Bool.false_eq_true, if_true,
      if_false]
    exact setupFailure_spec _ rfl rfl rfl
  | true =>
  cases h8 : env.local_header_ok with
  | false =>
    simp only [setup, initUdpClient_snd, h1, h2, h3, h4, h5, h6, h7, h8, FrameEncoder.initializeEncoder,
      initializeLocalOutputFile, Bool.not_false, Bool.not_true, Bool.false_eq_true, if_true,
      if_false]
    exact setupFailure_spec _ rfl rfl rfl
  | true => simp [Env.setupOk, h1, h2, h3, h4, h5, h6, h7, h8] at h

/-- More fuel does not change what `processAudio` returns. -/
theorem processAudio_mono (env : Env) (n m : Nat) (hnm : n ≤ m) (r : RunResult)
    (h : processAudio env n = some r) : processAudio env m = some r := by
  simp only [processAudio] at h ⊢
  cases hs : setup env AudioProcessor.new with
  | inl v => rw [hs] at h; exact h
  | inr ap => rw [hs] at h; exact run_mono env n m hnm ap r h

/-- `processAudio` returns, given enough fuel; after a successful setup it leaves what
`RunPost` says, and after a failed one it has returned -1 with nothing read, written or
sent. -/
theorem processAudio_spec (env : Env) :
    ∃ (N : Nat) (r : RunResult), (∀ fuel, N ≤ fuel → processAudio env fuel = some r) ∧
      (env.setupOk = true → RunPost env env.socket_fd r) ∧
      (env.setupOk = false → r.code = -1 ∧ r.ap.trace = [] ∧ r.udpError = false ∧
        r.frameCount = 0 ∧ r.flushedPacket = none ∧ r.ap.frameEncoder_.dequeued = [] ∧
        r.ap.log = []) := by
  cases hok : env.setupOk with
  | true =>
    obtain ⟨ap, hs, h1, h2, h3, h4, h5, h6⟩ := setup_ok env hok
    have hinv : LoopInv env ap false := by
      refine ⟨h2, ?_, fun hfs => by rw [h6]; exact ⟨le_refl _, le_of_lt hfs⟩⟩
      rw [h3, h5]
      exact ⟨rfl, rfl, fun _ => ⟨by simp [udpSends], fun _ => rfl⟩, fun h => by simp at h,
        fun _ => rfl⟩
    obtain ⟨N, r, hrun, hpost⟩ := run_spec env ap hinv h4
    refine ⟨N, r, fun fuel hf => ?_, fun _ => h1 ▸ hpost, fun h => by simp at h⟩
    simp only [processAudio, hs]
    exact hrun fuel hf
  | false =>
    obtain ⟨r, hs, hr⟩ := setup_fails env hok
    exact ⟨0, r, fun fuel _ => by simp only [processAudio, hs], fun h => by simp at h,
      fun _ => hr⟩

/-- `processAudio` returns: some amount of fuel is enough. -/
theorem processAudio_terminates (env : Env) : ∃ fuel r, processAudio env fuel = some r := by
  obtain ⟨N, r, hrun, _⟩ := processAudio_spec env
  exact ⟨N, r, hrun N (le_refl _)⟩

/-- Whatever the fuel, what `processAudio` returns is as `processAudio_spec` says. -/
theorem processAudio_post (env : Env) (fuel : Nat) (r : RunResult)
    (h : processAudio env fuel = some r) :
    (env.setupOk = true → RunPost env env.socket_fd r) ∧
      (env.setupOk = false → r.code = -1 ∧ r.ap.trace = [] ∧ r.udpError = false ∧
        r.frameCount = 0 ∧ r.flushedPacket = none ∧ r.ap.frameEncoder_.dequeued = [] ∧
        r.ap.log = []) := by
  obtain ⟨N, r', hrun, hpost⟩ := processAudio_spec env
  have h1 := processAudio_mono env fuel (max fuel N) (le_max_left _ _) r h
  have h2 := hrun (max fuel N) (le_max_right _ _)
  rw [h1] at h2
  simp only [Option.some.injEq] at h2
  subst h2
  exact hpost

end AudioProcessor

/-! ## The outcome of the local writes does not reach the rest of the run -/

theorem localWrites_erase (t : List Event) :
    localWrites (t.map Event.eraseWriteRet) = localWrites t := by
  induction t with
  | nil => rfl
  | cons a t ih => cases a <;> simp [localWrites, Event.eraseWriteRet, ih]

theorem udpSends_erase (t : List Event) :
    udpSends (t.map Event.eraseWriteRet) = udpSends t := by
  induction t with
  | nil => rfl
  | cons a t ih => cases a <;> simp [udpSends, Event.eraseWriteRet, ih]

namespace AudioProcessor

theorem eraseWriteRets_eq_iff (a b : AudioProcessor) :
    a.eraseWriteRets = b.eraseWriteRets ↔
      a.frameEncoder_ = b.frameEncoder_ ∧ a.localFormatContext_ = b.localFormatContext_ ∧
      a.udpSocket_ = b.udpSocket_ ∧ a.resamplerFormat = b.resamplerFormat ∧
      a.trace.map Event.eraseWriteRet = b.trace.map Event.eraseWriteRet ∧ a.log = b.log := by
  cases a; cases b
  simp [eraseWriteRets]

/-- Closed form of `forwardPacket`. -/
theorem forwardPacket_eq_general (env : Env) (ap : AudioProcessor) (e : Bool) (pkt : AVPacket) :
    forwardPacket env ap e pkt =
      if 0 ≤ ap.udpSocket_ ∧ e = false then
        ({ ap with trace := ap.trace ++
              (if ap.localFormatContext_ then
                [Event.localWrite pkt (env.av_write_frame (localWrites ap.trace).length pkt)]
               else []) ++
              [Event.udpSend (some pkt.data)
                 (env.sendto (udpSends ap.trace).length pkt.data)] },
          decide (env.sendto (udpSends ap.trace).length pkt.data < 0))
      else
        ({ ap with trace := ap.trace ++
              (if ap.localFormatContext_ then
                [Event.localWrite pkt (env.av_write_frame (localWrites ap.trace).length pkt)]
               else []) },
          e) := by
  by_cases hl : ap.localFormatContext_ = true
  · rw [forwardPacket_eq env ap e pkt hl]
    simp [hl]
  · have hl' : ap.localFormatContext_ = false := by simpa using hl
    obtain ⟨fe, lfc, sock, rf, tr, lg⟩ := ap
    simp only at hl'
    subst hl'
    cases e with
    | true => simp [forwardPacket, writeLocalOutputPacket]
    | false =>
      by_cases hs : 0 ≤ sock
      · have hs' : ¬ sock < 0 := by omega
        by_cases hr : env.sendto (udpSends tr).length pkt.data < 0
        · simp [forwardPacket, writeLocalOutputPacket, sendUdpData, hs', datagram, hs, hr]
        · simp [forwardPacket, writeLocalOutputPacket, sendUdpData, hs', datagram, hs, hr]
      · simp [forwardPacket, writeLocalOutputPacket, hs]

/-- Forwarding a packet with another local-file sink gives the same state and the same
`udpError`, up to the values the local writes returned. -/
theorem forwardPacket_erase (env : Env) (w : Nat → AVPacket → Int) (ap ap' : AudioProcessor)
    (e : Bool) (pkt : AVPacket) (h : ap'.eraseWriteRets = ap.eraseWriteRets) :
    (forwardPacket (env.withWrites w) ap' e pkt).1.eraseWriteRets =
        (forwardPacket env ap e pkt).1.eraseWriteRets ∧
      (forwardPacket (env.withWrites w) ap' e pkt).2 = (forwardPacket env ap e pkt).2 := by
  obtain ⟨h1, h2, h3, h4, h5, h6⟩ := (eraseWriteRets_eq_iff _ _).mp h
  have hu : udpSends ap'.trace = udpSends ap.trace := by
    rw [← udpSends_erase ap'.trace, h5, udpSends_erase]
  rw [forwardPacket_eq_general, forwardPacket_eq_general]
  simp only [Env.withWrites, h2, h3, hu]
  split_ifs <;>
    simp [eraseWriteRets_eq_iff, h1, h2, h3, h4, h5, h6, Event.eraseWriteRet]

theorem eraseWriteRets_congr_encoder (a b : AudioProcessor) (fe : FrameEncoder)
    (h : a.eraseWriteRets = b.eraseWriteRets) :
    ({ a with frameEncoder_ := fe } : AudioProcessor).eraseWriteRets =
      ({ b with frameEncoder_ := fe } : AudioProcessor).eraseWriteRets := by
  obtain ⟨_, h2, h3, h4, h5, h6⟩ := (eraseWriteRets_eq_iff _ _).mp h
  exact (eraseWriteRets_eq_iff _ _).mpr ⟨rfl, h2, h3, h4, h5, h6⟩

theorem eraseWriteRets_congr_log (a b : AudioProcessor) (l : LogLine)
    (h : a.eraseWriteRets = b.eraseWriteRets) :
    ({ a with log := a.log ++ [l] } : AudioProcessor).eraseWriteRets =
      ({ b with log := b.log ++ [l] } : AudioProcessor).eraseWriteRets := by
  obtain ⟨h1, h2, h3, h4, h5, h6⟩ := (eraseWriteRets_eq_iff _ _).mp h
  exact (eraseWriteRets_eq_iff _ _).mpr ⟨h1, h2, h3, h4, h5, by simp [h6]⟩

/-- The drain loop with another local-file sink gives the same result, up to the values the
local writes returned. -/
theorem drainQueue_erase (env : Env) (w : Nat → AVPacket → Int) :
    ∀ (fuel : Nat) (ap ap' : AudioProcessor) (e : Bool),
      ap'.eraseWriteRets = ap.eraseWriteRets →
      (drainQueue (env.withWrites w) fuel ap' e).map (fun p => (p.1.eraseWriteRets, p.2)) =
        (drainQueue env fuel ap e).map (fun p => (p.1.eraseWriteRets, p.2)) := by
  intro fuel
  induction fuel with
  | zero => intro ap ap' e _; simp [drainQueue]
  | succ n ih =>
    intro ap ap' e h
    have hfe : ap'.frameEncoder_ = ap.frameEncoder_ := ((eraseWriteRets_eq_iff _ _).mp h).1
    rw [drainQueue, drainQueue, hfe]
    split_ifs with hq
    · cases hg : ap.frameEncoder_.getNextEncodedPacket with
      | none => simp
      | some v =>
        simp only
        obtain ⟨f1, f2⟩ := forwardPacket_erase env w { ap with frameEncoder_ := v.2 }
          { ap' with frameEncoder_ := v.2 } e v.1 (eraseWriteRets_congr_encoder _ _ _ h)
        rw [f2]
        exact ih _ _ _ f1
    · simp [h]

/-- The main loop with another local-file sink gives the same result, up to the values the
local writes returned. -/
theorem mainLoop_erase (env : Env) (w : Nat → AVPacket → Int) (fuel : Nat) :
    ∀ (input : List InputPacket) (ap ap' : AudioProcessor) (e : Bool) (n : Int),
      ap'.eraseWriteRets = ap.eraseWriteRets →
      (mainLoop (env.withWrites w) fuel input ap' e n).map
          (fun p => (p.1.eraseWriteRets, p.2)) =
        (mainLoop env fuel input ap e n).map (fun p => (p.1.eraseWriteRets, p.2)) := by
  intro input
  induction input with
  | nil => intro ap ap' e n h; simp [mainLoop, h]
  | cons p rest ih =>
    intro ap ap' e n h
    have hfe : ap'.frameEncoder_ = ap.frameEncoder_ := ((eraseWriteRets_eq_iff _ _).mp h).1
    cases p with
    | decodeFails =>
      rw [mainLoop, mainLoop]
      exact ih _ _ _ _ (eraseWriteRets_congr_log _ _ _ h)
    | resampleFails =>
      rw [mainLoop, mainLoop]
      exact ih _ _ _ _ (eraseWriteRets_congr_log _ _ _ h)
    | resampled frame =>
      rw [mainLoop, mainLoop, hfe]
      have hc : (env.withWrites w).codec = env.codec := rfl
      rw [hc]
      cases he : ap.frameEncoder_.encodeFrame env.codec fuel (some frame) none with
      | none => simp
      | some v =>
        simp only
        have h1 := eraseWriteRets_congr_encoder _ _ v.2.1 h
        split_ifs with hv
        · simp [eraseWriteRets_congr_log _ _ (LogLine.failedEncode (n + 1)) h1]
        · have hd := drainQueue_erase env w fuel _ _ e h1
          cases hd1 : drainQueue env fuel { ap with frameEncoder_ := v.2.1 } e with
          | none =>
            rw [hd1] at hd
            simp only [Option.map_none', Option.map_eq_none'] at hd
            simp [hd]
          | some q =>
            rw [hd1] at hd
            simp only [Option.map_some', Option.map_eq_some'] at hd
            obtain ⟨q', hq', hqe⟩ := hd
            simp only [Prod.mk.injEq] at hqe
            rw [hq']
            simp only
            rw [hqe.2]
            exact ih _ _ _ _ hqe.1

theorem flushResamplerStep_erase (env : Env) (w : Nat → AVPacket → Int) (fuel : Nat)
    (ap ap' : AudioProcessor) (e : Bool) (h : ap'.eraseWriteRets = ap.eraseWriteRets) :
    (flushResamplerStep (env.withWrites w) fuel ap' e).map (fun p => (p.1.eraseWriteRets, p.2)) =
      (flushResamplerStep env fuel ap e).map (fun p => (p.1.eraseWriteRets, p.2)) := by
  have hfe : ap'.frameEncoder_ = ap.frameEncoder_ := ((eraseWriteRets_eq_iff _ _).mp h).1
  have hc : (env.withWrites w).codec = env.codec := rfl
  have hf : (env.withWrites w).flushed = env.flushed := rfl
  simp only [flushResamplerStep, hc, hf, hfe]
  cases env.flushed with
  | none => simp [h]
  | some f =>
    simp only
    cases ap.frameEncoder_.encodeFrame env.codec fuel (some f) none with
    | none => simp
    | some v => exact drainQueue_erase env w fuel _ _ e (eraseWriteRets_congr_encoder _ _ _ h)

theorem flushEncoderStep_erase (env : Env) (w : Nat → AVPacket → Int) (fuel : Nat)
    (ap ap' : AudioProcessor) (e : Bool) (h : ap'.eraseWriteRets = ap.eraseWriteRets) :
    (flushEncoderStep (env.withWrites w) fuel ap' e).map (fun p => (p.1.eraseWriteRets, p.2)) =
      (flushEncoderStep env fuel ap e).map (fun p => (p.1.eraseWriteRets, p.2)) := by
  have hfe : ap'.frameEncoder_ = ap.frameEncoder_ := ((eraseWriteRets_eq_iff _ _).mp h).1
  have hc : (env.withWrites w).codec = env.codec := rfl
  simp only [flushEncoderStep, hc, hfe]
  cases ap.frameEncoder_.flushEncoder env.codec fuel (some none) with
  | none => simp
  | some r =>
    simp only
    have h1 := eraseWriteRets_congr_encoder _ _ r.1 h
    rcases r.2 with _ | _ | fp
    · simp [h1]
    · simp [h1]
    · obtain ⟨f1, f2⟩ := forwardPacket_erase env w _ _ e fp h1
      simp [f1, f2]

theorem finish_erase (env : Env) (w : Nat → AVPacket → Int) (ap ap' : AudioProcessor)
    (e : Bool) (n : Int) (fp : Option AVPacket) (h : ap'.eraseWriteRets = ap.eraseWriteRets) :
    (finish (env.withWrites w) ap' e n fp).eraseWriteRets =
      (finish env ap e n fp).eraseWriteRets := by
  obtain ⟨h1, h2, h3, h4, h5, h6⟩ := (eraseWriteRets_eq_iff _ _).mp h
  have hu : udpSends ap'.trace = udpSends ap.trace := by
    rw [← udpSends_erase ap'.trace, h5, udpSends_erase]
  obtain ⟨fe, lfc, sock, rf, tr, lg⟩ := ap
  obtain ⟨fe', lfc', sock', rf', tr', lg'⟩ := ap'
  simp only at h1 h2 h3 h4 h5 h6 hu
  subst h1 h2 h3 h4 h6
  have hs' : ∀ x : Int, ¬ x < 0 ↔ 0 ≤ x := fun x => not_lt
  cases e <;> by_cases hs : 0 ≤ sock' <;>
    simp [finish, sendUdpData, hs, hs', closeLocalOutputFile, closeUdpClient,
      FrameEncoder.closeEncoder, FrameEncoder.clearPacketQueue, datagram, Env.withWrites,
      RunResult.eraseWriteRets, eraseWriteRets, hu, h5]
  all_goals (split_ifs <;> first | omega | simp [h5, Event.eraseWriteRet])

/-- The run after the setup with another local-file sink gives the same result, up to the
values the local writes returned. -/
theorem run_erase (env : Env) (w : Nat → AVPacket → Int) (fuel : Nat)
    (ap ap' : AudioProcessor) (h : ap'.eraseWriteRets = ap.eraseWriteRets) :
    (run (env.withWrites w) fuel ap').map RunResult.eraseWriteRets =
      (run env fuel ap).map RunResult.eraseWriteRets := by
  have hi : (env.withWrites w).input = env.input := rfl
  simp only [run, hi]
  have hm := mainLoop_erase env w fuel env.input ap ap' false 0 h
  cases hm1 : mainLoop env fuel env.input ap false 0 with
  | none =>
    rw [hm1] at hm
    simp only [Option.map_none', Option.map_eq_none'] at hm
    simp [hm]
  | some m =>
    rw [hm1] at hm
    simp only [Option.map_some', Option.map_eq_some'] at hm
    obtain ⟨m', hm', hme⟩ := hm
    simp only [Prod.mk.injEq] at hme
    rw [hm']
    simp only
    have hf := flushResamplerStep_erase env w fuel m.1 m'.1 m.2.1 hme.1
    have hme2 : m'.2 = m.2 := hme.2
    rw [hme2]
    cases hf1 : flushResamplerStep env fuel m.1 m.2.1 with
    | none =>
      rw [hf1] at hf
      simp only [Option.map_none', Option.map_eq_none'] at hf
      simp [hf]
    | some f =>
      rw [hf1] at hf
      simp only [Option.map_some', Option.map_eq_some'] at hf
      obtain ⟨f', hf', hfe⟩ := hf
      simp only [Prod.mk.injEq] at hfe
      rw [hf']
      simp only
      have he := flushEncoderStep_erase env w fuel f.1 f'.1 f.2 hfe.1
      rw [hfe.2]
      cases he1 : flushEncoderStep env fuel f.1 f.2 with
      | none =>
        rw [he1] at he
        simp only [Option.map_none', Option.map_eq_none'] at he
        simp [he]
      | some x =>
        rw [he1] at he
        simp only [Option.map_some', Option.map_eq_some'] at he
        obtain ⟨x', hx', hxe⟩ := he
        simp only [Prod.mk.injEq] at hxe
        rw [hx']
        simp only [Option.map_some', Option.some.injEq]
        rw [hxe.2]
        exact finish_erase env w _ _ _ _ _ hxe.1

/-- `processAudio` with another local-file sink returns the same result, up to the values
the local writes returned: the same code, the same locals, the same encoder state, the same
sequence of sink calls, the same values returned by the sends. -/
theorem processAudio_erase (env : Env) (w : Nat → AVPacket → Int) (fuel : Nat) :
    (processAudio (env.withWrites w) fuel).map RunResult.eraseWriteRets =
      (processAudio env fuel).map RunResult.eraseWriteRets := by
  have hs : setup (env.withWrites w) AudioProcessor.new = setup env AudioProcessor.new := rfl
  simp only [processAudio, hs]
  cases setup env AudioProcessor.new with
  | inl r => rfl
  | inr ap => exact run_erase env w fuel ap ap rfl

end AudioProcessor

/-! ## The sink fan-out over a whole run -/

/-- In a list made of entries without a mark followed by at most one further entry, an entry
with the mark is the last entry. -/
theorem marked_is_last {α : Type} (p : α → Prop) (A M S₁ S₂ : List α) (x : α)
    (hA : ∀ a ∈ A, ¬ p a) (hM : M.length ≤ 1) (h : A ++ M = S₁ ++ x :: S₂) (hx : p x) :
    S₂ = [] ∧ M = [x] := by
  rcases List.append_eq_append_iff.mp h with ⟨a', _, h2⟩ | ⟨c', h1, h2⟩
  · rw [h2] at hM
    simp only [List.length_append, List.length_cons] at hM
    have ha : a' = [] := List.eq_nil_of_length_eq_zero (by omega)
    have hs : S₂ = [] := List.eq_nil_of_length_eq_zero (by omega)
    subst ha hs
    exact ⟨rfl, h2⟩
  · cases c' with
    | nil =>
      simp only [List.nil_append] at h2
      rw [← h2] at hM
      simp only [List.length_cons] at hM
      have hs : S₂ = [] := List.eq_nil_of_length_eq_zero (by omega)
      subst hs
      exact ⟨rfl, h2.symm⟩
    | cons y c'' =>
      simp only [List.cons_append, List.cons.injEq] at h2
      obtain ⟨rfl, _⟩ := h2
      exact absurd hx (hA x (by rw [h1]; simp))

/-- The sends of a run that got past the setup: sends of units, none of which failed, then at
most one more call, which is either the failed send of a unit, with `udpError` set, or the
end marker, without. -/
theorem runPost_sends (env : Env) (socket : Int) (r : RunResult) (h : RunPost env socket r) :
    ∃ A M, udpSends r.ap.trace = A ++ M ∧ (∀ a ∈ A, 0 ≤ a.2 ∧ a.1 ≠ none) ∧ M.length ≤ 1 ∧
      (∀ m ∈ M, (m.1 ≠ none → m.2 < 0 ∧ r.udpError = true) ∧ (m.1 = none → r.udpError = false)) ∧
      (r.udpError = true → M ≠ []) := by
  obtain ⟨_, ⟨t, ⟨_, h2, h3, h4, _⟩, ht⟩, _⟩ := h
  have hsome : ∀ a ∈ udpSends t, a.1 ≠ none := by
    intro a ha
    have : a.1 ∈ (udpSends t).map Prod.fst := List.mem_map_of_mem _ ha
    rw [h2] at this
    obtain ⟨p, _, hp⟩ := List.mem_map.mp this
    rw [← hp]; simp
  cases he : r.udpError with
  | true =>
    obtain ⟨S, s, hS, hs, hall⟩ := h4 he
    refine ⟨S, [s], ?_, ?_, by simp, ?_, by simp⟩
    · rw [ht, udpSends_append, hS, he]; simp [udpSends]
    · intro a ha
      exact ⟨hall a ha, hsome a (by rw [hS]; simp [ha])⟩
    · intro m hm
      simp only [List.mem_singleton] at hm
      subst hm
      exact ⟨fun _ => ⟨hs, rfl⟩, fun hn => absurd hn (hsome m (by rw [hS]; simp))⟩
  | false =>
    refine ⟨udpSends t, udpSends (if 0 ≤ socket ∧ false = false then
        [Event.udpSend none (env.sendto (udpSends t).length [])] else []), ?_, ?_, ?_, ?_,
      by simp⟩
    · rw [ht, udpSends_append, he]
    · intro a ha
      exact ⟨(h3 he).1 a ha, hsome a ha⟩
    · split_ifs <;> simp [udpSends]
    · intro m hm
      split_ifs at hm
      · simp only [udpSends, List.mem_singleton] at hm
        subst hm
        simp
      · simp [udpSends] at hm

/-- What `processAudio` writes to the local file: the units dequeued, in dequeue order, then
the packet left in `flushedPacket`, if any. -/
theorem processAudio_localWrites (env : Env) (fuel : Nat) (r : RunResult)
    (h : AudioProcessor.processAudio env fuel = some r) :
    localWrites r.ap.trace = r.ap.frameEncoder_.dequeued ++ r.flushedPacket.toList := by
  obtain ⟨hok, hfail⟩ := AudioProcessor.processAudio_post env fuel r h
  cases hs : env.setupOk with
  | true =>
    obtain ⟨_, ⟨t, ⟨h1, _⟩, ht⟩, _⟩ := hok hs
    rw [ht, localWrites_append, h1]
    split_ifs <;> simp [localWrites]
  | false =>
    obtain ⟨_, h2, _, _, h5, h6, _⟩ := hfail hs
    rw [h2, h5, h6]; rfl

/-- C5: in `processAudio`, for every environment (every sequence of units and every pattern
of sink failures), the run returns, and the packets handed to the local-file write are
exactly the dequeued units, once each and in dequeue order, followed by the flushed packet
if any; and with any other outcomes of the local writes the run makes the same sends with
the same results, writes the same packets and dequeues the same units. -/
theorem C5_local_write_once_sends_independent (env : Env) :
    (∃ fuel r, AudioProcessor.processAudio env fuel = some r) ∧
    ∀ fuel r, AudioProcessor.processAudio env fuel = some r →
      localWrites r.ap.trace = r.ap.frameEncoder_.dequeued ++ r.flushedPacket.toList ∧
      ∀ w : Nat → AVPacket → Int,
        ∃ r', AudioProcessor.processAudio (env.withWrites w) fuel = some r' ∧
          udpSends r'.ap.trace = udpSends r.ap.trace ∧
          localWrites r'.ap.trace = localWrites r.ap.trace ∧
          r'.ap.frameEncoder_.dequeued = r.ap.frameEncoder_.dequeued := by
  refine ⟨AudioProcessor.processAudio_terminates env, fun fuel r h => ?_⟩
  refine ⟨processAudio_localWrites env fuel r h, fun w => ?_⟩
  have he := AudioProcessor.processAudio_erase env w fuel
  rw [h] at he
  simp only [Option.map_some', Option.map_eq_some'] at he
  obtain ⟨r', hr', hre⟩ := he
  have hap : r'.ap.eraseWriteRets = r.ap.eraseWriteRets := congrArg RunResult.ap hre
  obtain ⟨h1, _, _, _, h5, _⟩ := (AudioProcessor.eraseWriteRets_eq_iff _ _).mp hap
  refine ⟨r', hr', ?_, ?_, by rw [h1]⟩
  · rw [← udpSends_erase r'.ap.trace, h5, udpSends_erase]
  · rw [← localWrites_erase r'.ap.trace, h5, localWrites_erase]

/-- C5, witness: in scenario B (ten units, the fifth send failing) the run returns with
fuel 5, ten packets are written locally, and the conclusion of C5 holds of it. -/
theorem C5_witness :
    ∃ r, AudioProcessor.processAudio scenarioB 5 = some r ∧
      (localWrites r.ap.trace).length = 10 ∧
      (localWrites r.ap.trace = r.ap.frameEncoder_.dequeued ++ r.flushedPacket.toList ∧
        ∀ w : Nat → AVPacket → Int,
          ∃ r', AudioProcessor.processAudio (scenarioB.withWrites w) 5 = some r' ∧
            udpSends r'.ap.trace = udpSends r.ap.trace ∧
            localWrites r'.ap.trace = localWrites r.ap.trace ∧
            r'.ap.frameEncoder_.dequeued = r.ap.frameEncoder_.dequeued) := by
  have hlen : (AudioProcessor.processAudio scenarioB 5).map
      (fun r => (localWrites r.ap.trace).length) = some 10 := by decide
  cases h : AudioProcessor.processAudio scenarioB 5 with
  | none => rw [h] at hlen; exact absurd hlen (by simp)
  | some r =>
    rw [h] at hlen
    exact ⟨r, rfl, by simpa using hlen, (C5_local_write_once_sends_independent scenarioB).2 5 r h⟩

/-- C6, counterexample: with no input and a failing `sendto`, the one call of `sendUdpData`
of the run, that of the end marker, reports failure, and `udpError` is not set: it is false
when the run ends, and the run returns 0. -/
theorem C6_end_marker_failure_sets_no_latch :
    (AudioProcessor.processAudio onlyEndMarkerFails 5).map (fun r => udpSends r.ap.trace) =
        some [(none, -1)] ∧
      (AudioProcessor.processAudio onlyEndMarkerFails 5).map (fun r => r.udpError) =
        some false := by
  decide

/-- C6, amended: for every environment the run returns, and in it a `sendUdpData` call that
reported failure is the last `sendUdpData` call of the run (none follows, neither for a later
unit, nor for a flushed unit, nor for the end marker); when that call was for an encoded
unit, `udpError` is true when the run ends; `udpError` is true only after such a failure;
and every unit dequeued, before or after the failure, and the flushed packet are written to
the local file. -/
theorem C6_latch_is_one_way (env : Env) :
    (∃ fuel r, AudioProcessor.processAudio env fuel = some r) ∧
    ∀ fuel r, AudioProcessor.processAudio env fuel = some r →
      (∀ S₁ d ret S₂, udpSends r.ap.trace = S₁ ++ (d, ret) :: S₂ → ret < 0 →
          S₂ = [] ∧ (d ≠ none → r.udpError = true)) ∧
      (r.udpError = true →
        ∃ S₁ data ret, udpSends r.ap.trace = S₁ ++ [(some data, ret)] ∧ ret < 0) ∧
      localWrites r.ap.trace = r.ap.frameEncoder_.dequeued ++ r.flushedPacket.toList := by
  refine ⟨AudioProcessor.processAudio_terminates env, fun fuel r h => ?_⟩
  refine ⟨?_, ?_, processAudio_localWrites env fuel r h⟩
  · obtain ⟨hok, hfail⟩ := AudioProcessor.processAudio_post env fuel r h
    cases hs : env.setupOk with
    | true =>
      obtain ⟨A, M, hAM, hA, hM, hM', _⟩ := runPost_sends env _ r (hok hs)
      intro S₁ d ret S₂ hdec hret
      rw [hAM] at hdec
      obtain ⟨h1, h2⟩ := marked_is_last (fun s : Option (List Nat) × Int => s.2 < 0) A M S₁ S₂
        (d, ret) (fun a ha => not_lt.mpr (hA a ha).1) hM hdec hret
      refine ⟨h1, fun hd => ?_⟩
      exact ((hM' (d, ret) (by rw [h2]; simp)).1 hd).2
    | false =>
      obtain ⟨_, h2, _⟩ := hfail hs
      intro S₁ d ret S₂ hdec
      rw [h2] at hdec
      simp [udpSends] at hdec
  · obtain ⟨hok, hfail⟩ := AudioProcessor.processAudio_post env fuel r h
    intro he
    cases hs : env.setupOk with
    | true =>
      obtain ⟨A, M, hAM, _, hM, hM', hne⟩ := runPost_sends env _ r (hok hs)
      obtain ⟨m, rfl⟩ : ∃ m, M = [m] := by
        cases M with
        | nil => exact absurd rfl (hne he)
        | cons m M' =>
          cases M' with
          | nil => exact ⟨m, rfl⟩
          | cons _ _ => simp at hM
      obtain ⟨h1, h2⟩ := hM' m (by simp)
      obtain ⟨d, ret⟩ := m
      cases d with
      | none =>
        have := h2 rfl
        rw [he] at this
        exact absurd this (by simp)
      | some data => exact ⟨A, data, ret, hAM, (h1 (by simp)).1⟩
    | false =>
      obtain ⟨_, _, h3, _⟩ := hfail hs
      rw [he] at h3
      exact absurd h3 (by simp)

/-- C6, witness (scenario B): ten units, the send of unit 5 fails; the run returns -1 with
`udpError` set, all ten units are written locally, five sends were attempted (units 1 to 5),
none for the units 6 to 10 and none for the end marker; and the conclusion of C6 holds of
this run. -/
theorem C6_witness :
    ∃ r, AudioProcessor.processAudio scenarioB 5 = some r ∧
      (localWrites r.ap.trace).length = 10 ∧
      udpSends r.ap.trace =
        [(some [2], 1), (some [2], 1), (some [2], 1), (some [2], 1), (some [2], -1)] ∧
      r.udpError = true ∧
      ((∀ S₁ d ret S₂, udpSends r.ap.trace = S₁ ++ (d, ret) :: S₂ → ret < 0 →
          S₂ = [] ∧ (d ≠ none → r.udpError = true)) ∧
        (r.udpError = true →
          ∃ S₁ data ret, udpSends r.ap.trace = S₁ ++ [(some data, ret)] ∧ ret < 0) ∧
        localWrites r.ap.trace = r.ap.frameEncoder_.dequeued ++ r.flushedPacket.toList) := by
  have hc : (AudioProcessor.processAudio scenarioB 5).map
        (fun r => (localWrites r.ap.trace).length) = some 10 ∧
      (AudioProcessor.processAudio scenarioB 5).map (fun r => udpSends r.ap.trace) =
        some [(some [2], 1), (some [2], 1), (some [2], 1), (some [2], 1), (some [2], -1)] ∧
      (AudioProcessor.processAudio scenarioB 5).map (fun r => r.udpError) = some true := by
    decide
  cases h : AudioProcessor.processAudio scenarioB 5 with
  | none => rw [h] at hc; exact absurd hc.1 (by simp)
  | some r =>
    rw [h] at hc
    simp only [Option.map_some', Option.some.injEq] at hc
    exact ⟨r, rfl, hc.1, hc.2.1, hc.2.2, (C6_latch_is_one_way scenarioB).2 5 r h⟩

theorem filterMap_fst_of_map {β : Type} (l : List (Option (List Nat) × β))
    (m : List AVPacket) (h : l.map Prod.fst = m.map (fun p => some p.data)) :
    l.filterMap Prod.fst = m.map AVPacket.data := by
  induction l generalizing m with
  | nil =>
    cases m with
    | nil => rfl
    | cons _ _ => simp at h
  | cons a l ih =>
    cases m with
    | nil => simp at h
    | cons p m =>
      simp only [List.map_cons, List.cons.injEq] at h
      simp [List.filterMap_cons, h.1, ih m h.2]

/-- C7: for every environment the run returns, and in it the payloads of the units passed to
`sendUdpData` are, in order and unchanged, the payloads of the first units written to the
local file (one datagram for each unit sent); the end marker, the call with the null pointer,
is the last call if it is made; and when the setup succeeds, the socket is open and no send
fails, the calls are those for all the units written locally, in order, followed by exactly
one call for the end marker, whose datagram is empty. -/
theorem C7_sends_follow_local_order (env : Env) :
    (∃ fuel r, AudioProcessor.processAudio env fuel = some r) ∧
    ∀ fuel r, AudioProcessor.processAudio env fuel = some r →
      (udpSends r.ap.trace).filterMap Prod.fst <+: (localWrites r.ap.trace).map AVPacket.data ∧
      (∀ S₁ s S₂, udpSends r.ap.trace = S₁ ++ s :: S₂ → s.1 = none → S₂ = []) ∧
      (env.setupOk = true → 0 ≤ env.socket_fd → (∀ s ∈ udpSends r.ap.trace, 0 ≤ s.2) →
        (udpSends r.ap.trace).map Prod.fst =
            (localWrites r.ap.trace).map (fun p => some p.data) ++ [none] ∧
          (udpSends r.ap.trace).map (fun s => datagram s.1) =
            (localWrites r.ap.trace).map AVPacket.data ++ [[]]) := by
  refine ⟨AudioProcessor.processAudio_terminates env, fun fuel r h => ?_⟩
  obtain ⟨hok, hfail⟩ := AudioProcessor.processAudio_post env fuel r h
  cases hs : env.setupOk with
  | false =>
    obtain ⟨_, h2, _⟩ := hfail hs
    rw [h2]
    refine ⟨by simp [udpSends, localWrites], ?_, fun h => absurd h (by simp)⟩
    intro S₁ s S₂ hdec
    simp [udpSends] at hdec
  | true =>
    have hpost := hok hs
    obtain ⟨A, M, hAM, hA, hM, _, _⟩ := runPost_sends env _ r hpost
    obtain ⟨_, ⟨t, ⟨h1, h2, h3, h4, _⟩, ht⟩, _⟩ := hpost
    have hloc : localWrites r.ap.trace = localWrites t := by
      rw [ht, localWrites_append]
      split_ifs <;> simp [localWrites]
    have hunits : (udpSends r.ap.trace).filterMap Prod.fst = (udpSends t).filterMap Prod.fst := by
      rw [ht, udpSends_append, List.filterMap_append]
      split_ifs <;> simp [udpSends]
    refine ⟨?_, ?_, ?_⟩
    · rw [hunits, hloc, h1, filterMap_fst_of_map _ _ h2]
      refine ⟨((r.ap.frameEncoder_.dequeued ++ r.flushedPacket.toList).drop
        (udpSends t).length).map AVPacket.data, ?_⟩
      rw [← List.map_append, List.take_append_drop]
    · intro S₁ s S₂ hdec hnone
      rw [hAM] at hdec
      exact (marked_is_last (fun s : Option (List Nat) × Int => s.1 = none) A M S₁ S₂ s
        (fun a ha => (hA a ha).2) hM hdec hnone).1
    · intro _ hsock hall
      have he : r.udpError = false := by
        cases he : r.udpError with
        | false => rfl
        | true =>
          obtain ⟨S, s, hS, hneg, _⟩ := h4 he
          have hmem : s ∈ udpSends r.ap.trace := by
            rw [ht, udpSends_append, hS]; simp
          have := hall s hmem
          omega
      have hlen := (h3 he).2 hsock
      have htr : udpSends r.ap.trace =
          udpSends t ++ [(none, env.sendto (udpSends t).length [])] := by
        rw [ht, udpSends_append, he]
        simp [hsock, udpSends]
      have hfst : (udpSends r.ap.trace).map Prod.fst =
          (localWrites r.ap.trace).map (fun p => some p.data) ++ [none] := by
        rw [htr, hloc, h1, List.map_append, h2, hlen, List.take_of_length_le (le_refl _)]
        rfl
      refine ⟨hfst, ?_⟩
      have := congrArg (List.map datagram) hfst
      simpa [List.map_map, Function.comp_def, datagram] using this

/-- C7, witness: one unit, every send succeeding: the unit is written locally, sent as one
datagram with the same payload, and the end marker follows; and the conclusion of C7 holds
of this run. -/
theorem C7_witness :
    ∃ r, AudioProcessor.processAudio (demoEnv (demoCodec 2) [⟨[1, 2], 0, 48000⟩]
        (fun _ => false)) 5 = some r ∧
      localWrites r.ap.trace = [⟨[2], 1⟩] ∧
      udpSends r.ap.trace = [(some [2], 1), (none, 0)] ∧
      ((udpSends r.ap.trace).filterMap Prod.fst <+: (localWrites r.ap.trace).map AVPacket.data ∧
        (∀ S₁ s S₂, udpSends r.ap.trace = S₁ ++ s :: S₂ → s.1 = none → S₂ = []) ∧
        ((demoEnv (demoCodec 2) [⟨[1, 2], 0, 48000⟩] (fun _ => false)).setupOk = true →
          0 ≤ (demoEnv (demoCodec 2) [⟨[1, 2], 0, 48000⟩] (fun _ => false)).socket_fd →
          (∀ s ∈ udpSends r.ap.trace, 0 ≤ s.2) →
          (udpSends r.ap.trace).map Prod.fst =
              (localWrites r.ap.trace).map (fun p => some p.data) ++ [none] ∧
            (udpSends r.ap.trace).map (fun s => datagram s.1) =
              (localWrites r.ap.trace).map AVPacket.data ++ [[]])) := by
  have hc : (AudioProcessor.processAudio (demoEnv (demoCodec 2) [⟨[1, 2], 0, 48000⟩]
        (fun _ => false)) 5).map (fun r => localWrites r.ap.trace) = some [⟨[2], 1⟩] ∧
      (AudioProcessor.processAudio (demoEnv (demoCodec 2) [⟨[1, 2], 0, 48000⟩]
        (fun _ => false)) 5).map (fun r => udpSends r.ap.trace) =
          some [(some [2], 1), (none, 0)] := by
    decide
  cases h : AudioProcessor.processAudio (demoEnv (demoCodec 2) [⟨[1, 2], 0, 48000⟩]
      (fun _ => false)) 5 with
  | none => rw [h] at hc; exact absurd hc.1 (by simp)
  | some r =>
    rw [h] at hc
    simp only [Option.map_some', Option.some.injEq] at hc
    exact ⟨r, rfl, hc.1, hc.2, (C7_sends_follow_local_order _).2 5 r h⟩

/-- C8, evaluated: on a codec whose flush emits two units, of payloads [7] and [8], the run
writes to the local file and sends only the second one (then the end marker); both units are
pushed on the queue during the flush, none is dequeued, and both are still in the queue when
`closeEncoder` clears it. -/
theorem C8_flush_forwards_last_unit_only :
    (AudioProcessor.processAudio flushTwoUnits 5).map (fun r => r.ap.frameEncoder_.pushed) =
        some [⟨[7], 100⟩, ⟨[8], 101⟩] ∧
      (AudioProcessor.processAudio flushTwoUnits 5).map (fun r => localWrites r.ap.trace) =
        some [⟨[8], 101⟩] ∧
      (AudioProcessor.processAudio flushTwoUnits 5).map (fun r => udpSends r.ap.trace) =
        some [(some [8], 1), (none, 0)] ∧
      (AudioProcessor.processAudio flushTwoUnits 5).map (fun r => r.ap.frameEncoder_.dequeued) =
        some [] ∧
      (AudioProcessor.processAudio flushTwoUnits 5).map (fun r => r.ap.frameEncoder_.discarded) =
        some [⟨[7], 100⟩, ⟨[8], 101⟩] := by
  decide

/-- C9, counterexample: one unit is sent, then the send of the end marker fails; a network
send failed during the run, and `processAudio` returns 0. -/
theorem C9_end_marker_failure_returns_zero :
    (AudioProcessor.processAudio endMarkerFails 5).map (fun r => udpSends r.ap.trace) =
        some [(some [2], 1), (none, -1)] ∧
      (AudioProcessor.processAudio endMarkerFails 5).map (fun r => r.code) = some 0 ∧
      endMarkerFails.setupOk = true := by
  decide

theorem Env.setupOk_eq_false_iff (env : Env) :
    env.setupOk = false ↔
      (env.open_input_ok = false ∨ env.init_decoder_ok = false ∨
        env.init_resampler_ok = false ∨
        (env.encoder_found = false ∨ env.encoder_allocated = false ∨
          env.encoder_opened = false) ∨
        (env.local_context_created = false ∨ env.local_header_ok = false)) := by
  simp only [Env.setupOk, Bool.and_eq_false_iff]
  tauto

/-- C9, amended: for every environment `processAudio` returns, and the code is 0 or -1; it is
not 0 if and only if the input cannot be opened, or the decoder, the resampler, the encoder
or the local output fails to initialise, or the send of an encoded unit failed during the
run (a failed send of the end marker does not count); and with any other outcomes of the
local-file writes the run returns the same code. -/
theorem C9_return_code (env : Env) :
    (∃ fuel r, AudioProcessor.processAudio env fuel = some r) ∧
    ∀ fuel r, AudioProcessor.processAudio env fuel = some r →
      (r.code = 0 ∨ r.code = -1) ∧
      (r.code ≠ 0 ↔
        (env.open_input_ok = false ∨ env.init_decoder_ok = false ∨
          env.init_resampler_ok = false ∨
          (env.encoder_found = false ∨ env.encoder_allocated = false ∨
            env.encoder_opened = false) ∨
          (env.local_context_created = false ∨ env.local_header_ok = false)) ∨
        ∃ data ret, (some data, ret) ∈ udpSends r.ap.trace ∧ ret < 0) ∧
      (∀ w : Nat → AVPacket → Int,
        ∃ r', AudioProcessor.processAudio (env.withWrites w) fuel = some r' ∧
          r'.code = r.code) := by
  refine ⟨AudioProcessor.processAudio_terminates env, fun fuel r h => ?_⟩
  have hw : ∀ w : Nat → AVPacket → Int,
      ∃ r', AudioProcessor.processAudio (env.withWrites w) fuel = some r' ∧
        r'.code = r.code := by
    intro w
    have he := AudioProcessor.processAudio_erase env w fuel
    rw [h] at he
    simp only [Option.map_some', Option.map_eq_some'] at he
    obtain ⟨r', hr', hre⟩ := he
    have hcode := congrArg RunResult.code hre
    exact ⟨r', hr', hcode⟩
  obtain ⟨hok, hfail⟩ := AudioProcessor.processAudio_post env fuel r h
  rw [← Env.setupOk_eq_false_iff]
  cases hs : env.setupOk with
  | false =>
    obtain ⟨h1, _⟩ := hfail hs
    refine ⟨Or.inr h1, ?_, hw⟩
    rw [h1]
    simp
  | true =>
    have hpost := hok hs
    obtain ⟨A, M, hAM, hA, _, hM', hne⟩ := runPost_sends env _ r hpost
    obtain ⟨hcode, _, _⟩ := hpost
    cases he : r.udpError with
    | true =>
      have hcode' : r.code = -1 := by simpa [he] using hcode
      refine ⟨Or.inr hcode', ?_, hw⟩
      rw [hcode']
      simp only [ne_eq, Bool.true_eq_false, false_or]
      refine iff_of_true (by decide) ?_
      cases M with
      | nil => exact absurd rfl (hne he)
      | cons m M' =>
        obtain ⟨h1, h2⟩ := hM' m (by simp)
        obtain ⟨d, ret⟩ := m
        cases d with
        | none =>
          have := h2 rfl
          rw [he] at this
          exact absurd this (by simp)
        | some data =>
          exact ⟨data, ret, by rw [hAM]; simp, (h1 (by simp)).1⟩
    | false =>
      have hcode' : r.code = 0 := by simpa [he] using hcode
      refine ⟨Or.inl hcode', ?_, hw⟩
      rw [hcode']
      simp only [ne_eq, not_true_eq_false, Bool.true_eq_false, false_or, false_iff, not_exists,
        not_and, not_lt]
      intro data ret hmem
      rw [hAM, List.mem_append] at hmem
      rcases hmem with hmem | hmem
      · exact (hA _ hmem).1
      · have := ((hM' _ hmem).1 (by simp)).2
        rw [he] at this
        exact absurd this (by simp)

/-- C9, witness: in scenario B the send of a unit fails and the run returns -1; and the
conclusion of C9 holds of this run. -/
theorem C9_witness :
    ∃ r, AudioProcessor.processAudio scenarioB 5 = some r ∧ r.code = -1 ∧
      ((r.code = 0 ∨ r.code = -1) ∧
        (r.code ≠ 0 ↔
          (scenarioB.open_input_ok = false ∨ scenarioB.init_decoder_ok = false ∨
            scenarioB.init_resampler_ok = false ∨
            (scenarioB.encoder_found = false ∨ scenarioB.encoder_allocated = false ∨
              scenarioB.encoder_opened = false) ∨
            (scenarioB.local_context_created = false ∨ scenarioB.local_header_ok = false)) ∨
          ∃ data ret, (some data, ret) ∈ udpSends r.ap.trace ∧ ret < 0) ∧
        (∀ w : Nat → AVPacket → Int,
          ∃ r', AudioProcessor.processAudio (scenarioB.withWrites w) 5 = some r' ∧
            r'.code = r.code)) := by
  have hc : (AudioProcessor.processAudio scenarioB 5).map (fun r => r.code) = some (-1) := by
    decide
  cases h : AudioProcessor.processAudio scenarioB 5 with
  | none => rw [h] at hc; exact absurd hc (by simp)
  | some r =>
    rw [h] at hc
    simp only [Option.map_some', Option.some.injEq] at hc
    exact ⟨r, rfl, hc, (C9_return_code scenarioB).2 5 r h⟩

/-- C10, counterexample: of three input packets the first is a frame that fails to encode;
the main loop ends there: one packet was read (`frameCount = 1`), the one report printed is
that encode failure, and the two later packets are never read. -/
theorem C10_encode_failure_ends_the_loop :
    encodeFailsFirst.input.length = 3 ∧
      (AudioProcessor.processAudio encodeFailsFirst 5).map (fun r => r.frameCount) = some 1 ∧
      (AudioProcessor.processAudio encodeFailsFirst 5).map (fun r => r.ap.log) =
        some [LogLine.failedEncode 1] := by
  decide


/-! ## The receiver -/

namespace UdpServer

theorem recvfrom_short (p : List Nat) (h : p.length ≤ 4096) : recvfrom p = p := by
  unfold recvfrom BUFFER_SIZE
  exact List.take_of_length_le h

theorem recvfrom_nil : recvfrom [] = [] := rfl

/-- A zero-length datagram and a receive timeout have the same effect on the session. -/
theorem receive_empty (env : SessionEnv) (srv : UdpServer) (s : Session) :
    receive env srv s (RecvEvent.datagram []) = receive env srv s RecvEvent.timeout := by
  simp [receive, recvfrom_nil]

theorem receive_timeout (env : SessionEnv) (srv : UdpServer) (s : Session) :
    receive env srv s RecvEvent.timeout = (srv, { s with endMarkerReceived := true }, true) :=
  rfl

/-- A nonempty datagram of a session whose container is open is written as one packet. -/
theorem receive_data (env : SessionEnv) (srv : UdpServer) (s : Session) (p : List Nat)
    (hp : recvfrom p ≠ []) (hd : s.dataReceived = true) :
    receive env srv s (RecvEvent.datagram p) =
      (srv, { s with packets := s.packets + 1,
                     events := s.events ++
                       [ServerEvent.packetWritten (recvfrom p)
                         (env.av_write_frame s.packets (recvfrom p))] },
       true) := by
  have hl : (recvfrom p).length ≠ 0 := by
    intro h
    exact hp (List.length_eq_zero.mp h)
  simp [receive, hl, hd]

/-- The first nonempty datagram opens the container, writes the header and the packet. -/
theorem receive_first (env : SessionEnv) (srv : UdpServer) (s : Session) (p : List Nat)
    (hp : recvfrom p ≠ []) (hd : s.dataReceived = false) (henv : env.Succeeds) :
    receive env srv s (RecvEvent.datagram p) =
      (srv, { s with dataReceived := true, formatContext := true, packets := s.packets + 1,
                     events := s.events ++ openedEvents env ++
                       [ServerEvent.packetWritten (recvfrom p)
                         (env.av_write_frame s.packets (recvfrom p))] },
       true) := by
  obtain ⟨_, _, ha, hs, hn, ho, hh⟩ := henv
  have hl : (recvfrom p).length ≠ 0 := by
    intro h
    exact hp (List.length_eq_zero.mp h)
  have ho' : ¬ env.avio_open < 0 := by omega
  have hh' : ¬ env.write_header < 0 := by omega
  simp [receive, hl, hd, openOutput, ha, hs, hn, ho', hh', openedEvents]

/-- A loop whose test fails leaves everything as it is. -/
theorem receiveLoop_done (env : SessionEnv) (evs : List RecvEvent) (srv : UdpServer)
    (s : Session) (h : (srv.running_ && !s.endMarkerReceived) = false) :
    receiveLoop env evs srv s = (srv, s, evs) := by
  cases evs with
  | nil => simp [receiveLoop, h]
  | cons ev rest => simp [receiveLoop, h]

/-- One turn of the loop that does not end in `break`. -/
theorem receiveLoop_cons (env : SessionEnv) (ev : RecvEvent) (rest : List RecvEvent)
    (srv srv1 : UdpServer) (s s1 : Session)
    (hr : srv.running_ = true) (he : s.endMarkerReceived = false)
    (h : receive env srv s ev = (srv1, s1, true)) :
    receiveLoop env (ev :: rest) srv s = receiveLoop env rest srv1 s1 := by
  simp [receiveLoop, hr, he, h]

/-- A timeout or a zero-length datagram ends the loop and leaves the later events. -/
theorem receiveLoop_timeout (env : SessionEnv) (rest : List RecvEvent) (srv : UdpServer)
    (s : Session) (hr : srv.running_ = true) (he : s.endMarkerReceived = false) :
    receiveLoop env (RecvEvent.timeout :: rest) srv s =
      (srv, { s with endMarkerReceived := true }, rest) := by
  rw [receiveLoop_cons env _ rest srv srv s _ hr he (receive_timeout env srv s)]
  exact receiveLoop_done env rest srv _ (by simp)

/-- A run of nonempty datagrams in a session whose container is open is written packet by
packet, in order. -/
theorem receiveLoop_data (env : SessionEnv) (ps : List (List Nat)) (tail : List RecvEvent)
    (srv : UdpServer) (hr : srv.running_ = true) (hps : ∀ p ∈ ps, recvfrom p ≠ []) :
    ∀ s : Session, s.endMarkerReceived = false → s.dataReceived = true →
      receiveLoop env (ps.map RecvEvent.datagram ++ tail) srv s =
        receiveLoop env tail srv
          { s with packets := s.packets + ps.length,
                   events := s.events ++ packetEvents env s.packets (ps.map recvfrom) } := by
  induction ps with
  | nil =>
      intro s _ _
      simp [packetEvents]
  | cons p ps ih =>
      intro s he hd
      have hp : recvfrom p ≠ [] := hps p (List.mem_cons_self _ _)
      have hps' : ∀ q ∈ ps, recvfrom q ≠ [] := fun q hq => hps q (List.mem_cons_of_mem _ hq)
      have hnext := ih hps'
        { s with packets := s.packets + 1,
                 events := s.events ++
                   [ServerEvent.packetWritten (recvfrom p)
                     (env.av_write_frame s.packets (recvfrom p))] } he hd
      rw [List.map_cons, List.cons_append,
        receiveLoop_cons env _ _ srv srv s _ hr he (receive_data env srv s p hp hd), hnext]
      simp [packetEvents, Nat.add_assoc, Nat.add_comm 1]

end UdpServer

theorem headerCount_append (t u : List ServerEvent) :
    headerCount (t ++ u) = headerCount t + headerCount u := by
  simp [headerCount, List.countP_append]

theorem Headed.append_right {t : List ServerEvent} (h : Headed t) (u : List ServerEvent) :
    Headed (t ++ u) := by
  obtain ⟨r, hr, hm⟩ := h
  exact ⟨r, hr, List.mem_append_left u hm⟩

/-- Appending to a record keeps `HeaderFirst` when every packet appended has a header
written with success before it. -/
theorem HeaderFirst.append {t u : List ServerEvent} (ht : HeaderFirst t)
    (hu : ∀ u1 p r u2, u = u1 ++ ServerEvent.packetWritten p r :: u2 → Headed (t ++ u1)) :
    HeaderFirst (t ++ u) := by
  intro t1 p r t2 h
  rcases List.append_eq_append_iff.mp h with ⟨a, h1, h2⟩ | ⟨c, h1, h2⟩
  · rw [h1]
    exact hu a p r t2 h2
  · cases c with
    | nil =>
        simp only [List.append_nil, List.nil_append] at h1 h2
        have h3 := hu [] p r t2 h2.symm
        rw [List.append_nil, h1] at h3
        exact h3
    | cons c cs =>
        simp only [List.cons_append, List.cons.injEq] at h2
        obtain ⟨hc, _⟩ := h2
        subst hc
        exact ht t1 p r cs h1

/-- Appending operations that are not packets keeps `HeaderFirst`. -/
theorem HeaderFirst.append_other {t u : List ServerEvent} (ht : HeaderFirst t)
    (hu : ∀ e ∈ u, e.isPacket = false) : HeaderFirst (t ++ u) := by
  apply ht.append
  intro u1 p r u2 h
  have hm : ServerEvent.packetWritten p r ∈ u := by
    rw [h]
    simp
  have := hu _ hm
  simp [ServerEvent.isPacket] at this

/-- Appending one packet to a record with a header keeps `HeaderFirst`. -/
theorem HeaderFirst.append_packet {t : List ServerEvent} (ht : HeaderFirst t) (hh : Headed t)
    (p : List Nat) (r : Int) : HeaderFirst (t ++ [ServerEvent.packetWritten p r]) := by
  apply ht.append
  intro u1 q r1 u2 h
  exact hh.append_right u1

theorem HeaderFirst.nil : HeaderFirst [] := by
  intro t1 p r t2 h
  simp at h

theorem Headed.append_left {u : List ServerEvent} (h : Headed u) (t : List ServerEvent) :
    Headed (t ++ u) := by
  obtain ⟨r, hr, hm⟩ := h
  exact ⟨r, hr, List.mem_append_right t hm⟩

/-- Appending operations that are neither packets nor headers keeps the invariant parts. -/
theorem Session.Post.keep_other {s : Session} (h : s.Post) (u : List ServerEvent)
    (hp : ∀ e ∈ u, e.isPacket = false) (hh : headerCount u = 0) :
    HeaderFirst (s.events ++ u) ∧ headerCount (s.events ++ u) ≤ 1 := by
  refine ⟨h.1.append_other hp, ?_⟩
  rw [headerCount_append, hh]
  exact h.2

theorem Session.Inv.post {s : Session} (h : s.Inv) : s.Post := ⟨h.1, h.2.1⟩

namespace UdpServer

/-- What `openOutput` appends: no packet, at most one header, and a header written with
success when the block does not end in `break`. -/
theorem openOutput_spec (env : SessionEnv) (s : Session) :
    ∃ u, (openOutput env s).1.events = s.events ++ u ∧ (∀ e ∈ u, e.isPacket = false) ∧
      headerCount u ≤ 1 ∧ ((openOutput env s).2 = true → Headed u) ∧
      (openOutput env s).1.dataReceived = true ∧ (openOutput env s).1.packets = s.packets := by
  unfold openOutput
  by_cases ha : env.alloc_ok = true
  · by_cases hs : env.stream_ok = true
    · by_cases hn : env.nofile = true
      · by_cases hh : env.write_header < 0
        · refine ⟨[ServerEvent.contextAllocated (generateOutputFileName env.timestamp) true,
              ServerEvent.streamCreated true, ServerEvent.headerWritten env.write_header],
            ?_, ?_, ?_, ?_, ?_, ?_⟩ <;>
            simp [ha, hs, hn, hh, headerCount, ServerEvent.isPacket, ServerEvent.isHeader]
        · refine ⟨[ServerEvent.contextAllocated (generateOutputFileName env.timestamp) true,
              ServerEvent.streamCreated true, ServerEvent.headerWritten env.write_header],
            ?_, ?_, ?_, ?_, ?_, ?_⟩ <;>
            simp [ha, hs, hn, hh, headerCount, ServerEvent.isPacket, ServerEvent.isHeader,
              Headed]
          omega
      · by_cases ho : env.avio_open < 0
        · refine ⟨[ServerEvent.contextAllocated (generateOutputFileName env.timestamp) true,
              ServerEvent.streamCreated true, ServerEvent.fileOpened env.avio_open],
            ?_, ?_, ?_, ?_, ?_, ?_⟩ <;>
            simp [ha, hs, hn, ho, headerCount, ServerEvent.isPacket, ServerEvent.isHeader]
        · by_cases hh : env.write_header < 0
          · refine ⟨[ServerEvent.contextAllocated (generateOutputFileName env.timestamp) true,
                ServerEvent.streamCreated true, ServerEvent.fileOpened env.avio_open,
                ServerEvent.headerWritten env.write_header],
              ?_, ?_, ?_, ?_, ?_, ?_⟩ <;>
              simp [ha, hs, hn, ho, hh, headerCount, ServerEvent.isPacket,
                ServerEvent.isHeader]
          · refine ⟨[ServerEvent.contextAllocated (generateOutputFileName env.timestamp) true,
                ServerEvent.streamCreated true, ServerEvent.fileOpened env.avio_open,
                ServerEvent.headerWritten env.write_header],
              ?_, ?_, ?_, ?_, ?_, ?_⟩ <;>
              simp [ha, hs, hn, ho, hh, headerCount, ServerEvent.isPacket,
                ServerEvent.isHeader, Headed]
            omega
    · refine ⟨[ServerEvent.contextAllocated (generateOutputFileName env.timestamp) true,
          ServerEvent.streamCreated false], ?_, ?_, ?_, ?_, ?_, ?_⟩ <;>
        simp [ha, hs, headerCount, ServerEvent.isPacket, ServerEvent.isHeader]
  · refine ⟨[ServerEvent.contextAllocated (generateOutputFileName env.timestamp) false],
      ?_, ?_, ?_, ?_, ?_, ?_⟩ <;>
      simp [ha, headerCount, ServerEvent.isPacket, ServerEvent.isHeader]

end UdpServer

namespace UdpServer

/-- One turn of the receive loop keeps the invariant; a turn that ends in `break` leaves a
record with the properties of a finished session. -/
theorem receive_inv (env : SessionEnv) (srv : UdpServer) (s : Session) (ev : RecvEvent)
    (h : s.Inv) :
    ((receive env srv s ev).2.2 = true → (receive env srv s ev).2.1.Inv) ∧
      ((receive env srv s ev).2.2 = false → (receive env srv s ev).2.1.Post) := by
  obtain ⟨h1, h2, h3, h4⟩ := h
  cases ev with
  | timeout => exact ⟨fun _ => ⟨h1, h2, h3, h4⟩, fun hf => by simp [receive] at hf⟩
  | error => exact ⟨fun hf => by simp [receive] at hf, fun _ => ⟨h1, h2⟩⟩
  | stop =>
      refine ⟨fun _ => ?_, fun hf => by simp [receive] at hf⟩
      have hu : ∀ e ∈ (stop srv).2, e.isPacket = false := by
        unfold stop
        split_ifs <;> simp [ServerEvent.isPacket]
      have hc : headerCount (stop srv).2 = 0 := by
        unfold stop
        split_ifs <;> simp [headerCount, ServerEvent.isHeader]
      refine ⟨h1.append_other hu, ?_, fun hd => (h3 hd).append_right _, fun hd => ?_⟩
      · show headerCount (s.events ++ (stop srv).2) ≤ 1
        rw [headerCount_append, hc]
        exact h2
      · show headerCount (s.events ++ (stop srv).2) = 0
        rw [headerCount_append, hc, h4 hd]
  | datagram p =>
      by_cases hl : (recvfrom p).length = 0
      · have hrec : receive env srv s (RecvEvent.datagram p) =
            (srv, { s with endMarkerReceived := true }, true) := by
          simp [receive, hl]
        rw [hrec]
        exact ⟨fun _ => ⟨h1, h2, h3, h4⟩, fun hf => by simp at hf⟩
      · have hne : recvfrom p ≠ [] := fun h0 => hl (by rw [h0]; rfl)
        by_cases hd : s.dataReceived = true
        · rw [receive_data env srv s p hne hd]
          refine ⟨fun _ => ⟨h1.append_packet (h3 hd) _ _, ?_, fun _ => (h3 hd).append_right _,
            fun hd' => ?_⟩, fun hf => by simp at hf⟩
          · show headerCount (s.events ++ _) ≤ 1
            rw [headerCount_append]
            simpa [headerCount, ServerEvent.isHeader] using h2
          · exact absurd hd (by simpa using hd')
        · have hd0 : s.dataReceived = false := by simpa using hd
          obtain ⟨u, hu1, hu2, hu3, hu4, hu5, hu6⟩ := openOutput_spec env s
          by_cases hok : (openOutput env s).2 = true
          · have hrec : receive env srv s (RecvEvent.datagram p) =
                (srv, { (openOutput env s).1 with
                          packets := (openOutput env s).1.packets + 1,
                          events := (openOutput env s).1.events ++
                            [ServerEvent.packetWritten (recvfrom p)
                              (env.av_write_frame (openOutput env s).1.packets (recvfrom p))] },
                 true) := by
              simp [receive, hl, hd0, hok]
            rw [hrec]
            refine ⟨fun _ => ⟨?_, ?_, fun _ => ?_, fun hd' => ?_⟩, fun hf => by simp at hf⟩
            · show HeaderFirst ((openOutput env s).1.events ++ _)
              rw [hu1]
              exact (h1.append_other hu2).append_packet ((hu4 hok).append_left _) _ _
            · show headerCount ((openOutput env s).1.events ++ _) ≤ 1
              rw [hu1, headerCount_append, headerCount_append, h4 hd0]
              simpa [headerCount, ServerEvent.isHeader] using hu3
            · show Headed ((openOutput env s).1.events ++ _)
              rw [hu1]
              exact ((hu4 hok).append_left _).append_right _
            · exact absurd hu5 (by simpa using hd')
          · have hok0 : (openOutput env s).2 = false := by simpa using hok
            have hrec : receive env srv s (RecvEvent.datagram p) =
                (srv, (openOutput env s).1, false) := by
              simp [receive, hl, hd0, hok0]
            rw [hrec]
            refine ⟨fun hf => by simp at hf, fun _ => ⟨?_, ?_⟩⟩
            · rw [hu1]
              exact h1.append_other hu2
            · rw [hu1, headerCount_append, h4 hd0]
              simpa using hu3

/-- The record of the receive loop has the properties of a finished session. -/
theorem receiveLoop_post (env : SessionEnv) (evs : List RecvEvent) :
    ∀ (srv : UdpServer) (s : Session), s.Inv → (receiveLoop env evs srv s).2.1.Post := by
  induction evs with
  | nil =>
      intro srv s h
      unfold receiveLoop
      split_ifs
      · exact h.post
      · exact h.post
  | cons ev rest ih =>
      intro srv s h
      by_cases hc : (srv.running_ && !s.endMarkerReceived) = true
      · by_cases hb : (receive env srv s ev).2.2 = true
        · have hrun : receiveLoop env (ev :: rest) srv s =
              receiveLoop env rest (receive env srv s ev).1 (receive env srv s ev).2.1 := by
            simp only [receiveLoop, hc, hb, if_true]
          rw [hrun]
          exact ih _ _ ((receive_inv env srv s ev h).1 hb)
        · have hrun : receiveLoop env (ev :: rest) srv s =
              ((receive env srv s ev).1, (receive env srv s ev).2.1, rest) := by
            simp only [receiveLoop, hc, hb, if_true]
            simp
          rw [hrun]
          exact (receive_inv env srv s ev h).2 (by simpa using hb)
      · rw [receiveLoop_done env _ srv s (by simpa using hc)]
        exact h.post

end UdpServer

namespace UdpServer

/-- A zero-length datagram ends the loop as a timeout does. -/
theorem receiveLoop_empty (env : SessionEnv) (rest : List RecvEvent) (srv : UdpServer)
    (s : Session) (hr : srv.running_ = true) (he : s.endMarkerReceived = false) :
    receiveLoop env (RecvEvent.datagram [] :: rest) srv s =
      (srv, { s with endMarkerReceived := true }, rest) := by
  rw [receiveLoop_cons env _ rest srv srv s _ hr he
    ((receive_empty env srv s).trans (receive_timeout env srv s))]
  exact receiveLoop_done env rest srv _ (by simp)

/-- The first nonempty datagram when the set-up of the container succeeds. -/
theorem receive_open (env : SessionEnv) (srv : UdpServer) (s : Session) (p : List Nat)
    (hl : (recvfrom p).length ≠ 0) (hd : s.dataReceived = false)
    (hok : (openOutput env s).2 = true) :
    receive env srv s (RecvEvent.datagram p) =
      (srv, { (openOutput env s).1 with
                packets := (openOutput env s).1.packets + 1,
                events := (openOutput env s).1.events ++
                  [ServerEvent.packetWritten (recvfrom p)
                    (env.av_write_frame (openOutput env s).1.packets (recvfrom p))] },
       true) := by
  simp [receive, hl, hd, hok]

/-- The first nonempty datagram when the set-up of the container fails: `break`. -/
theorem receive_break (env : SessionEnv) (srv : UdpServer) (s : Session) (p : List Nat)
    (hl : (recvfrom p).length ≠ 0) (hd : s.dataReceived = false)
    (hok : (openOutput env s).2 = false) :
    receive env srv s (RecvEvent.datagram p) = (srv, (openOutput env s).1, false) := by
  simp [receive, hl, hd, hok]

/-- One turn of the loop only appends to the record. -/
theorem receive_extends (env : SessionEnv) (srv : UdpServer) (s : Session) (ev : RecvEvent) :
    s.events <+: (receive env srv s ev).2.1.events := by
  cases ev with
  | timeout => exact List.prefix_refl _
  | error => exact List.prefix_refl _
  | stop => exact List.prefix_append _ _
  | datagram p =>
      obtain ⟨u, hu, _⟩ := openOutput_spec env s
      by_cases hl : (recvfrom p).length = 0
      · have hrec : receive env srv s (RecvEvent.datagram p) =
            (srv, { s with endMarkerReceived := true }, true) := by
          simp [receive, hl]
        rw [hrec]
      · have hne : recvfrom p ≠ [] := fun h0 => hl (by rw [h0]; rfl)
        by_cases hd : s.dataReceived = true
        · rw [receive_data env srv s p hne hd]
          exact List.prefix_append _ _
        · have hd0 : s.dataReceived = false := by simpa using hd
          by_cases hok : (openOutput env s).2 = true
          · rw [receive_open env srv s p hl hd0 hok]
            show s.events <+: (openOutput env s).1.events ++ _
            rw [hu, List.append_assoc]
            exact List.prefix_append _ _
          · rw [receive_break env srv s p hl hd0 (by simpa using hok)]
            show s.events <+: (openOutput env s).1.events
            rw [hu]
            exact List.prefix_append _ _

/-- The receive loop only appends to the record. -/
theorem receiveLoop_extends (env : SessionEnv) (evs : List RecvEvent) :
    ∀ (srv : UdpServer) (s : Session), s.events <+: (receiveLoop env evs srv s).2.1.events := by
  induction evs with
  | nil =>
      intro srv s
      unfold receiveLoop
      split_ifs <;> exact List.prefix_refl _
  | cons ev rest ih =>
      intro srv s
      by_cases hc : (srv.running_ && !s.endMarkerReceived) = true
      · by_cases hb : (receive env srv s ev).2.2 = true
        · have hrun : receiveLoop env (ev :: rest) srv s =
              receiveLoop env rest (receive env srv s ev).1 (receive env srv s ev).2.1 := by
            simp only [receiveLoop, hc, hb, if_true]
          rw [hrun]
          exact (receive_extends env srv s ev).trans (ih _ _)
        · have hrun : receiveLoop env (ev :: rest) srv s =
              ((receive env srv s ev).1, (receive env srv s ev).2.1, rest) := by
            simp only [receiveLoop, hc, hb, if_true]
            simp
          rw [hrun]
          exact receive_extends env srv s ev
      · rw [receiveLoop_done env _ srv s (by simpa using hc)]

theorem closeOutput_extends (env : SessionEnv) (s : Session) :
    s.events <+: (closeOutput env s).events := by
  unfold closeOutput
  by_cases hf : s.formatContext = true
  · simp only [hf, if_true]
    rw [List.append_assoc, List.append_assoc]
    exact List.prefix_append _ _
  · simp only [hf]
    exact List.prefix_refl _

theorem closeSocket_extends (srv : UdpServer) (s : Session) :
    s.events <+: (closeSocket srv s).2.events := by
  unfold closeSocket
  split_ifs
  · exact List.prefix_append _ _
  · exact List.prefix_refl _

/-- The shape of an iteration whose socket is created and bound. -/
theorem iteration_bound (env : SessionEnv) (srv : UdpServer) (evs : List RecvEvent)
    (hs : 0 ≤ env.socket) (hb : 0 ≤ env.bind) :
    iteration env srv evs =
      IterationResult.looped
        (closeSocket
          (receiveLoop env evs { running_ := true, socket_fd_ := env.socket }
            { endMarkerReceived := false, dataReceived := false, formatContext := false,
              packets := 0,
              events := [ServerEvent.socketCreated env.socket, ServerEvent.bound env.bind] }).1
          (closeOutput env
            (receiveLoop env evs { running_ := true, socket_fd_ := env.socket }
              { endMarkerReceived := false, dataReceived := false, formatContext := false,
                packets := 0,
                events := [ServerEvent.socketCreated env.socket,
                  ServerEvent.bound env.bind] }).2.1)).1
        (closeSocket
          (receiveLoop env evs { running_ := true, socket_fd_ := env.socket }
            { endMarkerReceived := false, dataReceived := false, formatContext := false,
              packets := 0,
              events := [ServerEvent.socketCreated env.socket, ServerEvent.bound env.bind] }).1
          (closeOutput env
            (receiveLoop env evs { running_ := true, socket_fd_ := env.socket }
              { endMarkerReceived := false, dataReceived := false, formatContext := false,
                packets := 0,
                events := [ServerEvent.socketCreated env.socket,
                  ServerEvent.bound env.bind] }).2.1)).2
        (receiveLoop env evs { running_ := true, socket_fd_ := env.socket }
          { endMarkerReceived := false, dataReceived := false, formatContext := false,
            packets := 0,
            events := [ServerEvent.socketCreated env.socket, ServerEvent.bound env.bind] }).2.2 := by
  have h1 : ¬ env.socket < 0 := by omega
  have h2 : ¬ env.bind < 0 := by omega
  simp only [iteration, h1, h2, if_false]

end UdpServer

namespace UdpServer

/-- The receive loop of a session: a first nonempty datagram, further nonempty datagrams,
and a marker that ends the loop. -/
theorem receiveLoop_session (env : SessionEnv) (p : List Nat) (ps : List (List Nat))
    (marker : RecvEvent) (rest : List RecvEvent) (srv : UdpServer) (s : Session)
    (hm : ∀ s1 : Session, s1.endMarkerReceived = false →
      receiveLoop env (marker :: rest) srv s1 = (srv, { s1 with endMarkerReceived := true }, rest))
    (hr : srv.running_ = true) (he : s.endMarkerReceived = false)
    (hd : s.dataReceived = false) (hps : ∀ q ∈ p :: ps, recvfrom q ≠ [])
    (henv : env.Succeeds) :
    receiveLoop env ((p :: ps).map RecvEvent.datagram ++ marker :: rest) srv s =
      (srv,
       { endMarkerReceived := true, dataReceived := true, formatContext := true,
         packets := s.packets + (p :: ps).length,
         events := s.events ++ openedEvents env ++
           packetEvents env s.packets ((p :: ps).map recvfrom) },
       rest) := by
  have hp : recvfrom p ≠ [] := hps p (List.mem_cons_self _ _)
  have hps' : ∀ q ∈ ps, recvfrom q ≠ [] := fun q hq => hps q (List.mem_cons_of_mem _ hq)
  have hdata := receiveLoop_data env ps (marker :: rest) srv hr hps'
    { s with dataReceived := true, formatContext := true, packets := s.packets + 1,
             events := s.events ++ openedEvents env ++
               [ServerEvent.packetWritten (recvfrom p)
                 (env.av_write_frame s.packets (recvfrom p))] } he rfl
  rw [List.map_cons, List.cons_append,
    receiveLoop_cons env _ _ srv srv s _ hr he (receive_first env srv s p hp hd henv),
    hdata, hm]
  · simp [packetEvents, Nat.add_assoc, Nat.add_comm 1]
  · exact he

/-- The whole iteration of a session in an environment where every call succeeds. -/
theorem iteration_session (env : SessionEnv) (srv : UdpServer) (ps : List (List Nat))
    (marker : RecvEvent) (rest : List RecvEvent)
    (hm : marker = RecvEvent.timeout ∨ marker = RecvEvent.datagram [])
    (hn : ps ≠ []) (hps : ∀ q ∈ ps, recvfrom q ≠ []) (henv : env.Succeeds) :
    iteration env srv (ps.map RecvEvent.datagram ++ marker :: rest) =
      IterationResult.looped { running_ := true, socket_fd_ := -1 }
        { endMarkerReceived := true, dataReceived := true, formatContext := true,
          packets := ps.length, events := recordedSession env (ps.map recvfrom) }
        rest := by
  obtain ⟨p, ps1, rfl⟩ := List.exists_cons_of_ne_nil hn
  have hsock : 0 ≤ env.socket := henv.1
  have hnofile : env.nofile = false := henv.2.2.2.2.1
  have hloop := receiveLoop_session env p ps1 marker rest
    { running_ := true, socket_fd_ := env.socket }
    { endMarkerReceived := false, dataReceived := false, formatContext := false, packets := 0,
      events := [ServerEvent.socketCreated env.socket, ServerEvent.bound env.bind] }
    (by
      intro s1 he1
      rcases hm with rfl | rfl
      · exact receiveLoop_timeout env rest _ s1 rfl he1
      · exact receiveLoop_empty env rest _ s1 rfl he1)
    rfl rfl rfl hps henv
  rw [iteration_bound env srv _ henv.1 henv.2.1, hloop]
  simp [closeOutput, closeSocket, hsock, hnofile, recordedSession]

/-- An iteration in which the first receive ends the loop touches nothing but the socket. -/
theorem iteration_idle (env : SessionEnv) (srv : UdpServer) (marker : RecvEvent)
    (rest : List RecvEvent)
    (hm : marker = RecvEvent.timeout ∨ marker = RecvEvent.datagram [])
    (hs : 0 ≤ env.socket) (hb : 0 ≤ env.bind) :
    iteration env srv (marker :: rest) =
      IterationResult.looped { running_ := true, socket_fd_ := -1 }
        { endMarkerReceived := true, dataReceived := false, formatContext := false,
          packets := 0, events := idleSession env }
        rest := by
  have hloop : receiveLoop env (marker :: rest) { running_ := true, socket_fd_ := env.socket }
      { endMarkerReceived := false, dataReceived := false, formatContext := false,
        packets := 0,
        events := [ServerEvent.socketCreated env.socket, ServerEvent.bound env.bind] } =
      ({ running_ := true, socket_fd_ := env.socket },
       { endMarkerReceived := true, dataReceived := false, formatContext := false,
         packets := 0,
         events := [ServerEvent.socketCreated env.socket, ServerEvent.bound env.bind] },
       rest) := by
    rcases hm with rfl | rfl
    · exact receiveLoop_timeout env rest _ _ rfl rfl
    · exact receiveLoop_empty env rest _ _ rfl rfl
  rw [iteration_bound env srv _ hs hb, hloop]
  simp [closeOutput, closeSocket, hs, idleSession]

/-- When no datagram arrives any more the first receive times out. -/
theorem iteration_silent (env : SessionEnv) (srv : UdpServer)
    (hs : 0 ≤ env.socket) (hb : 0 ≤ env.bind) :
    iteration env srv [] =
      IterationResult.looped { running_ := true, socket_fd_ := -1 }
        { endMarkerReceived := true, dataReceived := false, formatContext := false,
          packets := 0, events := idleSession env }
        [] := by
  rw [iteration_bound env srv _ hs hb]
  simp [receiveLoop, closeOutput, closeSocket, hs, idleSession]

end UdpServer

namespace UdpServer

theorem closeOutput_post (env : SessionEnv) (s : Session) (h : s.Post) :
    (closeOutput env s).Post := by
  unfold closeOutput
  by_cases hf : s.formatContext = true
  · simp only [hf, if_true]
    rw [List.append_assoc, List.append_assoc]
    apply h.keep_other
    · intro e he
      by_cases hn : env.nofile = true <;> simp [hn] at he <;>
        rcases he with rfl | rfl | rfl <;> rfl
    · by_cases hn : env.nofile = true <;> simp [hn, headerCount, ServerEvent.isHeader]
  · simp only [hf]
    exact h

theorem closeSocket_post (srv : UdpServer) (s : Session) (h : s.Post) :
    (closeSocket srv s).2.Post := by
  unfold closeSocket
  split_ifs
  · exact h.keep_other _ (by simp [ServerEvent.isPacket])
      (by simp [headerCount, ServerEvent.isHeader])
  · exact h

/-- In every iteration no packet is written before a header written with success, and the
header is written at most once. -/
theorem iteration_post (env : SessionEnv) (srv : UdpServer) (evs : List RecvEvent) :
    HeaderFirst (iteration env srv evs).events ∧ headerCount (iteration env srv evs).events ≤ 1 := by
  by_cases hs : env.socket < 0
  · have hi : (iteration env srv evs).events = [] ++ [ServerEvent.socketCreated env.socket] := by
      simp [iteration, hs, IterationResult.events]
    rw [hi]
    exact ⟨HeaderFirst.nil.append_other (by simp [ServerEvent.isPacket]),
      by simp [headerCount, ServerEvent.isHeader]⟩
  · by_cases hb : env.bind < 0
    · have hi : (iteration env srv evs).events =
          [] ++ [ServerEvent.socketCreated env.socket, ServerEvent.bound env.bind,
            ServerEvent.socketClosed] := by
        simp [iteration, hs, hb, IterationResult.events]
      rw [hi]
      exact ⟨HeaderFirst.nil.append_other (by simp [ServerEvent.isPacket]),
        by simp [headerCount, ServerEvent.isHeader]⟩
    · rw [iteration_bound env srv evs (by omega) (by omega)]
      apply closeSocket_post
      apply closeOutput_post
      apply receiveLoop_post
      refine ⟨?_, ?_, ?_, ?_⟩
      · exact HeaderFirst.nil.append_other (u := [_, _]) (by simp [ServerEvent.isPacket])
      · simp [headerCount, ServerEvent.isHeader]
      · intro h
        simp at h
      · intro _
        simp [headerCount, ServerEvent.isHeader]

/-- Every iteration begins by creating a socket and, when that succeeds, binding it. -/
theorem iteration_head (env : SessionEnv) (srv : UdpServer) (evs : List RecvEvent) :
    ∃ more, (iteration env srv evs).events = ServerEvent.socketCreated env.socket :: more ∧
      (0 ≤ env.socket → ∃ more2, more = ServerEvent.bound env.bind :: more2) := by
  by_cases hs : env.socket < 0
  · refine ⟨[], by simp [iteration, hs, IterationResult.events], fun h => by omega⟩
  · by_cases hb : env.bind < 0
    · exact ⟨[ServerEvent.bound env.bind, ServerEvent.socketClosed],
        by simp [iteration, hs, hb, IterationResult.events], fun _ => ⟨_, rfl⟩⟩
    · rw [iteration_bound env srv evs (by omega) (by omega)]
      have hp : ([ServerEvent.socketCreated env.socket, ServerEvent.bound env.bind] :
            List ServerEvent) <+:
          (closeSocket
            (receiveLoop env evs { running_ := true, socket_fd_ := env.socket }
              { endMarkerReceived := false, dataReceived := false, formatContext := false,
                packets := 0,
                events := [ServerEvent.socketCreated env.socket,
                  ServerEvent.bound env.bind] }).1
            (closeOutput env
              (receiveLoop env evs { running_ := true, socket_fd_ := env.socket }
                { endMarkerReceived := false, dataReceived := false, formatContext := false,
                  packets := 0,
                  events := [ServerEvent.socketCreated env.socket,
                    ServerEvent.bound env.bind] }).2.1)).2.events :=
        ((receiveLoop_extends env evs { running_ := true, socket_fd_ := env.socket }
            { endMarkerReceived := false, dataReceived := false, formatContext := false,
              packets := 0,
              events := [ServerEvent.socketCreated env.socket,
                ServerEvent.bound env.bind] }).trans
          (closeOutput_extends env _)).trans (closeSocket_extends _ _)
      obtain ⟨t, ht⟩ := hp
      exact ⟨ServerEvent.bound env.bind :: t,
        by simp only [IterationResult.events]; exact ht.symm, fun _ => ⟨t, rfl⟩⟩

/-- The record of `start` only grows. -/
theorem start_extends (envs : Nat → SessionEnv) (fuel : Nat) :
    ∀ (k : Nat) (srv : UdpServer) (trace : List ServerEvent) (evs : List RecvEvent),
      trace <+: (start envs fuel k srv trace evs).trace := by
  induction fuel with
  | zero =>
      intro k srv trace evs
      exact List.prefix_refl _
  | succ fuel ih =>
      intro k srv trace evs
      unfold start
      cases hi : iteration (envs k) srv evs with
      | returned code srv1 es => exact List.prefix_append _ _
      | looped srv1 s rest => exact (List.prefix_append _ _).trans (ih _ _ _ _)

/-- An iteration that does not return is followed by the next one, on the events left. -/
theorem start_looped (envs : Nat → SessionEnv) (fuel k : Nat) (srv srv1 : UdpServer)
    (trace : List ServerEvent) (evs rest : List RecvEvent) (s : Session)
    (h : iteration (envs k) srv evs = IterationResult.looped srv1 s rest) :
    start envs (fuel + 1) k srv trace evs = start envs fuel (k + 1) srv1 (trace ++ s.events) rest := by
  rw [start, h]

/-- The record of `start` after at least one iteration begins with the record of that
iteration. -/
theorem start_head (envs : Nat → SessionEnv) (fuel k : Nat) (srv : UdpServer)
    (trace : List ServerEvent) (evs : List RecvEvent) :
    ∃ more, (start envs (fuel + 1) k srv trace evs).trace =
      trace ++ (iteration (envs k) srv evs).events ++ more := by
  unfold start
  cases hi : iteration (envs k) srv evs with
  | returned code srv1 es => exact ⟨[], by simp [IterationResult.events]⟩
  | looped srv1 s rest =>
      obtain ⟨t, ht⟩ := start_extends envs fuel (k + 1) srv1 (trace ++ s.events) rest
      exact ⟨t, by simp only [IterationResult.events]; exact ht.symm⟩

/-- After an iteration that does not return, `start` creates a socket again and binds it. -/
theorem start_rebinds (envs : Nat → SessionEnv) (fuel k : Nat) (srv srv1 : UdpServer)
    (trace : List ServerEvent) (evs rest : List RecvEvent) (s : Session)
    (h : iteration (envs k) srv evs = IterationResult.looped srv1 s rest) :
    ∃ more, (start envs (fuel + 2) k srv trace evs).trace =
        trace ++ s.events ++ ServerEvent.socketCreated (envs (k + 1)).socket :: more ∧
      (0 ≤ (envs (k + 1)).socket →
        ∃ more2, more = ServerEvent.bound (envs (k + 1)).bind :: more2) := by
  rw [start_looped envs (fuel + 1) k srv srv1 trace evs rest s h]
  obtain ⟨t, ht⟩ := start_head envs fuel (k + 1) srv1 (trace ++ s.events) rest
  obtain ⟨m, hm, hm2⟩ := iteration_head (envs (k + 1)) srv1 rest
  refine ⟨m ++ t, ?_, fun hs => ?_⟩
  · rw [ht, hm]
    simp
  · obtain ⟨m2, rfl⟩ := hm2 hs
    exact ⟨m2 ++ t, rfl⟩

end UdpServer

namespace UdpServer

theorem recvfrom_ne_nil (p : List Nat) (h : p ≠ []) : recvfrom p ≠ [] := by
  cases p with
  | nil => exact absurd rfl h
  | cons a t => simp [recvfrom, BUFFER_SIZE]

theorem map_recvfrom_short (ps : List (List Nat)) (h : ∀ p ∈ ps, p.length ≤ 4096) :
    ps.map recvfrom = ps := by
  induction ps with
  | nil => rfl
  | cons p ps ih =>
      rw [List.map_cons, recvfrom_short p (h p (List.mem_cons_self _ _)),
        ih (fun q hq => h q (List.mem_cons_of_mem _ hq))]

theorem writtenPayloads_packetEvents (env : SessionEnv) (ps : List (List Nat)) :
    ∀ i, writtenPayloads (packetEvents env i ps) = ps := by
  induction ps with
  | nil => intro i; rfl
  | cons p ps ih => intro i; simp [packetEvents, writtenPayloads, ih]

theorem writtenPayloads_append (t u : List ServerEvent) :
    writtenPayloads (t ++ u) = writtenPayloads t ++ writtenPayloads u := by
  induction t with
  | nil => rfl
  | cons e t ih => cases e <;> simp [writtenPayloads, ih]

theorem headerCount_packetEvents (env : SessionEnv) (ps : List (List Nat)) :
    ∀ i, headerCount (packetEvents env i ps) = 0 := by
  induction ps with
  | nil => intro i; rfl
  | cons p ps ih =>
      intro i
      have := ih (i + 1)
      simp only [headerCount] at this
      simp [packetEvents, headerCount, ServerEvent.isHeader, this]

/-- The record of a complete session holds the payloads in order and one header. -/
theorem recordedSession_spec (env : SessionEnv) (ps : List (List Nat)) :
    writtenPayloads (recordedSession env ps) = ps ∧ headerCount (recordedSession env ps) = 1 := by
  constructor
  · simp [recordedSession, openedEvents, writtenPayloads_append, writtenPayloads_packetEvents,
      writtenPayloads]
  · simp only [recordedSession, headerCount_append, headerCount_packetEvents]
    simp [headerCount, openedEvents, ServerEvent.isHeader]

end UdpServer

/-- C11: in an environment where the socket, the bind and the set-up of the output container
succeed, for every `n ≥ 1` nonempty datagrams of at most 4096 bytes followed by a zero-length
datagram, one iteration of `UdpServer::start` writes the header once, then exactly one packet
per datagram with the payloads in arrival order, then the trailer, closes the file, frees the
container and closes the socket (`recordedSession`); the events after the end marker are
left untouched, and `start` then begins a new iteration that creates a socket and binds
it. -/
theorem C11_session_packets_in_arrival_order (env : SessionEnv) (srv : UdpServer)
    (ps : List (List Nat)) (rest : List RecvEvent)
    (hn : 1 ≤ ps.length) (hne : ∀ p ∈ ps, p ≠ []) (hlen : ∀ p ∈ ps, p.length ≤ 4096)
    (henv : env.Succeeds) :
    UdpServer.iteration env srv (ps.map RecvEvent.datagram ++ RecvEvent.datagram [] :: rest) =
        IterationResult.looped { running_ := true, socket_fd_ := -1 }
          { endMarkerReceived := true, dataReceived := true, formatContext := true,
            packets := ps.length, events := UdpServer.recordedSession env ps }
          rest ∧
      writtenPayloads (UdpServer.recordedSession env ps) = ps ∧
      headerCount (UdpServer.recordedSession env ps) = 1 ∧
      ∀ (envs : Nat → SessionEnv) (k fuel : Nat) (trace : List ServerEvent), envs k = env →
        ∃ more,
          (UdpServer.start envs (fuel + 2) k srv trace
              (ps.map RecvEvent.datagram ++ RecvEvent.datagram [] :: rest)).trace =
            trace ++ UdpServer.recordedSession env ps ++
              ServerEvent.socketCreated (envs (k + 1)).socket :: more ∧
          (0 ≤ (envs (k + 1)).socket →
            ∃ more2, more = ServerEvent.bound (envs (k + 1)).bind :: more2) := by
  have hps : ps ≠ [] := by
    intro h
    rw [h] at hn
    simp at hn
  have hit := UdpServer.iteration_session env srv ps (RecvEvent.datagram []) rest (Or.inr rfl)
    hps (fun q hq => UdpServer.recvfrom_ne_nil q (hne q hq)) henv
  rw [UdpServer.map_recvfrom_short ps hlen] at hit
  refine ⟨hit, (UdpServer.recordedSession_spec env ps).1,
    (UdpServer.recordedSession_spec env ps).2, ?_⟩
  intro envs k fuel trace hk
  subst hk
  exact UdpServer.start_rebinds envs fuel k srv _ trace _ rest _ hit

/-- C11, witness: scenario D, three nonempty datagrams and then a zero-length one, gives
exactly three packets in arrival order between the header and the trailer. -/
theorem C11_witness :
    (UdpServer.iteration demoSession UdpServer.new scenarioD).events =
        [ServerEvent.socketCreated 3, ServerEvent.bound 0,
         ServerEvent.contextAllocated "20240101_120000_recv.mp3".toList true,
         ServerEvent.streamCreated true, ServerEvent.fileOpened 0, ServerEvent.headerWritten 0,
         ServerEvent.packetWritten [1] 0, ServerEvent.packetWritten [2, 3] 0,
         ServerEvent.packetWritten [4] 0,
         ServerEvent.trailerWritten, ServerEvent.fileClosed, ServerEvent.contextFreed,
         ServerEvent.socketClosed] ∧
      writtenPayloads (UdpServer.iteration demoSession UdpServer.new scenarioD).events =
        [[1], [2, 3], [4]] := by
  have h := C11_session_packets_in_arrival_order demoSession UdpServer.new [[1], [2, 3], [4]] []
    (by decide) (by decide) (by decide) (by simp [SessionEnv.Succeeds, demoSession])
  have hi : UdpServer.iteration demoSession UdpServer.new scenarioD =
      IterationResult.looped { running_ := true, socket_fd_ := -1 }
        { endMarkerReceived := true, dataReceived := true, formatContext := true,
          packets := 3, events := UdpServer.recordedSession demoSession [[1], [2, 3], [4]] }
        [] := h.1
  rw [hi]
  exact ⟨by decide, h.2.1⟩

/-- C12: when the socket is created and bound and the first receive of an iteration times
out (also when no datagram arrives any more at all), the iteration ends having touched
nothing but the socket: it creates it, binds it and closes it; no output container is
allocated, no file opened, no header, packet or trailer written.  `start` then begins a new
iteration that creates a socket and binds it. -/
theorem C12_idle_timeout_opens_nothing (env : SessionEnv) (srv : UdpServer)
    (rest : List RecvEvent) (hs : 0 ≤ env.socket) (hb : 0 ≤ env.bind) :
    UdpServer.iteration env srv (RecvEvent.timeout :: rest) =
        IterationResult.looped { running_ := true, socket_fd_ := -1 }
          { endMarkerReceived := true, dataReceived := false, formatContext := false,
            packets := 0,
            events := [ServerEvent.socketCreated env.socket, ServerEvent.bound env.bind,
              ServerEvent.socketClosed] }
          rest ∧
      UdpServer.iteration env srv [] =
        IterationResult.looped { running_ := true, socket_fd_ := -1 }
          { endMarkerReceived := true, dataReceived := false, formatContext := false,
            packets := 0,
            events := [ServerEvent.socketCreated env.socket, ServerEvent.bound env.bind,
              ServerEvent.socketClosed] }
          [] ∧
      (∀ e ∈ (UdpServer.iteration env srv (RecvEvent.timeout :: rest)).events,
        e.onContainer = false) ∧
      ∀ (envs : Nat → SessionEnv) (k fuel : Nat) (trace : List ServerEvent), envs k = env →
        ∃ more,
          (UdpServer.start envs (fuel + 2) k srv trace (RecvEvent.timeout :: rest)).trace =
            trace ++ [ServerEvent.socketCreated env.socket, ServerEvent.bound env.bind,
                ServerEvent.socketClosed] ++
              ServerEvent.socketCreated (envs (k + 1)).socket :: more ∧
          (0 ≤ (envs (k + 1)).socket →
            ∃ more2, more = ServerEvent.bound (envs (k + 1)).bind :: more2) := by
  have hit := UdpServer.iteration_idle env srv RecvEvent.timeout rest (Or.inl rfl) hs hb
  refine ⟨hit, UdpServer.iteration_silent env srv hs hb, ?_, ?_⟩
  · rw [hit]
    intro e he
    simp only [IterationResult.events, UdpServer.idleSession, List.mem_cons,
      List.mem_singleton, List.not_mem_nil, or_false] at he
    rcases he with rfl | rfl | rfl <;> rfl
  · intro envs k fuel trace hk
    subst hk
    exact UdpServer.start_rebinds envs fuel k srv _ trace _ rest _ hit

/-- C12, witness: nothing arrives during two inactivity windows; `start` creates, binds and
closes a socket in each of the two iterations and touches no container. -/
theorem C12_witness :
    (UdpServer.start (fun _ => demoSession) 2 0 UdpServer.new []
        [RecvEvent.timeout, RecvEvent.timeout]).trace =
      [ServerEvent.socketCreated 3, ServerEvent.bound 0, ServerEvent.socketClosed,
       ServerEvent.socketCreated 3, ServerEvent.bound 0, ServerEvent.socketClosed] ∧
    ∀ e ∈ (UdpServer.iteration demoSession UdpServer.new
        [RecvEvent.timeout, RecvEvent.timeout]).events, e.onContainer = false :=
  ⟨by decide,
   (C12_idle_timeout_opens_nothing demoSession UdpServer.new [RecvEvent.timeout]
      (by decide) (by decide)).2.2.1⟩

/-- C13: in an environment where the socket, the bind and the set-up of the output container
succeed, a session that has received `n ≥ 1` nonempty datagrams and then meets the receive
timeout ends exactly as on the zero-length end marker: the container holds the header,
then exactly the packets received so far in arrival order, then the trailer; the file is
closed, the container freed and the socket closed.  The datagrams that arrive later are
left to the next iteration, which `start` begins by creating and binding a new socket. -/
theorem C13_timeout_ends_session_like_end_marker (env : SessionEnv) (srv : UdpServer)
    (ps : List (List Nat)) (rest : List RecvEvent)
    (hn : 1 ≤ ps.length) (hne : ∀ p ∈ ps, p ≠ []) (henv : env.Succeeds) :
    UdpServer.iteration env srv (ps.map RecvEvent.datagram ++ RecvEvent.timeout :: rest) =
        IterationResult.looped { running_ := true, socket_fd_ := -1 }
          { endMarkerReceived := true, dataReceived := true, formatContext := true,
            packets := ps.length,
            events := UdpServer.recordedSession env (ps.map UdpServer.recvfrom) }
          rest ∧
      UdpServer.iteration env srv (ps.map RecvEvent.datagram ++ RecvEvent.timeout :: rest) =
        UdpServer.iteration env srv
          (ps.map RecvEvent.datagram ++ RecvEvent.datagram [] :: rest) ∧
      writtenPayloads (UdpServer.recordedSession env (ps.map UdpServer.recvfrom)) =
        ps.map UdpServer.recvfrom ∧
      ∀ (envs : Nat → SessionEnv) (k fuel : Nat) (trace : List ServerEvent), envs k = env →
        ∃ more,
          (UdpServer.start envs (fuel + 2) k srv trace
              (ps.map RecvEvent.datagram ++ RecvEvent.timeout :: rest)).trace =
            trace ++ UdpServer.recordedSession env (ps.map UdpServer.recvfrom) ++
              ServerEvent.socketCreated (envs (k + 1)).socket :: more ∧
          (0 ≤ (envs (k + 1)).socket →
            ∃ more2, more = ServerEvent.bound (envs (k + 1)).bind :: more2) := by
  have hps : ps ≠ [] := by
    intro h
    rw [h] at hn
    simp at hn
  have hrecv : ∀ q ∈ ps, UdpServer.recvfrom q ≠ [] :=
    fun q hq => UdpServer.recvfrom_ne_nil q (hne q hq)
  have hit := UdpServer.iteration_session env srv ps RecvEvent.timeout rest (Or.inl rfl)
    hps hrecv henv
  have hit2 := UdpServer.iteration_session env srv ps (RecvEvent.datagram []) rest
    (Or.inr rfl) hps hrecv henv
  refine ⟨hit, hit.trans hit2.symm, (UdpServer.recordedSession_spec env _).1, ?_⟩
  intro envs k fuel trace hk
  subst hk
  exact UdpServer.start_rebinds envs fuel k srv _ trace _ rest _ hit

/-- C13, witness: two datagrams, then the timeout, then a datagram of a later session: the
first container holds the two packets and is closed; the late datagram goes to a new
container opened by the next iteration. -/
theorem C13_witness :
    (UdpServer.iteration demoSession UdpServer.new scenarioTimeout).events =
        [ServerEvent.socketCreated 3, ServerEvent.bound 0,
         ServerEvent.contextAllocated "20240101_120000_recv.mp3".toList true,
         ServerEvent.streamCreated true, ServerEvent.fileOpened 0, ServerEvent.headerWritten 0,
         ServerEvent.packetWritten [1] 0, ServerEvent.packetWritten [2, 3] 0,
         ServerEvent.trailerWritten, ServerEvent.fileClosed, ServerEvent.contextFreed,
         ServerEvent.socketClosed] ∧
      UdpServer.iteration demoSession UdpServer.new scenarioTimeout =
        UdpServer.iteration demoSession UdpServer.new
          [RecvEvent.datagram [1], RecvEvent.datagram [2, 3], RecvEvent.datagram [],
           RecvEvent.datagram [9]] := by
  have h := C13_timeout_ends_session_like_end_marker demoSession UdpServer.new [[1], [2, 3]]
    [RecvEvent.datagram [9]] (by decide) (by decide)
    (by simp [SessionEnv.Succeeds, demoSession])
  have hi : UdpServer.iteration demoSession UdpServer.new scenarioTimeout =
      IterationResult.looped { running_ := true, socket_fd_ := -1 }
        { endMarkerReceived := true, dataReceived := true, formatContext := true,
          packets := 2,
          events := UdpServer.recordedSession demoSession
            ([[1], [2, 3]].map UdpServer.recvfrom) }
        [RecvEvent.datagram [9]] := h.1
  refine ⟨?_, h.2.1⟩
  rw [hi]
  decide

/-- C14, counterexample: the first datagram of the iteration is the zero-length one.  The
receiver takes it for the end marker: the iteration ends at once, no output file is opened
and no header is written, although a datagram has arrived in Idle. -/
theorem C14_empty_first_datagram_opens_no_file :
    (UdpServer.iteration demoSession UdpServer.new emptyFirst).events =
        [ServerEvent.socketCreated 3, ServerEvent.bound 0, ServerEvent.socketClosed] ∧
      headerCount (UdpServer.iteration demoSession UdpServer.new emptyFirst).events = 0 := by
  decide

/-- C14, amended: in every iteration of `UdpServer::start`, whatever the environment and
the events received, no packet is written before a header has been written with success
and the header is written at most once.  When the first datagram is nonempty and the
set-up of the container succeeds, the record of the iteration begins with the socket, the
bind, the container set-up ending in the header, and then the first packet, and the header
is written exactly once.  When the first datagram is the zero-length one, the iteration
touches nothing but the socket. -/
theorem C14_header_once_before_first_packet (env : SessionEnv) (srv : UdpServer)
    (evs : List RecvEvent) :
    (∀ t1 p r t2,
        (UdpServer.iteration env srv evs).events = t1 ++ ServerEvent.packetWritten p r :: t2 →
        ∃ h : Int, 0 ≤ h ∧ ServerEvent.headerWritten h ∈ t1) ∧
      headerCount (UdpServer.iteration env srv evs).events ≤ 1 ∧
      (∀ p rest, evs = RecvEvent.datagram p :: rest → p ≠ [] → env.Succeeds →
        ∃ more,
          (UdpServer.iteration env srv evs).events =
            [ServerEvent.socketCreated env.socket, ServerEvent.bound env.bind,
             ServerEvent.contextAllocated (UdpServer.generateOutputFileName env.timestamp) true,
             ServerEvent.streamCreated true, ServerEvent.fileOpened env.avio_open,
             ServerEvent.headerWritten env.write_header,
             ServerEvent.packetWritten (UdpServer.recvfrom p)
               (env.av_write_frame 0 (UdpServer.recvfrom p))] ++ more ∧
          headerCount (UdpServer.iteration env srv evs).events = 1) ∧
      (∀ rest, evs = RecvEvent.datagram [] :: rest → 0 ≤ env.socket → 0 ≤ env.bind →
        (UdpServer.iteration env srv evs).events =
          [ServerEvent.socketCreated env.socket, ServerEvent.bound env.bind,
           ServerEvent.socketClosed]) := by
  have hpost := UdpServer.iteration_post env srv evs
  refine ⟨hpost.1, hpost.2, ?_, ?_⟩
  · intro p rest hev hp henv
    subst hev
    have hfirst := UdpServer.receive_first env { running_ := true, socket_fd_ := env.socket }
      { endMarkerReceived := false, dataReceived := false, formatContext := false,
        packets := 0,
        events := [ServerEvent.socketCreated env.socket, ServerEvent.bound env.bind] }
      p (UdpServer.recvfrom_ne_nil p hp) rfl henv
    have hpre := ((UdpServer.receiveLoop_extends env rest
        { running_ := true, socket_fd_ := env.socket }
        { endMarkerReceived := false, dataReceived := true, formatContext := true,
          packets := 0 + 1,
          events := [ServerEvent.socketCreated env.socket, ServerEvent.bound env.bind] ++
            UdpServer.openedEvents env ++
            [ServerEvent.packetWritten (UdpServer.recvfrom p)
              (env.av_write_frame 0 (UdpServer.recvfrom p))] }).trans
      (UdpServer.closeOutput_extends env _)).trans
      (UdpServer.closeSocket_extends
        (UdpServer.receiveLoop env rest { running_ := true, socket_fd_ := env.socket }
          { endMarkerReceived := false, dataReceived := true, formatContext := true,
            packets := 0 + 1,
            events := [ServerEvent.socketCreated env.socket, ServerEvent.bound env.bind] ++
              UdpServer.openedEvents env ++
              [ServerEvent.packetWritten (UdpServer.recvfrom p)
                (env.av_write_frame 0 (UdpServer.recvfrom p))] }).1 _)
    obtain ⟨t, ht⟩ := hpre
    have hev : (UdpServer.iteration env srv (RecvEvent.datagram p :: rest)).events =
        [ServerEvent.socketCreated env.socket, ServerEvent.bound env.bind,
         ServerEvent.contextAllocated (UdpServer.generateOutputFileName env.timestamp) true,
         ServerEvent.streamCreated true, ServerEvent.fileOpened env.avio_open,
         ServerEvent.headerWritten env.write_header,
         ServerEvent.packetWritten (UdpServer.recvfrom p)
           (env.av_write_frame 0 (UdpServer.recvfrom p))] ++ t := by
      rw [UdpServer.iteration_bound env srv _ henv.1 henv.2.1,
        UdpServer.receiveLoop_cons env _ rest _ _ _ _ rfl rfl hfirst]
      simp only [IterationResult.events]
      rw [← ht]
      simp [UdpServer.openedEvents]
    refine ⟨t, hev, ?_⟩
    have hle := hpost.2
    rw [hev] at hle ⊢
    rw [headerCount_append] at hle ⊢
    have h1 : headerCount
        [ServerEvent.socketCreated env.socket, ServerEvent.bound env.bind,
         ServerEvent.contextAllocated (UdpServer.generateOutputFileName env.timestamp) true,
         ServerEvent.streamCreated true, ServerEvent.fileOpened env.avio_open,
         ServerEvent.headerWritten env.write_header,
         ServerEvent.packetWritten (UdpServer.recvfrom p)
           (env.av_write_frame 0 (UdpServer.recvfrom p))] = 1 := by
      simp [headerCount, ServerEvent.isHeader]
    rw [h1] at hle ⊢
    omega
  · intro rest hev hs hb
    subst hev
    rw [UdpServer.iteration_idle env srv _ rest (Or.inr rfl) hs hb]
    rfl

/-- C14, witness: the first datagram `[1]` opens the file and the header is written once,
before the packet. -/
theorem C14_witness :
    ∃ more,
      (UdpServer.iteration demoSession UdpServer.new scenarioD).events =
        [ServerEvent.socketCreated 3, ServerEvent.bound 0,
         ServerEvent.contextAllocated "20240101_120000_recv.mp3".toList true,
         ServerEvent.streamCreated true, ServerEvent.fileOpened 0, ServerEvent.headerWritten 0,
         ServerEvent.packetWritten [1] 0] ++ more ∧
      headerCount (UdpServer.iteration demoSession UdpServer.new scenarioD).events = 1 :=
  (C14_header_once_before_first_packet demoSession UdpServer.new scenarioD).2.2.1 [1]
    [RecvEvent.datagram [2, 3], RecvEvent.datagram [4], RecvEvent.datagram []] rfl (by decide)
    (by simp [SessionEnv.Succeeds, demoSession])

/-! ## The resampler -/

/-- For a positive divisor the rounded-up quotient is the least integer whose product with
the divisor reaches the numerator. -/
theorem av_rescale_rnd_up_spec (a b c : Int) (hc : 0 < c) :
    a * b ≤ av_rescale_rnd_up a b c * c ∧ av_rescale_rnd_up a b c * c < a * b + c ∧
      ∀ d : Int, a * b ≤ d * c → av_rescale_rnd_up a b c ≤ d := by
  unfold av_rescale_rnd_up
  have h1 := Int.ediv_add_emod (a * b + (c - 1)) c
  have h2 := Int.emod_nonneg (a * b + (c - 1)) (ne_of_gt hc)
  have h3 := Int.emod_lt_of_pos (a * b + (c - 1)) hc
  have h4 : (a * b + (c - 1)) / c * c = c * ((a * b + (c - 1)) / c) := Int.mul_comm _ _
  refine ⟨by linarith, by linarith, ?_⟩
  intro d hd
  by_contra hlt
  have h5 : d + 1 ≤ (a * b + (c - 1)) / c := by omega
  have h6 : (d + 1) * c ≤ (a * b + (c - 1)) / c * c := Int.mul_le_mul_of_nonneg_right h5 (le_of_lt hc)
  have h7 : (d + 1) * c = d * c + c := by ring
  linarith

theorem toInt32_of_fits (x : Int) (h1 : -2147483648 ≤ x) (h2 : x ≤ 2147483647) :
    toInt32 x = x := by
  unfold toInt32
  omega

/-- C15, counterexample: a frame of 400000000 samples at 8000 Hz with no pending delay.  The
rounded-up quotient is 2400000000, which does not fit the `int` it is stored in:
`dst_nb_samples` is -1894967296, smaller than the exact quotient. -/
theorem C15_count_wraps_when_it_does_not_fit :
    av_rescale_rnd_up (0 + 400000000) 48000 8000 = 2400000000 ∧
      Resampler.dstNbSamples 0 8000 400000000 = -1894967296 ∧
      ¬ ((0 + 400000000) * 48000 ≤ Resampler.dstNbSamples 0 8000 400000000 * 8000) := by
  decide

/-- C15, amended: for every input frame with sample rate `Rin > 0`, `input_samples ≥ 0` and
pending delay `≥ 0` such that the rounded-up quotient fits an `int` (it is at most
`2 ^ 31 - 1`), `resampleFrame` computes the output count `d` as
`ceil((pending_delay + input_samples) * 48000 / Rin)`: `d * Rin` reaches the product, `d` is
the least such integer, `d` exceeds the exact quotient by less than one, and for
`Rin = 48000` it is `pending_delay + input_samples`.  That count is the room `resampleFrame`
offers to `swr_convert`. -/
theorem C15_output_count_is_ceiling (delay sample_rate nb_samples : Int)
    (hr : 0 < sample_rate) (hn : 0 ≤ nb_samples) (hd : 0 ≤ delay)
    (hfit : (delay + nb_samples) * 48000 ≤ 2147483647 * sample_rate) :
    (delay + nb_samples) * 48000 ≤
        Resampler.dstNbSamples delay sample_rate nb_samples * sample_rate ∧
      (∀ d : Int, (delay + nb_samples) * 48000 ≤ d * sample_rate →
        Resampler.dstNbSamples delay sample_rate nb_samples ≤ d) ∧
      Resampler.dstNbSamples delay sample_rate nb_samples * sample_rate <
        (delay + nb_samples) * 48000 + sample_rate ∧
      (sample_rate = 48000 →
        Resampler.dstNbSamples delay sample_rate nb_samples = delay + nb_samples) ∧
      ∀ (swr : Swr) (rs : Resampler) (old : ResampledFrame),
        rs.swrContext_ = true → rs.resampledFrame_ = some old →
        swr.get_delay rs.calls sample_rate = delay →
        swr.get_buffer (Resampler.dstNbSamples delay sample_rate nb_samples) = true →
        (Resampler.resampleFrame swr rs (some ⟨sample_rate, nb_samples⟩)).2.calls =
          rs.calls ++
            [{ out_count := Resampler.dstNbSamples delay sample_rate nb_samples,
               in_count := some nb_samples }] := by
  obtain ⟨h1, h2, h3⟩ := av_rescale_rnd_up_spec (delay + nb_samples) 48000 sample_rate hr
  have hle : av_rescale_rnd_up (delay + nb_samples) 48000 sample_rate ≤ 2147483647 :=
    h3 2147483647 hfit
  have hge : 0 ≤ av_rescale_rnd_up (delay + nb_samples) 48000 sample_rate := by
    by_contra hneg
    have h4 : av_rescale_rnd_up (delay + nb_samples) 48000 sample_rate ≤ -1 := by omega
    have h5 : av_rescale_rnd_up (delay + nb_samples) 48000 sample_rate * sample_rate ≤
        -1 * sample_rate := Int.mul_le_mul_of_nonneg_right h4 (le_of_lt hr)
    have h6 : 0 ≤ (delay + nb_samples) * 48000 := by positivity
    linarith
  have hd32 : Resampler.dstNbSamples delay sample_rate nb_samples =
      av_rescale_rnd_up (delay + nb_samples) 48000 sample_rate := by
    unfold Resampler.dstNbSamples
    exact toInt32_of_fits _ (by omega) hle
  rw [hd32]
  refine ⟨h1, h3, h2, ?_, ?_⟩
  · intro h48
    subst h48
    unfold av_rescale_rnd_up
    omega
  · intro swr rs old hctx hframe hdelay hbuf
    rw [← hd32] at hbuf ⊢
    unfold Resampler.resampleFrame
    simp only [hctx, hframe, hdelay, hbuf]
    by_cases hret : swr.convert rs.calls
        { out_count := Resampler.dstNbSamples delay sample_rate nb_samples,
          in_count := some nb_samples } < 0 <;> simp [hret]

/-- C15, witness: 1024 samples at 44100 Hz with 16 samples pending give 1132 output samples,
the rounding up of 1131.97. -/
theorem C15_witness :
    Resampler.dstNbSamples 16 44100 1024 = 1132 ∧
      (16 + 1024) * 48000 ≤ Resampler.dstNbSamples 16 44100 1024 * 44100 ∧
      Resampler.dstNbSamples 16 44100 1024 * 44100 < (16 + 1024) * 48000 + 44100 :=
  have h := C15_output_count_is_ceiling 16 44100 1024 (by decide) (by decide) (by decide)
    (by decide)
  ⟨by decide, h.1, h.2.2.1⟩

/-- C16: what the code does on a frame of 500 samples followed by a frame of 600 samples at
48000 Hz, with a converter that returns every sample at once.  The buffer is allocated for
1024 samples; the first call needs 500 and keeps it, leaving `nb_samples = 500`; the second
call needs 600, which the buffer could hold, yet 600 exceeds `nb_samples`, so the buffer is
freed and a buffer of 600 samples is allocated: the capacity goes from 1024 down to 600. -/
theorem C16_capacity_decreases :
    (demoResampler (latencySwr 0)).capacity = 1024 ∧
      (Resampler.resampleFrames (latencySwr 0) (demoResampler (latencySwr 0))
        [⟨48000, 500⟩]).resampledFrame_ =
          some { nb_samples := 500, capacity := 1024, pts := 0 } ∧
      (Resampler.resampleFrames (latencySwr 0) (demoResampler (latencySwr 0))
        [⟨48000, 500⟩, ⟨48000, 600⟩]).resampledFrame_ =
          some { nb_samples := 600, capacity := 600, pts := 0 } := by
  decide

/-- C17: what the code does after one frame of 26 samples at 48000 Hz, with a converter
that holds back 16 samples.  `resampleFrame` returns 10 samples and leaves
`nb_samples = 10`; the first `flushResampler` offers room for 10 samples only and returns
10 of the 16 samples still held; the second `flushResampler` returns the other 6 instead
of a null pointer. -/
theorem C17_second_flush_returns_samples :
    (Resampler.resampleFrame (latencySwr 16) (demoResampler (latencySwr 16))
        (some ⟨48000, 26⟩)).1.map ResampledFrame.nb_samples = some 10 ∧
      (Resampler.flushResampler (latencySwr 16)
        (Resampler.resampleFrame (latencySwr 16) (demoResampler (latencySwr 16))
          (some ⟨48000, 26⟩)).2).1.map ResampledFrame.nb_samples = some 10 ∧
      (Resampler.flushResampler (latencySwr 16)
        (Resampler.flushResampler (latencySwr 16)
          (Resampler.resampleFrame (latencySwr 16) (demoResampler (latencySwr 16))
            (some ⟨48000, 26⟩)).2).2).1.map ResampledFrame.nb_samples = some 6 := by
  decide

/-! ## Target sample format and output file name -/

/-- C18: what the code does for a FLAC input.  The target format given to the resampler is
computed from the codec of the input stream and is FLTP, while the MP3 encoder is opened
with S16P. -/
theorem C18_flac_input_resampled_to_fltp :
    AudioProcessor.targetSampleFormat AVCodecID.FLAC = AVSampleFormat.FLTP ∧
      (AudioProcessor.processAudio scenarioB 5).map
          (fun r => (r.ap.resamplerFormat, r.ap.frameEncoder_.sample_fmt)) =
        some (some AVSampleFormat.FLTP, some AVSampleFormat.S16P) := by
  decide

theorem find_last_of_none (s chars : List Char) (h : ∀ c ∈ s, c ∉ chars) :
    find_last_of s chars = none := by
  induction s with
  | nil => rfl
  | cons c s ih =>
      have hc : c ∉ chars := h c (List.mem_cons_self _ _)
      simp [find_last_of, ih (fun d hd => h d (List.mem_cons_of_mem _ hd)), hc]

theorem find_last_of_last (dir comp chars : List Char) (sep : Char) (hs : sep ∈ chars)
    (h : ∀ c ∈ comp, c ∉ chars) :
    find_last_of (dir ++ sep :: comp) chars = some dir.length := by
  induction dir with
  | nil => simp [find_last_of, find_last_of_none comp chars h, hs]
  | cons d dir ih => simp [find_last_of, ih]

/-- C19: `generateOutputFileName` returns `<base>_48000.<ext>`, where `<base>` is the last
component of the input path (what follows its last `/` or `\`, the whole path when it has
neither) without its last `.`-extension (the whole component when it has no `.`), and
`<ext>` is `wav` for PCM_S16LE, `aac` for AAC, `flac` for FLAC, `ogg` for VORBIS and `mp3`
for MP3 and every other codec. -/
theorem C19_output_file_name (path comp base : List Char) (codecId : AVCodecID)
    (hc : IsLastComponent path comp) (hb : IsBaseName comp base) :
    generateOutputFileName path codecId =
      base ++ "_48000.".toList ++ (specExtension codecId).toList := by
  have hfile : (match find_last_of path ['/', '\\'] with
      | some slashPos => path.drop (slashPos + 1)
      | none => path) = comp := by
    obtain ⟨hno, rfl | ⟨dir, sep, hsep, rfl⟩⟩ := hc
    · rw [find_last_of_none path _ (fun c hcm => by
        have := hno c hcm
        simp [this.1, this.2])]
    · rw [find_last_of_last dir comp _ sep (by rcases hsep with rfl | rfl <;> simp)
        (fun c hcm => by
          have := hno c hcm
          simp [this.1, this.2])]
      simp
  have hbase : (match find_last_of comp ['.'] with
      | some dotPos => comp.take dotPos
      | none => comp) = base := by
    rcases hb with ⟨rfl, hdot⟩ | ⟨ext, hdot, rfl⟩
    · rw [find_last_of_none comp _ (fun c hcm => by
        have hne : c ≠ '.' := fun h => hdot (h ▸ hcm)
        simp [hne])]
    · rw [find_last_of_last base ext _ '.' (by simp) (fun c hcm => by
        have hne : c ≠ '.' := fun h => hdot (h ▸ hcm)
        simp [hne])]
      simp
  unfold generateOutputFileName
  simp only [hfile, hbase]
  cases codecId <;> simp [specExtension]

/-- C19, witness: `/a/b/song.flac` with MP3 gives `song_48000.mp3`. -/
theorem C19_witness :
    generateOutputFileName "/a/b/song.flac".toList AVCodecID.MP3 = "song_48000.mp3".toList :=
  C19_output_file_name "/a/b/song.flac".toList "song.flac".toList "song".toList AVCodecID.MP3
    ⟨by decide, Or.inr ⟨"/a/b".toList, '/', Or.inl rfl, rfl⟩⟩
    (Or.inr ⟨"flac".toList, by decide, rfl⟩)

/-! ## The content of the blocks and of the carried remainder -/

theorem chunkSamples_append (a b : List AVFrame) :
    chunkSamples (a ++ b) = chunkSamples a ++ chunkSamples b := by
  induction a with
  | nil => rfl
  | cons f t ih => simp [chunkSamples, ih]

/-- What `Fed` says of the samples emitted and carried: together they are the samples fed,
the emitted ones fill whole blocks and fewer than a block is carried. -/
theorem FrameEncoder.Fed.content {F : Nat} {fe : FrameEncoder} {X : List Sample}
    (hpos : 0 < F) (h : FrameEncoder.Fed F fe X) :
    sentSamples fe.sent ++ fe.carried = X ∧
      (sentSamples fe.sent).length = X.length / F * F ∧
      fe.carried.length = X.length % F ∧
      fe.bufferedSamples_ = ((X.length % F : Nat) : Int) := by
  obtain ⟨_, ⟨hnone, hbs, hsent, hX⟩ | ⟨b, r, hb, hlen, hr, hrF, hblocks, hsamples⟩⟩ := h
  · subst hX
    simp [FrameEncoder.carried, hnone, hsent, sentSamples, hbs]
  · have hcar : fe.carried = b.data.take r := by
      simp [FrameEncoder.carried, hb, hr]
    have hcl : fe.carried.length = r := by
      rw [hcar, List.length_take]
      omega
    have hsl := sentSamples_length F _ hblocks
    have hN : X.length = fe.sent.length * F + r := by
      rw [← hsamples, List.length_append, hsl, List.length_take]
      omega
    have hdiv : X.length / F = fe.sent.length := by
      rw [hN, Nat.add_comm, Nat.add_mul_div_right _ _ hpos, Nat.div_eq_of_lt hrF, Nat.zero_add]
    have hmod : X.length % F = r := by
      rw [hN, Nat.add_comm, Nat.add_mul_mod_self_right, Nat.mod_eq_of_lt hrF]
    refine ⟨by rw [hcar]; exact hsamples, by rw [hsl, hdiv], by rw [hcl, hmod], by rw [hr, hmod]⟩

/-- C21: for every frameSize > 0 and every sequence of chunks with N samples in total fed to
a fresh encoder through `encodeFrame`, all encoder calls succeeding, every call returns 0,
the samples of the blocks handed to the encoder, concatenated, are exactly the first
floor(N / frameSize) * frameSize samples of the concatenated input, and the first
`bufferedSamples_` samples of the buffer are exactly the remaining N mod frameSize input
samples, in order; feeding one more chunk leaves blocks and remainder that together are the
blocks and remainder held before, followed by the samples of that chunk. -/
theorem C21_blocks_and_remainder_are_the_input (c : Codec) (codecId : AVCodecID)
    (chunks : List AVFrame) (fuel : Nat)
    (hpos : 0 < c.frame_size) (hok : c.Succeeds)
    (hfuel : ∀ f ∈ chunks, f.data.length < fuel) :
    ∃ fe', (FrameEncoder.new.initializeEncoder codecId true true true).2.encodeFrames
        c fuel chunks = some (0, fe') ∧
      sentSamples fe'.sent =
        (chunkSamples chunks).take
          ((totalSamples chunks / c.frame_size).toNat * c.frame_size.toNat) ∧
      fe'.carried =
        (chunkSamples chunks).drop
          ((totalSamples chunks / c.frame_size).toNat * c.frame_size.toNat) ∧
      (fe'.carried.length : Int) = totalSamples chunks % c.frame_size ∧
      fe'.bufferedSamples_ = totalSamples chunks % c.frame_size ∧
      ∀ f : AVFrame, f.data.length < fuel →
        ∃ fe'', (FrameEncoder.new.initializeEncoder codecId true true true).2.encodeFrames
            c fuel (chunks ++ [f]) = some (0, fe'') ∧
          sentSamples fe''.sent ++ fe''.carried =
            sentSamples fe'.sent ++ fe'.carried ++ f.data := by
  obtain ⟨F, hF⟩ : ∃ F : Nat, c.frame_size = F := ⟨c.frame_size.toNat, by omega⟩
  have hFpos : 0 < F := by omega
  obtain ⟨fe', hrun, hfed⟩ :=
    FrameEncoder.encodeFrames_spec c F hF hFpos hok fuel chunks _ []
      hfuel (FrameEncoder.fed_new F codecId)
  rw [List.nil_append] at hfed
  obtain ⟨hall, hlen, hcar, hbs⟩ := hfed.content hFpos
  have hidx : (totalSamples chunks / c.frame_size).toNat * c.frame_size.toNat =
      (sentSamples fe'.sent).length := by
    rw [← chunkSamples_length, hF, hlen, ← Int.natCast_div, Int.toNat_natCast,
      Int.toNat_natCast]
  have hmodc : (((chunkSamples chunks).length % F : Nat) : Int) =
      totalSamples chunks % c.frame_size := by
    rw [← chunkSamples_length, hF]
    norm_cast
  refine ⟨fe', hrun, ?_, ?_, ?_, ?_, ?_⟩
  · rw [hidx, ← hall, List.take_left]
  · rw [hidx, ← hall, List.drop_left]
  · rw [hcar, hmodc]
  · rw [hbs, hmodc]
  · intro f hf
    obtain ⟨fe'', hrun2, hfed2⟩ :=
      FrameEncoder.encodeFrames_spec c F hF hFpos hok fuel (chunks ++ [f]) _ []
        (by
          intro g hg
          rcases List.mem_append.mp hg with hg | hg
          · exact hfuel g hg
          · rw [List.mem_singleton.mp hg]
            exact hf)
        (FrameEncoder.fed_new F codecId)
    rw [List.nil_append] at hfed2
    refine ⟨fe'', hrun2, ?_⟩
    rw [(hfed2.content hFpos).1, hall, chunkSamples_append]
    simp [chunkSamples]

/-- C21, witness: at frameSize 4 the chunks [1,2,3] and [4,5,6] give the block [1,2,3,4] and
leave [5,6] carried. -/
theorem C21_witness :
    ∃ fe', (FrameEncoder.new.initializeEncoder AVCodecID.MP3 true true true).2.encodeFrames
        (demoCodec 4) 10 [⟨[1, 2, 3], 0, 48000⟩, ⟨[4, 5, 6], 0, 48000⟩] = some (0, fe') ∧
      sentSamples fe'.sent = [1, 2, 3, 4] ∧ fe'.carried = [5, 6] := by
  obtain ⟨fe', h1, h2, h3, _⟩ := C21_blocks_and_remainder_are_the_input (demoCodec 4)
    AVCodecID.MP3 [⟨[1, 2, 3], 0, 48000⟩, ⟨[4, 5, 6], 0, 48000⟩] 10 (by decide)
    ⟨rfl, fun _ => ⟨rfl, rfl⟩⟩ (by decide)
  refine ⟨fe', h1, ?_, ?_⟩
  · rw [h2]
    decide
  · rw [h3]
    decide

/-! ## The timestamps of the blocks -/

theorem sentPts_append (a b : List (Option AVFrame)) :
    sentPts (a ++ b) = sentPts a ++ sentPts b := by
  induction a with
  | nil => rfl
  | cons x t ih => cases x <;> simp [sentPts, ih]

theorem blockOffsets_succ (F r : Int) (m : Nat) :
    blockOffsets F r (m + 1) = blockOffsets F r m ++ [(m : Int) * F - r] := by
  simp [blockOffsets, List.range_succ]

namespace FrameEncoder

/-- The send and the receive loop record the frame sent and leave the buffer frame and the
offsets alone. -/
theorem sendAndReceive_sent (c : Codec) (fe : FrameEncoder) (out : OutputSlot)
    (frame : Option AVFrame) :
    (fe.sendAndReceive c out frame).2.1.sent = fe.sent ++ [frame] ∧
    (fe.sendAndReceive c out frame).2.1.rescaled = fe.rescaled ∧
    (fe.sendAndReceive c out frame).2.1.bufferFrame_ = fe.bufferFrame_ := by
  simp only [sendAndReceive]
  split <;> simp [receivePackets_eq]

/-- What `encodeBuffer` records: the offset `samplesProcessed - bufferedSamples_` and the
buffer frame sent with the timestamp made from it. -/
theorem encodeBuffer_sent (c : Codec) (fe : FrameEncoder) (frame : AVFrame) (sp : Int)
    (out : OutputSlot) (b : AVFrame) (hb : fe.bufferFrame_ = some b) :
    (fe.encodeBuffer c frame sp out).2.1.rescaled = fe.rescaled ++ [sp - fe.bufferedSamples_] ∧
    sentPts (fe.encodeBuffer c frame sp out).2.1.sent =
      sentPts fe.sent ++
        [frame.pts + c.av_rescale_q (sp - fe.bufferedSamples_) frame.sample_rate] ∧
    (fe.encodeBuffer c frame sp out).2.1.bufferFrame_.isSome = true := by
  simp only [encodeBuffer]
  obtain ⟨h1, h2, h3⟩ := sendAndReceive_sent c
    { fe with
      bufferFrame_ := fe.bufferFrame_.map (fun (b : AVFrame) =>
        { b with pts := frame.pts + c.av_rescale_q (sp - fe.bufferedSamples_) frame.sample_rate })
      rescaled := fe.rescaled ++ [sp - fe.bufferedSamples_] } out
    (fe.bufferFrame_.map (fun (b : AVFrame) =>
        { b with pts := frame.pts + c.av_rescale_q (sp - fe.bufferedSamples_) frame.sample_rate }))
  rw [h1, h2, h3]
  simp [hb, sentPts_append, sentPts]

/-- One loop iteration from a state with fewer than `frame_size` samples buffered, seen
through its records: when it fills the buffer it records the offset
`samplesProcessed - bufferedSamples_` (both taken on entry) and the block's timestamp. -/
theorem aggregateStep_offset (c : Codec) (frame : AVFrame) (fe : FrameEncoder) (q : Int)
    (out : OutputSlot) (b : AVFrame) (hb : fe.bufferFrame_ = some b)
    (h0 : 0 ≤ fe.bufferedSamples_) (h1 : fe.bufferedSamples_ < c.frame_size)
    (hq : q < frame.nb_samples) :
    match aggregateStep c frame fe q out with
    | Sum.inl r =>
        q + (c.frame_size - fe.bufferedSamples_) ≤ frame.nb_samples ∧ r.1 = -1 ∧
        r.2.1.rescaled = fe.rescaled ++ [q - fe.bufferedSamples_] ∧
        sentPts r.2.1.sent = sentPts fe.sent ++
          [frame.pts + c.av_rescale_q (q - fe.bufferedSamples_) frame.sample_rate]
    | Sum.inr s =>
        s.1.bufferFrame_.isSome = true ∧ 0 ≤ s.1.bufferedSamples_ ∧
        s.1.bufferedSamples_ < c.frame_size ∧ s.2.1 ≤ frame.nb_samples ∧
        ((s.1.bufferedSamples_ = 0 ∧ s.2.1 = q + (c.frame_size - fe.bufferedSamples_) ∧
            s.1.rescaled = fe.rescaled ++ [q - fe.bufferedSamples_] ∧
            sentPts s.1.sent = sentPts fe.sent ++
              [frame.pts + c.av_rescale_q (q - fe.bufferedSamples_) frame.sample_rate]) ∨
          (s.2.1 - q = s.1.bufferedSamples_ - fe.bufferedSamples_ ∧ q < s.2.1 ∧
            s.1.rescaled = fe.rescaled ∧ s.1.sent = fe.sent)) := by
  simp only [aggregateStep]
  generalize hk : min (c.frame_size - fe.bufferedSamples_) (frame.nb_samples - q) = k
  have hc1 : (fe.copySamples frame q k).bufferedSamples_ = fe.bufferedSamples_ + k := rfl
  have hc2 : (fe.copySamples frame q k).rescaled = fe.rescaled := rfl
  have hc3 : (fe.copySamples frame q k).sent = fe.sent := rfl
  have hc4 : (fe.copySamples frame q k).bufferFrame_ =
      some { b with data := av_samples_copy b.data frame.data fe.bufferedSamples_ q k } := by
    simp [copySamples, hb]
  obtain ⟨e1, e2, e3⟩ := encodeBuffer_sent c (fe.copySamples frame q k) frame (q + k) out _ hc4
  obtain ⟨_, _, e4, _⟩ := encodeBuffer_keeps c (fe.copySamples frame q k) frame (q + k) out
  have hoff : q + k - (fe.bufferedSamples_ + k) = q - fe.bufferedSamples_ := by omega
  rw [hc1, hc2, hoff] at e1
  rw [hc1, hc3, hoff] at e2
  split_ifs with hfull hfail
  · rw [hc1] at hfull
    exact ⟨by omega, rfl, e1, e2⟩
  · rw [hc1] at hfull
    dsimp only
    refine ⟨e3, le_refl _, by omega, by omega, Or.inl ⟨rfl, by omega, e1, e2⟩⟩
  · rw [hc1] at hfull
    dsimp only
    refine ⟨by rw [hc4]; rfl, by rw [hc1]; omega, by rw [hc1]; omega, by omega,
      Or.inr ⟨by rw [hc1]; omega, by omega, hc2, hc3⟩⟩

end FrameEncoder

namespace FrameEncoder

/-- The aggregation loop seen through its records.  Started with `r` carried samples, after
`kk` blocks, it records the offset `j * frame_size - r` and the matching timestamp for each
further block number `j + 1`; when it returns 0 the number of blocks is the quotient of
`r + nb_samples` by `frame_size`. -/
theorem aggregate_offsets (c : Codec) (frame : AVFrame) (r : Int) (R S : List Int) :
    ∀ (fuel : Nat) (fe : FrameEncoder) (q : Int) (out : OutputSlot)
      (res : Int × FrameEncoder × OutputSlot) (kk : Nat),
      fe.bufferFrame_.isSome = true → 0 ≤ fe.bufferedSamples_ →
      fe.bufferedSamples_ < c.frame_size → q ≤ frame.nb_samples →
      r + q = (kk : Int) * c.frame_size + fe.bufferedSamples_ →
      fe.rescaled = R ++ blockOffsets c.frame_size r kk →
      sentPts fe.sent = S ++ (blockOffsets c.frame_size r kk).map
        (fun off => frame.pts + c.av_rescale_q off frame.sample_rate) →
      aggregate c frame fuel fe q out = some res →
      ∃ m : Nat, res.2.1.rescaled = R ++ blockOffsets c.frame_size r m ∧
        sentPts res.2.1.sent = S ++ (blockOffsets c.frame_size r m).map
          (fun off => frame.pts + c.av_rescale_q off frame.sample_rate) ∧
        (res.1 = 0 ∨ res.1 = -1) ∧
        (res.1 = 0 → r + frame.nb_samples = (m : Int) * c.frame_size + res.2.1.bufferedSamples_ ∧
          0 ≤ res.2.1.bufferedSamples_ ∧ res.2.1.bufferedSamples_ < c.frame_size) := by
  intro fuel
  induction fuel with
  | zero => intro fe q out res kk _ _ _ _ _ _ _ h; simp [aggregate] at h
  | succ n ih =>
    intro fe q out res kk hsome h0 h1 hqn hpos hR hS h
    have hP : (((kk + 1 : Nat) : Int)) * c.frame_size = (kk : Int) * c.frame_size + c.frame_size := by
      push_cast
      ring
    have hoff : q - fe.bufferedSamples_ = (kk : Int) * c.frame_size - r := by linarith
    rw [aggregate] at h
    split_ifs at h with hq
    · obtain ⟨b, hb⟩ := Option.isSome_iff_exists.mp hsome
      have hstep := aggregateStep_offset c frame fe q out b hb h0 h1 hq
      cases hs : aggregateStep c frame fe q out with
      | inl v =>
        rw [hs] at h hstep
        simp only [Option.some.injEq] at h
        subst h
        obtain ⟨_, a1, a2, a3⟩ := hstep
        refine ⟨kk + 1, ?_, ?_, Or.inr a1, fun h0' => by rw [a1] at h0'; omega⟩
        · rw [a2, hR, blockOffsets_succ, hoff, List.append_assoc]
        · rw [a3, hS, blockOffsets_succ, hoff, List.map_append, List.append_assoc]
          rfl
      | inr s =>
        rw [hs] at h hstep
        obtain ⟨b1, b2, b3, b4, hcase⟩ := hstep
        rcases hcase with ⟨c1, c2, c3, c4⟩ | ⟨c1, c2, c3, c4⟩
        · refine ih s.1 s.2.1 s.2.2 res (kk + 1) b1 b2 b3 b4 (by rw [hP]; linarith) ?_ ?_ h
          · rw [c3, hR, blockOffsets_succ, hoff, List.append_assoc]
          · rw [c4, hS, blockOffsets_succ, hoff, List.map_append, List.append_assoc]
            rfl
        · exact ih s.1 s.2.1 s.2.2 res kk b1 b2 b3 b4 (by linarith) (by rw [c3, hR])
            (by rw [c4, hS]) h
    · simp only [Option.some.injEq] at h
      subst h
      exact ⟨kk, hR, hS, Or.inl rfl, fun _ => ⟨by
        have : q = frame.nb_samples := by omega
        rw [← this]
        exact hpos, h0, h1⟩⟩

end FrameEncoder

/-! ## Bounds of the aggregator in every reachable state -/

namespace FrameEncoder

/-- The cases of `loopEntry`: the loop is entered from the state itself when the buffer
frame exists, and from the state with a fresh buffer frame otherwise. -/
theorem loopEntry_cases (c : Codec) (fe fe0 : FrameEncoder) (frame : AVFrame)
    (h : fe.loopEntry c frame = some fe0) :
    fe.codecContext_ = true ∧ 0 < c.frame_size ∧
      ((∃ b, fe.bufferFrame_ = some b ∧ fe0 = fe) ∨
        (fe.bufferFrame_ = none ∧ c.get_buffer_ok = true ∧
          fe0 = { fe with
            bufferFrame_ := some { data := List.replicate c.frame_size.toNat 0, pts := 0,
                                   sample_rate := frame.sample_rate }
            bufferedSamples_ := 0 })) := by
  by_cases hctx : fe.codecContext_ = true
  · by_cases hfs : 0 < c.frame_size
    · refine ⟨hctx, hfs, ?_⟩
      cases hbf : fe.bufferFrame_ with
      | none =>
        cases hbuf : c.get_buffer_ok with
        | false => simp [loopEntry, hctx, hfs, hbf, hbuf] at h
        | true =>
          simp only [loopEntry, hctx, hfs, hbf, hbuf] at h
          simp only [Bool.not_true, Bool.false_eq_true, if_false, gt_iff_lt, if_true,
            Option.some.injEq] at h
          refine Or.inr ⟨rfl, rfl, ?_⟩
          rw [← h]
          cases fe
          simp_all
      | some b =>
        simp only [loopEntry, hctx, hfs, hbf] at h
        simp only [Bool.not_true, Bool.false_eq_true, if_false, gt_iff_lt, if_true,
          Option.some.injEq] at h
        exact Or.inl ⟨b, rfl, h.symm⟩
    · simp [loopEntry, hctx, hfs] at h
  · simp [loopEntry, hctx] at h

/-- `encodeFrame` on a chunk is its aggregation loop run from the entry state. -/
theorem encodeFrame_loopEntry (c : Codec) (fe fe0 : FrameEncoder) (frame : AVFrame)
    (out : OutputSlot) (h : fe.loopEntry c frame = some fe0) (fuel : Nat) :
    fe.encodeFrame c fuel (some frame) out = aggregate c frame fuel fe0 0 out := by
  obtain ⟨hctx, hfs, ⟨b, hb, he⟩ | ⟨hb, hbuf, he⟩⟩ := loopEntry_cases c fe fe0 frame h
  · rw [he]
    exact encodeFrame_buffered c fuel fe frame out hctx hfs b hb
  · rw [he]
    exact encodeFrame_alloc c fuel fe frame out hctx hfs hb hbuf

/-- An iteration that makes `encodeFrame` return makes it return -1. -/
theorem aggregateStep_inl (c : Codec) (frame : AVFrame) (fe : FrameEncoder) (q : Int)
    (out : OutputSlot) (r : Int × FrameEncoder × OutputSlot)
    (h : aggregateStep c frame fe q out = Sum.inl r) : r.1 = -1 := by
  simp only [aggregateStep] at h
  split_ifs at h
  · simp only [Sum.inl.injEq] at h
    rw [← h]

/-- `flushEncoder` leaves `bufferedSamples_` alone. -/
theorem flushEncoder_buffered (c : Codec) (fuel : Nat) (fe : FrameEncoder) (out : OutputSlot)
    (r : FrameEncoder × OutputSlot) (h : fe.flushEncoder c fuel out = some r) :
    r.1.bufferedSamples_ = fe.bufferedSamples_ := by
  simp only [flushEncoder] at h
  split_ifs at h with hctx
  · simp only [Option.some.injEq] at h
    rw [← h]
  · have hpc : (fe.flushRemaining c out).1.codecContext_ = true :=
      (flushRemaining_keeps c fe out).2.2.2.trans (by simpa using hctx)
    rw [encodeFrame_null c fuel _ _ hpc] at h
    simp only [Option.some.injEq] at h
    rw [← h]
    exact (sendAndReceive_keeps c _ _ none).2.2.1.trans (flushRemaining_keeps c fe out).2.2.1

/-- In every reachable state `bufferedSamples_` is within bounds. -/
theorem Reachable.within_bounds {c : Codec} {fe : FrameEncoder} (h : Reachable c fe) :
    Bounded c fe := by
  induction h with
  | init codecId found allocated opened =>
    intro hfs
    have : (FrameEncoder.new.initializeEncoder codecId found allocated opened).2.bufferedSamples_
        = 0 := by
      simp only [initializeEncoder, FrameEncoder.new]
      split_ifs <;> rfl
    rw [this]
    exact ⟨le_refl _, le_of_lt hfs⟩
  | setOutputFile fe created _ ih => exact ih
  | encodeFrame fe fuel frame out res _ hres ih =>
    exact (encodeFrame_keeps c fuel fe frame out res hres).1 ih
  | pop fe r _ hpop ih =>
    have : r.2.bufferedSamples_ = fe.bufferedSamples_ := by
      simp only [getNextEncodedPacket] at hpop
      split at hpop
      · exact absurd hpop (by simp)
      · simp only [Option.some.injEq] at hpop
        rw [← hpop]
    intro hfs
    rw [this]
    exact ih hfs
  | flushEncoder fe fuel out r _ hr ih =>
    intro hfs
    rw [flushEncoder_buffered c fuel fe out r hr]
    exact ih hfs
  | clearPacketQueue fe _ ih => exact ih
  | closeEncoder fe _ ih => exact ih

/-- The entry state of the aggregation loop is within bounds. -/
theorem loopEntry_bounded (c : Codec) (fe fe0 : FrameEncoder) (frame : AVFrame)
    (hb : Bounded c fe) (h : fe.loopEntry c frame = some fe0) :
    0 < c.frame_size ∧ 0 ≤ fe0.bufferedSamples_ ∧ fe0.bufferedSamples_ ≤ c.frame_size ∧
      (fe.bufferedSamples_ < c.frame_size → fe0.bufferedSamples_ < c.frame_size) := by
  obtain ⟨_, hfs, ⟨b, _, he⟩ | ⟨_, _, he⟩⟩ := loopEntry_cases c fe fe0 frame h
  · rw [he]
    exact ⟨hfs, (hb hfs).1, (hb hfs).2, fun h => h⟩
  · rw [he]
    exact ⟨hfs, le_refl _, le_of_lt hfs, fun _ => hfs⟩

/-- At every test of the loop condition the state is within bounds and `samplesProcessed`
is within the frame. -/
theorem AtLoopHead.head_bounds {c : Codec} {frame : AVFrame} {fe : FrameEncoder} {q : Int}
    {out : OutputSlot} (h : AtLoopHead c frame fe q out) :
    0 < c.frame_size ∧ 0 ≤ fe.bufferedSamples_ ∧ fe.bufferedSamples_ ≤ c.frame_size ∧
      0 ≤ q ∧ q ≤ frame.nb_samples := by
  induction h with
  | entry fe fe0 out hr he =>
    obtain ⟨a, b, d, _⟩ := loopEntry_bounded c fe fe0 frame hr.within_bounds he
    exact ⟨a, b, d, le_refl _, by simp [AVFrame.nb_samples]⟩
  | next fe q out s _ hq hs ih =>
    obtain ⟨hfs, h0, h1, hq0, _⟩ := ih
    have hstep := aggregateStep_bounds c frame fe q out hfs h0 h1 hq
    rw [hs] at hstep
    obtain ⟨a0, a1, a2, a3, _⟩ := hstep
    exact ⟨hfs, a0, le_of_lt a1, by omega, a3⟩

/-- The aggregation loop, when it returns 0 after at least one iteration or from a state
with fewer than `frame_size` samples buffered, leaves fewer than `frame_size` samples
buffered. -/
theorem aggregate_strict (c : Codec) (frame : AVFrame) (hfs : 0 < c.frame_size) :
    ∀ (fuel : Nat) (fe : FrameEncoder) (q : Int) (out : OutputSlot)
      (res : Int × FrameEncoder × OutputSlot),
      0 ≤ fe.bufferedSamples_ → fe.bufferedSamples_ ≤ c.frame_size →
      (q < frame.nb_samples ∨ fe.bufferedSamples_ < c.frame_size) →
      aggregate c frame fuel fe q out = some res → res.1 = 0 →
      res.2.1.bufferedSamples_ < c.frame_size := by
  intro fuel
  induction fuel with
  | zero => intro fe q out res _ _ _ h; simp [aggregate] at h
  | succ n ih =>
    intro fe q out res h0 h1 hor h hz
    rw [aggregate] at h
    split_ifs at h with hq
    · have hstep := aggregateStep_bounds c frame fe q out hfs h0 h1 hq
      cases hs : aggregateStep c frame fe q out with
      | inl v =>
        rw [hs] at h
        simp only [Option.some.injEq] at h
        subst h
        have := aggregateStep_inl c frame fe q out _ hs
        omega
      | inr s =>
        rw [hs] at h hstep
        obtain ⟨a0, a1, _⟩ := hstep
        exact ih _ _ _ _ a0 (le_of_lt a1) (Or.inr a1) h hz
    · simp only [Option.some.injEq] at h
      subst h
      rcases hor with hor | hor
      · exact absurd hor hq
      · exact hor

/-- A call of `encodeFrame` on a chunk that does not enter the aggregation loop although the
codec has a fixed frame size returns -1. -/
theorem encodeFrame_no_entry (c : Codec) (fuel : Nat) (fe : FrameEncoder) (frame : AVFrame)
    (out : OutputSlot) (res : Int × FrameEncoder × OutputSlot) (hfs : 0 < c.frame_size)
    (h : fe.loopEntry c frame = none) (hres : fe.encodeFrame c fuel (some frame) out = some res) :
    res.1 = -1 := by
  by_cases hctx : fe.codecContext_ = true
  · cases hbf : fe.bufferFrame_ with
    | none =>
      cases hbuf : c.get_buffer_ok with
      | false =>
        rw [encodeFrame_alloc_fails c fuel fe frame out hctx hfs hbf hbuf] at hres
        simp only [Option.some.injEq] at hres
        rw [← hres]
      | true => simp [loopEntry, hctx, hfs, hbf, hbuf] at h
    | some b => simp [loopEntry, hctx, hfs, hbf] at h
  · rw [encodeFrame_closed c fuel fe (some frame) out (by simpa using hctx)] at hres
    simp only [Option.some.injEq] at hres
    rw [← hres]

/-- A call of `encodeFrame` that returns 0, on a chunk with at least one sample or from a
state with fewer than `frame_size` samples buffered, leaves fewer than `frame_size` samples
buffered. -/
theorem encodeFrame_strict (c : Codec) (fuel : Nat) (fe : FrameEncoder)
    (frame : Option AVFrame) (out : OutputSlot) (res : Int × FrameEncoder × OutputSlot)
    (hfs : 0 < c.frame_size) (hb : Bounded c fe)
    (hres : fe.encodeFrame c fuel frame out = some res) (hz : res.1 = 0)
    (hor : (∃ f, frame = some f ∧ 0 < f.nb_samples) ∨ fe.bufferedSamples_ < c.frame_size) :
    res.2.1.bufferedSamples_ < c.frame_size := by
  cases frame with
  | none =>
    have hlt : fe.bufferedSamples_ < c.frame_size := by
      rcases hor with ⟨f, hf, _⟩ | h
      · exact absurd hf (by simp)
      · exact h
    by_cases hctx : fe.codecContext_ = true
    · rw [encodeFrame_null c fuel fe out hctx] at hres
      simp only [Option.some.injEq] at hres
      rw [← hres]
      exact lt_of_eq_of_lt (sendAndReceive_keeps c fe out none).2.2.1 hlt
    · rw [encodeFrame_closed c fuel fe none out (by simpa using hctx)] at hres
      simp only [Option.some.injEq] at hres
      rw [← hres]
      exact hlt
  | some f =>
    cases he : fe.loopEntry c f with
    | none =>
      have := encodeFrame_no_entry c fuel fe f out res hfs he hres
      omega
    | some fe0 =>
      obtain ⟨_, h0, h1, h2⟩ := loopEntry_bounded c fe fe0 f hb he
      rw [encodeFrame_loopEntry c fe fe0 f out he fuel] at hres
      refine aggregate_strict c f hfs fuel fe0 0 out res h0 h1 ?_ hres hz
      rcases hor with ⟨g, hg, hpos⟩ | h
      · simp only [Option.some.injEq] at hg
        rw [hg]
        exact Or.inl hpos
      · exact Or.inr (h2 h)

end FrameEncoder

/-! ## The storage of the buffer frame -/

/-- A copy that stays inside both buffers leaves the length of the destination alone. -/
theorem av_samples_copy_within_length (dst src : List Sample) (r q k : Int)
    (h : av_samples_copy_within dst src r q k = true) :
    (av_samples_copy dst src r q k).length = dst.length := by
  simp only [av_samples_copy_within, Bool.and_eq_true, decide_eq_true_eq] at h
  obtain ⟨⟨⟨⟨h1, h2⟩, h3⟩, h4⟩, h5⟩ := h
  simp only [av_samples_copy, List.length_append, List.length_take, List.length_drop]
  omega

/-- A copy that stays inside both buffers puts the samples copied right after the first
`dst_offset` samples of the destination. -/
theorem av_samples_copy_within_take (dst src : List Sample) (r q k : Int)
    (h : av_samples_copy_within dst src r q k = true) :
    (av_samples_copy dst src r q k).take (r + k).toNat =
      dst.take r.toNat ++ (src.drop q.toNat).take k.toNat := by
  simp only [av_samples_copy_within, Bool.and_eq_true, decide_eq_true_eq] at h
  obtain ⟨⟨⟨⟨h1, h2⟩, h3⟩, h4⟩, h5⟩ := h
  have := FrameEncoder.av_samples_copy_take dst src r.toNat q.toNat k.toNat (by omega) (by omega)
  simp only [av_samples_copy, Int.toNat_ofNat] at this ⊢
  rw [Int.toNat_add h1 h3]
  exact this

namespace FrameEncoder

/-- In a state within bounds whose buffer frame has its storage, the copy of a loop
iteration stays inside the buffer frame and the chunk. -/
theorem copyWithin_of_stored (c : Codec) (frame : AVFrame) (fe : FrameEncoder) (q : Int)
    (b : AVFrame) (hb : fe.bufferFrame_ = some b) (hlen : b.data.length = c.frame_size.toNat)
    (h0 : 0 ≤ fe.bufferedSamples_) (h1 : fe.bufferedSamples_ ≤ c.frame_size) (hq0 : 0 ≤ q)
    (hq : q < frame.nb_samples) :
    fe.copyWithin frame q
      (min (c.frame_size - fe.bufferedSamples_) (frame.nb_samples - q)) = true := by
  simp only [copyWithin, hb, av_samples_copy_within, Bool.and_eq_true, decide_eq_true_eq,
    AVFrame.nb_samples] at hq ⊢
  refine ⟨⟨⟨⟨h0, hq0⟩, ?_⟩, ?_⟩, ?_⟩ <;> omega

/-- In a state whose buffer frame has no storage, the copy of at least one sample is
outside the buffer frame. -/
theorem copyWithin_no_storage (frame : AVFrame) (fe : FrameEncoder) (q k : Int)
    (b : AVFrame) (hb : fe.bufferFrame_ = some b) (hlen : b.data = [])
    (h0 : 0 ≤ fe.bufferedSamples_) (hk : 0 < k) :
    fe.copyWithin frame q k = false := by
  rw [← Bool.not_eq_true]
  intro h
  simp only [copyWithin, hb, av_samples_copy_within, Bool.and_eq_true, decide_eq_true_eq,
    hlen, List.length_nil] at h
  omega

/-- What `encodeBuffer` sends: the buffer frame with its timestamp set, which stays the
buffer frame. -/
theorem encodeBuffer_block (c : Codec) (fe : FrameEncoder) (frame : AVFrame) (sp : Int)
    (out : OutputSlot) (b : AVFrame) (hb : fe.bufferFrame_ = some b) :
    (fe.encodeBuffer c frame sp out).2.1.sent = fe.sent ++
        [some { b with pts := frame.pts +
          c.av_rescale_q (sp - fe.bufferedSamples_) frame.sample_rate }] ∧
      (fe.encodeBuffer c frame sp out).2.1.bufferFrame_ =
        some { b with pts := frame.pts +
          c.av_rescale_q (sp - fe.bufferedSamples_) frame.sample_rate } := by
  simp only [encodeBuffer]
  obtain ⟨h1, _, h3⟩ := sendAndReceive_sent c
    { fe with
      bufferFrame_ := fe.bufferFrame_.map (fun (b : AVFrame) =>
        { b with pts := frame.pts + c.av_rescale_q (sp - fe.bufferedSamples_) frame.sample_rate })
      rescaled := fe.rescaled ++ [sp - fe.bufferedSamples_] } out
    (fe.bufferFrame_.map (fun (b : AVFrame) =>
        { b with pts := frame.pts + c.av_rescale_q (sp - fe.bufferedSamples_) frame.sample_rate }))
  rw [h1, h3]
  simp [hb]

/-- The copy of one loop iteration that stays inside the buffers: the buffer frame keeps
its length and holds, after the samples it carried, the samples copied. -/
theorem copySamples_buffer (fe : FrameEncoder) (frame : AVFrame) (q k : Int) (b : AVFrame)
    (hb : fe.bufferFrame_ = some b) (hw : fe.copyWithin frame q k = true) :
    ∃ b1, (fe.copySamples frame q k).bufferFrame_ = some b1 ∧
      b1.data.length = b.data.length ∧
      b1.data.take (fe.bufferedSamples_ + k).toNat =
        b.data.take fe.bufferedSamples_.toNat ++ (frame.data.drop q.toNat).take k.toNat := by
  simp only [copyWithin, hb] at hw
  refine ⟨{ b with data := av_samples_copy b.data frame.data fe.bufferedSamples_ q k }, ?_,
    av_samples_copy_within_length _ _ _ _ _ hw, av_samples_copy_within_take _ _ _ _ _ hw⟩
  simp [copySamples, hb]

/-- One loop iteration from a state within bounds whose buffer frame has its storage: the
buffer frame keeps its storage; either the samples copied now follow the samples carried in
the buffer, or the block sent (with success or not) is made of the samples carried followed
by the samples copied. -/
theorem aggregateStep_stored (c : Codec) (frame : AVFrame) (fe : FrameEncoder) (q : Int)
    (out : OutputSlot) (b : AVFrame) (hb : fe.bufferFrame_ = some b)
    (hlen : b.data.length = c.frame_size.toNat) (h0 : 0 ≤ fe.bufferedSamples_)
    (h1 : fe.bufferedSamples_ ≤ c.frame_size) (hq0 : 0 ≤ q) (hq : q < frame.nb_samples) :
    match aggregateStep c frame fe q out with
    | Sum.inl r =>
        ∃ blk, r.2.1.bufferFrame_ = some blk ∧ blk.data.length = c.frame_size.toNat ∧
          r.2.1.sent = fe.sent ++ [some blk] ∧
          blk.data = b.data.take fe.bufferedSamples_.toNat ++ (frame.data.drop q.toNat).take
            (min (c.frame_size - fe.bufferedSamples_) (frame.nb_samples - q)).toNat
    | Sum.inr s =>
        ∃ b1, s.1.bufferFrame_ = some b1 ∧ b1.data.length = c.frame_size.toNat ∧
          ((s.1.bufferedSamples_ = fe.bufferedSamples_ +
                min (c.frame_size - fe.bufferedSamples_) (frame.nb_samples - q) ∧
              s.1.sent = fe.sent ∧
              b1.data.take s.1.bufferedSamples_.toNat =
                b.data.take fe.bufferedSamples_.toNat ++ (frame.data.drop q.toNat).take
                  (min (c.frame_size - fe.bufferedSamples_) (frame.nb_samples - q)).toNat) ∨
            (s.1.bufferedSamples_ = 0 ∧ s.1.sent = fe.sent ++ [some b1] ∧
              b1.data = b.data.take fe.bufferedSamples_.toNat ++ (frame.data.drop q.toNat).take
                (min (c.frame_size - fe.bufferedSamples_) (frame.nb_samples - q)).toNat)) := by
  have hw := copyWithin_of_stored c frame fe q b hb hlen h0 h1 hq0 hq
  simp only [aggregateStep]
  generalize min (c.frame_size - fe.bufferedSamples_) (frame.nb_samples - q) = k at hw ⊢
  obtain ⟨b1, hb1, hl1, ht1⟩ := copySamples_buffer fe frame q k b hb hw
  obtain ⟨e1, e2⟩ := encodeBuffer_block c (fe.copySamples frame q k) frame (q + k) out b1 hb1
  have hc1 : (fe.copySamples frame q k).bufferedSamples_ = fe.bufferedSamples_ + k := rfl
  have hc2 : (fe.copySamples frame q k).sent = fe.sent := rfl
  have hfullData : fe.bufferedSamples_ + k = c.frame_size →
      b1.data = b.data.take fe.bufferedSamples_.toNat ++ (frame.data.drop q.toNat).take k.toNat := by
    intro hF
    rw [← ht1, hF, List.take_of_length_le (by omega)]
  split_ifs with hfull hfail
  · rw [hc1] at hfull
    exact ⟨_, e2, hl1.trans hlen, by rw [e1, hc2], hfullData hfull⟩
  · rw [hc1] at hfull
    exact ⟨_, e2, hl1.trans hlen, Or.inr ⟨rfl, by rw [e1, hc2], hfullData hfull⟩⟩
  · exact ⟨b1, hb1, hl1.trans hlen, Or.inl ⟨rfl, rfl, ht1⟩⟩

/-- From a state within bounds whose buffer frame has its storage, every copy of the
aggregation loop stays inside the buffer frame and the chunk. -/
theorem aggregateWithin_of_stored (c : Codec) (frame : AVFrame) (hfs : 0 < c.frame_size) :
    ∀ (fuel : Nat) (fe : FrameEncoder) (q : Int) (out : OutputSlot) (b : AVFrame),
      fe.bufferFrame_ = some b → b.data.length = c.frame_size.toNat →
      0 ≤ fe.bufferedSamples_ → fe.bufferedSamples_ ≤ c.frame_size → 0 ≤ q →
      aggregateWithin c frame fuel fe q out = true := by
  intro fuel
  induction fuel with
  | zero => intro fe q out b _ _ _ _ _; rfl
  | succ n ih =>
    intro fe q out b hb hlen h0 h1 hq0
    rw [aggregateWithin]
    split_ifs with hq
    · rw [copyWithin_of_stored c frame fe q b hb hlen h0 h1 hq0 hq, Bool.true_and]
      have hs := aggregateStep_stored c frame fe q out b hb hlen h0 h1 hq0 hq
      have hbd := aggregateStep_bounds c frame fe q out hfs h0 h1 hq
      cases hstep : aggregateStep c frame fe q out with
      | inl r => rfl
      | inr s =>
        rw [hstep] at hs hbd
        obtain ⟨b1, hb1, hl1, _⟩ := hs
        exact ih s.1 s.2.1 s.2.2 b1 hb1 hl1 hbd.1 (le_of_lt hbd.2.1) (by omega)
    · rfl

/-- The aggregation loop, from a state within bounds whose buffer frame has its storage,
leaves a buffer frame that has its storage. -/
theorem aggregate_stored (c : Codec) (frame : AVFrame) (hfs : 0 < c.frame_size) :
    ∀ (fuel : Nat) (fe : FrameEncoder) (q : Int) (out : OutputSlot) (b : AVFrame)
      (res : Int × FrameEncoder × OutputSlot),
      fe.bufferFrame_ = some b → b.data.length = c.frame_size.toNat →
      0 ≤ fe.bufferedSamples_ → fe.bufferedSamples_ ≤ c.frame_size → 0 ≤ q →
      aggregate c frame fuel fe q out = some res →
      ∃ b1, res.2.1.bufferFrame_ = some b1 ∧ b1.data.length = c.frame_size.toNat := by
  intro fuel
  induction fuel with
  | zero => intro fe q out b res _ _ _ _ _ h; simp [aggregate] at h
  | succ n ih =>
    intro fe q out b res hb hlen h0 h1 hq0 h
    rw [aggregate] at h
    split_ifs at h with hq
    · have hs := aggregateStep_stored c frame fe q out b hb hlen h0 h1 hq0 hq
      have hbd := aggregateStep_bounds c frame fe q out hfs h0 h1 hq
      cases hstep : aggregateStep c frame fe q out with
      | inl r =>
        rw [hstep] at h hs
        simp only [Option.some.injEq] at h
        subst h
        obtain ⟨blk, e1, e2, _⟩ := hs
        exact ⟨blk, e1, e2⟩
      | inr s =>
        rw [hstep] at h hs hbd
        obtain ⟨b1, hb1, hl1, _⟩ := hs
        exact ih s.1 s.2.1 s.2.2 b1 res hb1 hl1 hbd.1 (le_of_lt hbd.2.1) (by omega) h
    · simp only [Option.some.injEq] at h
      subst h
      exact ⟨b, hb, hlen⟩

/-- The state in which the aggregation loop is entered has a buffer frame with its
storage, when the state before the call has. -/
theorem loopEntry_stored (c : Codec) (fe fe0 : FrameEncoder) (frame : AVFrame)
    (hst : Stored c fe) (h : fe.loopEntry c frame = some fe0) :
    ∃ b, fe0.bufferFrame_ = some b ∧ b.data.length = c.frame_size.toNat := by
  obtain ⟨_, _, ⟨b, hb, he⟩ | ⟨_, _, he⟩⟩ := loopEntry_cases c fe fe0 frame h
  · rw [he]
    exact ⟨b, hb, hst b hb⟩
  · rw [he]
    exact ⟨_, rfl, List.length_replicate _ _⟩

/-- From a state within bounds whose buffer frame, when there is one, has its storage,
every copy of a call of `encodeFrame` stays inside the buffer frame and the chunk. -/
theorem encodeFrameWithin_of_stored (c : Codec) (fuel : Nat) (fe : FrameEncoder)
    (frame : Option AVFrame) (out : OutputSlot) (hst : Stored c fe) (hbd : Bounded c fe) :
    fe.encodeFrameWithin c fuel frame out = true := by
  cases frame with
  | none => rfl
  | some f =>
    simp only [encodeFrameWithin]
    cases he : fe.loopEntry c f with
    | none => rfl
    | some fe0 =>
      obtain ⟨b, hb, hlen⟩ := loopEntry_stored c fe fe0 f hst he
      obtain ⟨hfs, h0, h1, _⟩ := loopEntry_bounded c fe fe0 f hbd he
      exact aggregateWithin_of_stored c f hfs fuel fe0 0 out b hb hlen h0 h1 (le_refl _)

/-- A call of `encodeFrame` keeps the storage of the buffer frame, provided the buffer frame
exists or its allocation succeeds. -/
theorem encodeFrame_stored (c : Codec) (fuel : Nat) (fe : FrameEncoder)
    (frame : Option AVFrame) (out : OutputSlot) (res : Int × FrameEncoder × OutputSlot)
    (hst : Stored c fe) (hbd : Bounded c fe)
    (halloc : c.get_buffer_ok = true ∨ fe.bufferFrame_ ≠ none)
    (hres : fe.encodeFrame c fuel frame out = some res) : Stored c res.2.1 := by
  by_cases hctx : fe.codecContext_ = true
  · cases frame with
    | none =>
      rw [encodeFrame_null c fuel fe out hctx] at hres
      simp only [Option.some.injEq] at hres
      rw [← hres]
      intro b hb
      exact hst b (((sendAndReceive_sent c fe out none).2.2).symm.trans hb)
    | some f =>
      by_cases hfs : 0 < c.frame_size
      · cases he : fe.loopEntry c f with
        | none =>
          cases hbf : fe.bufferFrame_ with
          | none =>
            cases hbuf : c.get_buffer_ok with
            | false =>
              rcases halloc with h | h
              · rw [hbuf] at h
                exact absurd h (by simp)
              · exact absurd hbf h
            | true => simp [loopEntry, hctx, hfs, hbf, hbuf] at he
          | some b => simp [loopEntry, hctx, hfs, hbf] at he
        | some fe0 =>
          obtain ⟨b, hb, hlen⟩ := loopEntry_stored c fe fe0 f hst he
          obtain ⟨_, h0, h1, _⟩ := loopEntry_bounded c fe fe0 f hbd he
          rw [encodeFrame_loopEntry c fe fe0 f out he fuel] at hres
          obtain ⟨b1, hb1, hl1⟩ :=
            aggregate_stored c f hfs fuel fe0 0 out b res hb hlen h0 h1 (le_refl _) hres
          intro b2 hb2
          rw [hb1] at hb2
          simp only [Option.some.injEq] at hb2
          rw [← hb2]
          exact hl1
      · rw [encodeFrame_direct c fuel fe f out hctx hfs] at hres
        simp only [Option.some.injEq] at hres
        rw [← hres]
        intro b hb
        exact hst b (((sendAndReceive_sent c fe out (some f)).2.2).symm.trans hb)
  · rw [encodeFrame_closed c fuel fe frame out (by simpa using hctx)] at hres
    simp only [Option.some.injEq] at hres
    rw [← hres]
    exact hst

/-- `flushEncoder` leaves the buffer frame alone. -/
theorem flushEncoder_bufferFrame (c : Codec) (fuel : Nat) (fe : FrameEncoder)
    (out : OutputSlot) (r : FrameEncoder × OutputSlot)
    (h : fe.flushEncoder c fuel out = some r) : r.1.bufferFrame_ = fe.bufferFrame_ := by
  have hfr : (fe.flushRemaining c out).1.bufferFrame_ = fe.bufferFrame_ := by
    simp only [flushRemaining]
    cases fe.flush_bufferFrame with
    | none => rfl
    | some b =>
      simp only
      split_ifs
      · exact (sendAndReceive_sent c fe out _).2.2
      · rfl
  simp only [flushEncoder] at h
  split_ifs at h with hctx
  · simp only [Option.some.injEq] at h
    rw [← h]
  · have hpc : (fe.flushRemaining c out).1.codecContext_ = true :=
      (flushRemaining_keeps c fe out).2.2.2.trans (by simpa using hctx)
    rw [encodeFrame_null c fuel _ _ hpc] at h
    simp only [Option.some.injEq] at h
    rw [← h]
    exact ((sendAndReceive_sent c _ _ none).2.2).trans hfr

/-- Where the allocation of the buffer frame succeeds, the buffer frame of every reachable
state has its storage. -/
theorem Reachable.stored {c : Codec} {fe : FrameEncoder} (hbuf : c.get_buffer_ok = true)
    (h : Reachable c fe) : Stored c fe := by
  induction h with
  | init codecId found allocated opened =>
    intro b hb
    have : (FrameEncoder.new.initializeEncoder codecId found allocated opened).2.bufferFrame_
        = none := by
      simp only [initializeEncoder, FrameEncoder.new]
      split_ifs <;> rfl
    rw [this] at hb
    exact absurd hb (by simp)
  | setOutputFile fe created _ ih => exact ih
  | encodeFrame fe fuel frame out res hr hres ih =>
    exact encodeFrame_stored c fuel fe frame out res ih hr.within_bounds (Or.inl hbuf) hres
  | pop fe r _ hpop ih =>
    have : r.2.bufferFrame_ = fe.bufferFrame_ := by
      simp only [getNextEncodedPacket] at hpop
      split at hpop
      · exact absurd hpop (by simp)
      · simp only [Option.some.injEq] at hpop
        rw [← hpop]
    intro b hb
    exact ih b (this.symm.trans hb)
  | flushEncoder fe fuel out r _ hr ih =>
    intro b hb
    exact ih b ((flushEncoder_bufferFrame c fuel fe out r hr).symm.trans hb)
  | clearPacketQueue fe _ ih => exact ih
  | closeEncoder fe _ ih => exact ih

end FrameEncoder
/-- C22: for every call of `encodeFrame` on a chunk, with frameSize > 0, that starts with
`r = bufferedSamples_` carried samples, `0 ≤ r < frameSize`, in a buffer frame that has its
storage of frameSize samples: the call returns, the same result for every fuel beyond the
chunk length, every copy it makes stays inside the buffer frame and the chunk, and the
sample offsets it hands to `av_rescale_q`, one per block it emits, are
`(j - 1) * frameSize - r` for the block number `j = 1, 2, ...` (`blockOffsets` counts from
0); the timestamp given to each block is the chunk's pts plus the rescaled offset; when the
call returns 0 the number of blocks is the quotient of `r + nb_samples` by frameSize.  The
offset is 0 exactly for a first block with nothing carried and negative exactly for a first
block that began with carried samples. -/
theorem C22_block_offsets (c : Codec) (fe : FrameEncoder) (frame : AVFrame) (out : OutputSlot)
    (hfs : 0 < c.frame_size) (h0 : 0 ≤ fe.bufferedSamples_)
    (h1 : fe.bufferedSamples_ < c.frame_size)
    (hst : fe.Stored c) (hb : fe.bufferFrame_ = none → fe.bufferedSamples_ = 0) :
    (∃ res, ∀ fuel, frame.data.length + 1 < fuel →
      fe.encodeFrame c fuel (some frame) out = some res ∧
      fe.encodeFrameWithin c fuel (some frame) out = true) ∧
    ∀ fuel res, fe.encodeFrame c fuel (some frame) out = some res →
      ∃ m : Nat,
        res.2.1.rescaled = fe.rescaled ++ blockOffsets c.frame_size fe.bufferedSamples_ m ∧
        sentPts res.2.1.sent = sentPts fe.sent ++
          (blockOffsets c.frame_size fe.bufferedSamples_ m).map
            (fun off => frame.pts + c.av_rescale_q off frame.sample_rate) ∧
        (res.1 = 0 → (m : Int) = (fe.bufferedSamples_ + frame.nb_samples) / c.frame_size) ∧
        ∀ j : Nat, j < m →
          ((j : Int) * c.frame_size - fe.bufferedSamples_ = 0 ↔
            j = 0 ∧ fe.bufferedSamples_ = 0) ∧
          ((j : Int) * c.frame_size - fe.bufferedSamples_ < 0 ↔
            j = 0 ∧ 0 < fe.bufferedSamples_) := by
  constructor
  · obtain ⟨res, hres⟩ := FrameEncoder.encodeFrame_terminates c (frame.data.length + 2) fe
      (some frame) out (fun _ => ⟨h0, le_of_lt h1⟩)
      (by intro f hf; simp only [Option.some.injEq] at hf; subst hf; omega)
    exact ⟨res, fun fuel hfuel =>
      ⟨FrameEncoder.encodeFrame_mono c _ fuel fe _ out res (by omega) hres,
        FrameEncoder.encodeFrameWithin_of_stored c fuel fe (some frame) out hst
          (fun _ => ⟨h0, le_of_lt h1⟩)⟩⟩
  · intro fuel res hres
    have hsign : ∀ j : Nat,
        ((j : Int) * c.frame_size - fe.bufferedSamples_ = 0 ↔
          j = 0 ∧ fe.bufferedSamples_ = 0) ∧
        ((j : Int) * c.frame_size - fe.bufferedSamples_ < 0 ↔
          j = 0 ∧ 0 < fe.bufferedSamples_) := by
      intro j
      cases j with
      | zero => simp
      | succ i =>
        have hge : c.frame_size ≤ ((i + 1 : Nat) : Int) * c.frame_size := by
          have hi : (1 : Int) ≤ ((i + 1 : Nat) : Int) := by push_cast; omega
          have := Int.mul_le_mul_of_nonneg_right hi (le_of_lt hfs)
          linarith
        constructor
        · constructor
          · intro h; linarith
          · intro h; exact absurd h.1 (by omega)
        · constructor
          · intro h; linarith
          · intro h; exact absurd h.1 (by omega)
    have hfin : ∀ m : Nat, (res.1 = 0 → fe.bufferedSamples_ + frame.nb_samples =
          (m : Int) * c.frame_size + res.2.1.bufferedSamples_ ∧
          0 ≤ res.2.1.bufferedSamples_ ∧ res.2.1.bufferedSamples_ < c.frame_size) →
        res.1 = 0 → (m : Int) = (fe.bufferedSamples_ + frame.nb_samples) / c.frame_size := by
      intro m hm hz
      obtain ⟨e1, e2, e3⟩ := hm hz
      rw [e1, Int.add_comm, Int.add_mul_ediv_right _ _ (ne_of_gt hfs),
        Int.ediv_eq_zero_of_lt e2 e3, Int.zero_add]
    by_cases hctx : fe.codecContext_ = true
    · cases hbf : fe.bufferFrame_ with
      | none =>
        have hr0 : fe.bufferedSamples_ = 0 := hb hbf
        cases hbuf : c.get_buffer_ok with
        | false =>
          rw [FrameEncoder.encodeFrame_alloc_fails c fuel fe frame out hctx hfs hbf hbuf] at hres
          simp only [Option.some.injEq] at hres
          subst hres
          exact ⟨0, by simp [blockOffsets], by simp [blockOffsets], fun h => by simp at h,
            fun j hj => absurd hj (by omega)⟩
        | true =>
          rw [FrameEncoder.encodeFrame_alloc c fuel fe frame out hctx hfs hbf hbuf] at hres
          obtain ⟨m, a1, a2, _, a4⟩ := FrameEncoder.aggregate_offsets c frame
            fe.bufferedSamples_ fe.rescaled (sentPts fe.sent) fuel
            { fe with
              bufferFrame_ := some { data := List.replicate c.frame_size.toNat 0, pts := 0,
                                     sample_rate := frame.sample_rate }
              bufferedSamples_ := 0 } 0 out res 0 rfl
            (le_refl _) hfs (by simp [AVFrame.nb_samples]) (by simp [hr0])
            (by simp [blockOffsets]) (by simp [blockOffsets]) hres
          exact ⟨m, a1, a2, hfin m a4, fun j _ => hsign j⟩
      | some b =>
        rw [FrameEncoder.encodeFrame_buffered c fuel fe frame out hctx hfs b hbf] at hres
        obtain ⟨m, a1, a2, _, a4⟩ := FrameEncoder.aggregate_offsets c frame
          fe.bufferedSamples_ fe.rescaled (sentPts fe.sent) fuel fe 0 out res 0
          (by rw [hbf]; rfl) h0 h1 (by simp [AVFrame.nb_samples]) (by simp)
          (by simp [blockOffsets]) (by simp [blockOffsets]) hres
        exact ⟨m, a1, a2, hfin m a4, fun j _ => hsign j⟩
    · rw [FrameEncoder.encodeFrame_closed c fuel fe (some frame) out (by simpa using hctx)]
        at hres
      simp only [Option.some.injEq] at hres
      subst hres
      exact ⟨0, by simp [blockOffsets], by simp [blockOffsets], fun h => by simp at h,
        fun j hj => absurd hj (by omega)⟩

/-- C22, witness: at frameSize 4, a chunk of 10 samples fed to an encoder that carries 3
samples gives three blocks, at the offsets -3, 1 and 5, and every copy stays inside the
buffers. -/
theorem C22_witness :
    ((FrameEncoder.new.initializeEncoder AVCodecID.MP3 true true true).2.encodeFrames
        (demoCodec 4) 20 [⟨[1, 2, 3], 0, 48000⟩, ⟨[4, 5, 6, 7, 8, 9, 10, 11, 12, 13], 100, 48000⟩]).map
      (fun r => (r.2.rescaled, sentPts r.2.sent)) = some ([-3, 1, 5], [97, 101, 105]) ∧
    blockOffsets 4 3 3 = [-3, 1, 5] ∧
    carriesThree.encodeFrameWithin (demoCodec 4) 20
      (some ⟨[4, 5, 6, 7, 8, 9, 10, 11, 12, 13], 100, 48000⟩) none = true ∧
    ∀ fuel res,
      carriesThree.encodeFrame (demoCodec 4) fuel
          (some ⟨[4, 5, 6, 7, 8, 9, 10, 11, 12, 13], 100, 48000⟩) none = some res →
      res.1 = 0 → res.2.1.rescaled = [-3, 1, 5] := by
  refine ⟨by decide, by decide, by decide, fun fuel res hres hz => ?_⟩
  obtain ⟨m, a1, _, a3, _⟩ := (C22_block_offsets (demoCodec 4) carriesThree
    ⟨[4, 5, 6, 7, 8, 9, 10, 11, 12, 13], 100, 48000⟩ none (by decide) (by decide) (by decide)
    (by
      intro b hb
      simp only [carriesThree, Option.some.injEq] at hb
      rw [← hb]
      rfl)
    (by intro h; simp [carriesThree] at h)).2 fuel res hres
  have hm : (m : Int) = 3 := by
    rw [a3 hz]
    decide
  have hm' : m = 3 := by omega
  subst hm'
  rw [a1]
  decide

/-- C24 (as stated, refuted): with frameSize 2 and an encoder whose first
`avcodec_send_frame` fails, `encodeFrame` on a chunk of two samples fills the buffer, fails
to send the block and returns -1 with `bufferedSamples_ = 2`.  In the state it leaves,
`encodeFrame` on a null frame (the call `flushEncoder` makes) and `encodeFrame` on a chunk
without samples both return 0 with `bufferedSamples_ = 2 = frameSize`.
With frameSize 4 and `av_frame_get_buffer` failing, `encodeFrame` on a chunk returns -1 and
leaves a buffer frame without storage, with `bufferedSamples_ = 0`; in that state the first
copy of the next call on a chunk is outside the buffer frame. -/
theorem C24_success_with_full_buffer :
    (∃ res : Int × FrameEncoder × OutputSlot,
      (FrameEncoder.new.initializeEncoder AVCodecID.MP3 true true true).2.encodeFrame
          firstSendFailsCodec 5 (some ⟨[1, 2], 0, 48000⟩) none = some res ∧
        FrameEncoder.Reachable firstSendFailsCodec res.2.1 ∧
        res.1 = -1 ∧ res.2.1.bufferedSamples_ = 2 ∧ firstSendFailsCodec.frame_size = 2 ∧
        (res.2.1.encodeFrame firstSendFailsCodec 5 none none).map
            (fun r => (r.1, r.2.1.bufferedSamples_)) = some (0, 2) ∧
        (res.2.1.encodeFrame firstSendFailsCodec 5 (some ⟨[], 0, 48000⟩) none).map
            (fun r => (r.1, r.2.1.bufferedSamples_)) = some (0, 2)) ∧
      ∃ res : Int × FrameEncoder × OutputSlot,
        (FrameEncoder.new.initializeEncoder AVCodecID.MP3 true true true).2.encodeFrame
            noBufferCodec 5 (some ⟨[1, 2, 3], 0, 48000⟩) none = some res ∧
          FrameEncoder.Reachable noBufferCodec res.2.1 ∧
          res.1 = -1 ∧ res.2.1.bufferedSamples_ = 0 ∧
          res.2.1.bufferFrame_ = some ⟨[], 0, 48000⟩ ∧
          res.2.1.encodeFrameWithin noBufferCodec 5 (some ⟨[4, 5, 6], 0, 48000⟩) none
            = false := by
  have g1 : ((FrameEncoder.new.initializeEncoder AVCodecID.MP3 true true true).2.encodeFrame
      noBufferCodec 5 (some ⟨[1, 2, 3], 0, 48000⟩) none).map
        (fun r => (r.1, r.2.1.bufferedSamples_, r.2.1.bufferFrame_,
          r.2.1.encodeFrameWithin noBufferCodec 5 (some ⟨[4, 5, 6], 0, 48000⟩) none)) =
        some (-1, 0, some ⟨[], 0, 48000⟩, false) := by decide
  obtain ⟨res2, hres2, hmap2⟩ := Option.map_eq_some'.mp g1
  simp only [Prod.mk.injEq] at hmap2
  refine ⟨?_, res2, hres2,
    FrameEncoder.Reachable.encodeFrame _ 5 (some ⟨[1, 2, 3], 0, 48000⟩) none res2
      (FrameEncoder.Reachable.init AVCodecID.MP3 true true true) hres2,
    hmap2.1, hmap2.2.1, hmap2.2.2.1, hmap2.2.2.2⟩
  have h1 : ((FrameEncoder.new.initializeEncoder AVCodecID.MP3 true true true).2.encodeFrame
      firstSendFailsCodec 5 (some ⟨[1, 2], 0, 48000⟩) none).map
        (fun r => (r.1, r.2.1.bufferedSamples_)) = some (-1, 2) := by decide
  have h2 : ((FrameEncoder.new.initializeEncoder AVCodecID.MP3 true true true).2.encodeFrame
      firstSendFailsCodec 5 (some ⟨[1, 2], 0, 48000⟩) none).bind
        (fun r => (r.2.1.encodeFrame firstSendFailsCodec 5 none none).map
          (fun r => (r.1, r.2.1.bufferedSamples_))) = some (0, 2) := by decide
  have h3 : ((FrameEncoder.new.initializeEncoder AVCodecID.MP3 true true true).2.encodeFrame
      firstSendFailsCodec 5 (some ⟨[1, 2], 0, 48000⟩) none).bind
        (fun r => (r.2.1.encodeFrame firstSendFailsCodec 5 (some ⟨[], 0, 48000⟩) none).map
          (fun r => (r.1, r.2.1.bufferedSamples_))) = some (0, 2) := by decide
  obtain ⟨res, hres, hmap⟩ := Option.map_eq_some'.mp h1
  rw [hres] at h2 h3
  simp only [Option.some_bind] at h2 h3
  simp only [Prod.mk.injEq] at hmap
  exact ⟨res, hres,
    FrameEncoder.Reachable.encodeFrame _ 5 (some ⟨[1, 2], 0, 48000⟩) none res
      (FrameEncoder.Reachable.init AVCodecID.MP3 true true true) hres,
    hmap.1, hmap.2, by decide, h2, h3⟩

/-- At every test of the loop condition, where the allocation of the buffer frame
succeeds, the buffer frame has its storage. -/
theorem FrameEncoder.AtLoopHead.head_stored {c : Codec} {frame : AVFrame} {fe : FrameEncoder}
    {q : Int} {out : OutputSlot} (hbuf : c.get_buffer_ok = true)
    (h : FrameEncoder.AtLoopHead c frame fe q out) :
    ∃ b, fe.bufferFrame_ = some b ∧ b.data.length = c.frame_size.toNat := by
  induction h with
  | entry fe fe0 out hr he =>
    exact FrameEncoder.loopEntry_stored c fe fe0 frame (hr.stored hbuf) he
  | next fe q out s hh hq hs ih =>
    obtain ⟨b, hb, hlen⟩ := ih
    obtain ⟨_, h0, h1, hq0, _⟩ := hh.head_bounds
    have hst := FrameEncoder.aggregateStep_stored c frame fe q out b hb hlen h0 h1 hq0 hq
    rw [hs] at hst
    obtain ⟨b1, hb1, hl1, _⟩ := hst
    exact ⟨b1, hb1, hl1⟩

/-- C24 (amended): for a codec with frameSize > 0 for which the allocation of the buffer
frame succeeds, (1) in every state reachable through the operations of `FrameEncoder`,
`0 ≤ bufferedSamples_ ≤ frameSize` and the buffer frame, when there is one, has storage for
frameSize samples; (2) at every iteration of the aggregation loop of `encodeFrame`, the
copy into the buffer frame, of
`samplesToCopy = min (frameSize - bufferedSamples_) (nb_samples - samplesProcessed)` samples
at offset `bufferedSamples_`, has a count that is not negative, ends within the storage of
the buffer frame, which is frameSize samples, and reads within the chunk; (3) every call of
`encodeFrame` from a reachable state returns when given fuel beyond the chunk length, all
its copies stay inside the buffers, and a call that returns 0, on a chunk with at least one
sample or from a state with `bufferedSamples_ < frameSize`, leaves
`bufferedSamples_ < frameSize`. -/
theorem C24_buffered_samples_within_bounds (c : Codec) (hfs : 0 < c.frame_size)
    (hbuf : c.get_buffer_ok = true) :
    (∀ fe, FrameEncoder.Reachable c fe →
        0 ≤ fe.bufferedSamples_ ∧ fe.bufferedSamples_ ≤ c.frame_size ∧ fe.Stored c) ∧
      (∀ frame fe q out, FrameEncoder.AtLoopHead c frame fe q out → q < frame.nb_samples →
        ∃ buf, fe.bufferFrame_ = some buf ∧ (buf.data.length : Int) = c.frame_size ∧
          0 ≤ fe.bufferedSamples_ ∧ 0 ≤ q ∧
          0 ≤ min (c.frame_size - fe.bufferedSamples_) (frame.nb_samples - q) ∧
          fe.bufferedSamples_ + min (c.frame_size - fe.bufferedSamples_) (frame.nb_samples - q)
            ≤ buf.data.length ∧
          q + min (c.frame_size - fe.bufferedSamples_) (frame.nb_samples - q)
            ≤ frame.data.length ∧
          fe.copyWithin frame q
            (min (c.frame_size - fe.bufferedSamples_) (frame.nb_samples - q)) = true) ∧
      (∀ fe frame out, FrameEncoder.Reachable c fe →
        (∃ res, ∀ fuel, (∀ f, frame = some f → f.data.length + 1 < fuel) →
          fe.encodeFrame c fuel frame out = some res ∧
          fe.encodeFrameWithin c fuel frame out = true) ∧
        ∀ fuel res, fe.encodeFrame c fuel frame out = some res → res.1 = 0 →
          ((∃ f, frame = some f ∧ 0 < f.nb_samples) ∨ fe.bufferedSamples_ < c.frame_size) →
          res.2.1.bufferedSamples_ < c.frame_size) := by
  refine ⟨fun fe h => ⟨(h.within_bounds hfs).1, (h.within_bounds hfs).2, h.stored hbuf⟩,
    ?_, ?_⟩
  · intro frame fe q out h hq
    obtain ⟨_, h0, h1, hq0, _⟩ := h.head_bounds
    obtain ⟨b, hb, hlen⟩ := h.head_stored hbuf
    have hw := FrameEncoder.copyWithin_of_stored c frame fe q b hb hlen h0 h1 hq0 hq
    have hlen2 : (b.data.length : Int) = c.frame_size := by omega
    simp only [AVFrame.nb_samples] at hq ⊢
    refine ⟨b, hb, hlen2, h0, hq0, ?_, ?_, ?_, hw⟩ <;> omega
  · intro fe frame out h
    constructor
    · have hwin : ∀ fuel, fe.encodeFrameWithin c fuel frame out = true := fun fuel =>
        FrameEncoder.encodeFrameWithin_of_stored c fuel fe frame out (h.stored hbuf)
          h.within_bounds
      cases frame with
      | none =>
        by_cases hctx : fe.codecContext_ = true
        · exact ⟨_, fun fuel _ =>
            ⟨FrameEncoder.encodeFrame_null c fuel fe out hctx, hwin fuel⟩⟩
        · exact ⟨_, fun fuel _ =>
            ⟨FrameEncoder.encodeFrame_closed c fuel fe none out (by simpa using hctx),
              hwin fuel⟩⟩
      | some f =>
        obtain ⟨res, hres⟩ := FrameEncoder.encodeFrame_terminates c (f.data.length + 2) fe
          (some f) out h.within_bounds
          (by intro g hg; simp only [Option.some.injEq] at hg; subst hg; omega)
        exact ⟨res, fun fuel hfuel =>
          ⟨FrameEncoder.encodeFrame_mono c _ fuel fe _ out res
            (by have := hfuel f rfl; omega) hres, hwin fuel⟩⟩
    · intro fuel res hres hz hor
      exact FrameEncoder.encodeFrame_strict c fuel fe frame out res hfs h.within_bounds hres hz hor

/-- C24 (amended), applied at frameSize 4 to the state a fresh encoder reaches on a chunk of
six samples: one block was sent, two samples are carried in a buffer of four. -/
theorem C24_witness :
    (0 : Int) < (demoCodec 4).frame_size ∧ (demoCodec 4).get_buffer_ok = true ∧
      ∃ res : Int × FrameEncoder × OutputSlot,
        (FrameEncoder.new.initializeEncoder AVCodecID.MP3 true true true).2.encodeFrame
            (demoCodec 4) 10 (some ⟨[1, 2, 3, 4, 5, 6], 0, 48000⟩) none = some res ∧
          res.2.1.bufferedSamples_ = 2 ∧
          res.2.1.bufferFrame_.map (fun b => b.data) = some [5, 6, 3, 4] ∧
          (0 ≤ res.2.1.bufferedSamples_ ∧ res.2.1.bufferedSamples_ ≤ (demoCodec 4).frame_size ∧
            res.2.1.Stored (demoCodec 4)) := by
  have g1 : ((FrameEncoder.new.initializeEncoder AVCodecID.MP3 true true true).2.encodeFrame
      (demoCodec 4) 10 (some ⟨[1, 2, 3, 4, 5, 6], 0, 48000⟩) none).map
        (fun r => (r.2.1.bufferedSamples_, r.2.1.bufferFrame_.map (fun b => b.data))) =
        some (2, some [5, 6, 3, 4]) := by decide
  obtain ⟨res, hres, hmap⟩ := Option.map_eq_some'.mp g1
  simp only [Prod.mk.injEq] at hmap
  exact ⟨by decide, rfl, res, hres, hmap.1, hmap.2,
    (C24_buffered_samples_within_bounds (demoCodec 4) (by decide) rfl).1 res.2.1
      (FrameEncoder.Reachable.encodeFrame _ 10 (some ⟨[1, 2, 3, 4, 5, 6], 0, 48000⟩) none res
        (FrameEncoder.Reachable.init AVCodecID.MP3 true true true) hres)⟩
/-! ## Termination of the aggregation loop -/

/-- C23, evaluated: one input frame of two blocks, on a codec whose second
`avcodec_send_frame` fails.  In the guarded drain loops `getNextEncodedPacket` always
returns.  The call of `encodeFrame` in the main loop pushes the unit of the first block, then
fails on the second block; the main loop ends without draining the queue, the resampler
flush yields no frame, and the unit is never dequeued: nothing is written to the local file,
only the end marker is sent, and the unit is still in the queue when `closeEncoder` clears
it.  When the resampler flush yields a frame, the drain loop that follows it dequeues that
same unit and offers it to the sinks. -/
theorem C23_failed_frame_leaves_unit_in_queue :
    (∀ fe : FrameEncoder, fe.hasEncodedPackets = true →
        ∃ r, fe.getNextEncodedPacket = some r) ∧
      (AudioProcessor.processAudio blockThenFailure 5).map
          (fun r => r.ap.frameEncoder_.pushed) = some [⟨[1], 0⟩] ∧
      (AudioProcessor.processAudio blockThenFailure 5).map
          (fun r => r.ap.frameEncoder_.dequeued) = some [] ∧
      (AudioProcessor.processAudio blockThenFailure 5).map
          (fun r => localWrites r.ap.trace) = some [] ∧
      (AudioProcessor.processAudio blockThenFailure 5).map
          (fun r => udpSends r.ap.trace) = some [(none, 0)] ∧
      (AudioProcessor.processAudio blockThenFailure 5).map
          (fun r => r.ap.frameEncoder_.discarded) = some [⟨[1], 0⟩] ∧
      (AudioProcessor.processAudio blockThenFailure 5).map
          (fun r => r.ap.log) = some [LogLine.failedEncode 1] ∧
      (AudioProcessor.processAudio blockThenFailureFlushed 5).map
          (fun r => r.ap.frameEncoder_.dequeued) = some [⟨[1], 0⟩] ∧
      (AudioProcessor.processAudio blockThenFailureFlushed 5).map
          (fun r => localWrites r.ap.trace) = some [⟨[1], 0⟩] := by
  refine ⟨?_, by decide, by decide, by decide, by decide, by decide, by decide, by decide,
    by decide⟩
  intro fe h
  cases hq : fe.packetQueue_ with
  | nil => simp [FrameEncoder.hasEncodedPackets, hq] at h
  | cons p rest =>
    simp only [FrameEncoder.getNextEncodedPacket, hq]
    exact ⟨_, rfl⟩

/-! ## The output buffer of the resampler -/

namespace AudioProcessor

/-- The drain loop, when it returns, has dequeued every queued packet and has left the rest
of the encoder, the local container and the log alone. -/
theorem drainQueue_encoder (env : Env) :
    ∀ (fuel : Nat) (ap : AudioProcessor) (e : Bool) (p : AudioProcessor × Bool),
      drainQueue env fuel ap e = some p →
      p.1.frameEncoder_ = ap.frameEncoder_.drained ∧ p.1.log = ap.log := by
  intro fuel
  induction fuel with
  | zero => intro ap e p h; simp [drainQueue] at h
  | succ n ih =>
    intro ap e p h
    rw [drainQueue] at h
    split_ifs at h with hq
    · cases hg : ap.frameEncoder_.getNextEncodedPacket with
      | none => rw [hg] at h; exact absurd h (by simp)
      | some v =>
        rw [hg] at h
        simp only at h
        obtain ⟨f1, _, _, f4, _⟩ :=
          forwardPacket_fields env { ap with frameEncoder_ := v.2 } e v.1
        obtain ⟨i1, i2⟩ := ih _ _ _ h
        rw [f1] at i1
        rw [f4] at i2
        refine ⟨?_, i2⟩
        rw [i1]
        cases hQ : ap.frameEncoder_.packetQueue_ with
        | nil => simp [FrameEncoder.getNextEncodedPacket, hQ] at hg
        | cons pkt rest =>
          simp only [FrameEncoder.getNextEncodedPacket, hQ, Option.some.injEq] at hg
          rw [← hg]
          simp [FrameEncoder.drained, hQ]
    · simp only [Option.some.injEq] at h
      rw [← h]
      refine ⟨?_, rfl⟩
      have hQ : ap.frameEncoder_.packetQueue_ = [] := by
        simpa [FrameEncoder.hasEncodedPackets] using hq
      cases hfe : ap.frameEncoder_
      rw [hfe] at hQ
      simp only at hQ
      simp [FrameEncoder.drained, hQ]

/-- The main loop, seen from the encoder: the resampled frames of the input, whatever
fails to decode or to resample in between, are encoded one after the other, the queue being
drained after each, up to the first frame that fails to encode.  The log tells whether a
frame failed; when none did, every packet was read. -/
theorem mainLoop_encoder (env : Env) (fuel : Nat) :
    ∀ (input : List InputPacket) (ap : AudioProcessor) (e : Bool) (n : Int)
      (res : AudioProcessor × Bool × Int),
      mainLoop env fuel input ap e n = some res → (∀ k, LogLine.failedEncode k ∉ ap.log) →
      ∃ broke, FrameEncoder.encodeUntilFailure env.codec fuel ap.frameEncoder_
            (resampledFrames input) = some (broke, res.1.frameEncoder_) ∧
        (broke = true → LogLine.failedEncode res.2.2 ∈ res.1.log) ∧
        (broke = false →
          (∀ k, LogLine.failedEncode k ∉ res.1.log) ∧ res.2.2 = n + input.length) := by
  intro input
  induction input with
  | nil =>
    intro ap e n res h hlog
    simp only [mainLoop, Option.some.injEq] at h
    rw [← h]
    exact ⟨false, rfl, fun hb => absurd hb (by simp), fun _ => ⟨hlog, by simp⟩⟩
  | cons p rest ih =>
    intro ap e n res h hlog
    cases p with
    | decodeFails =>
      rw [mainLoop] at h
      obtain ⟨broke, h1, h2, h3⟩ := ih _ _ _ _ h (by simpa using hlog)
      exact ⟨broke, h1, h2, fun hb => ⟨(h3 hb).1, by
        rw [(h3 hb).2, List.length_cons]; push_cast; omega⟩⟩
    | resampleFails =>
      rw [mainLoop] at h
      obtain ⟨broke, h1, h2, h3⟩ := ih _ _ _ _ h (by simpa using hlog)
      exact ⟨broke, h1, h2, fun hb => ⟨(h3 hb).1, by
        rw [(h3 hb).2, List.length_cons]; push_cast; omega⟩⟩
    | resampled frame =>
      rw [mainLoop] at h
      cases he : ap.frameEncoder_.encodeFrame env.codec fuel (some frame) none with
      | none => rw [he] at h; exact absurd h (by simp)
      | some r =>
        rw [he] at h
        simp only at h
        by_cases hneg : r.1 < 0
        · simp only [hneg, if_true, Option.some.injEq] at h
          rw [← h]
          refine ⟨true, ?_, fun _ => by simp, fun hb => absurd hb (by simp)⟩
          simp [resampledFrames, FrameEncoder.encodeUntilFailure, he, hneg]
        · simp only [hneg, if_false] at h
          cases hd : drainQueue env fuel { ap with frameEncoder_ := r.2.1 } e with
          | none => rw [hd] at h; exact absurd h (by simp)
          | some p =>
            rw [hd] at h
            simp only at h
            obtain ⟨d1, d2⟩ := drainQueue_encoder env fuel _ _ _ hd
            obtain ⟨broke, h1, h2, h3⟩ := ih _ _ _ _ h (by rw [d2]; exact hlog)
            refine ⟨broke, ?_, h2, fun hb => ⟨(h3 hb).1, by
              rw [(h3 hb).2, List.length_cons]; push_cast; omega⟩⟩
            rw [d1] at h1
            simp only [resampledFrames, FrameEncoder.encodeUntilFailure, he, hneg, if_false]
            exact h1

/-- After a frame failed to encode the main loop reads nothing more: what it returns is
the same whatever packets follow. -/
theorem mainLoop_rest (env : Env) (fuel : Nat) :
    ∀ (input : List InputPacket) (ap : AudioProcessor) (e : Bool) (n : Int)
      (res : AudioProcessor × Bool × Int),
      mainLoop env fuel input ap e n = some res → (∀ k, LogLine.failedEncode k ∉ ap.log) →
      LogLine.failedEncode res.2.2 ∈ res.1.log →
      ∀ post, mainLoop env fuel (input ++ post) ap e n = some res := by
  intro input
  induction input with
  | nil =>
    intro ap e n res h hlog hmem post
    simp only [mainLoop, Option.some.injEq] at h
    rw [← h] at hmem
    exact absurd hmem (hlog _)
  | cons p rest ih =>
    intro ap e n res h hlog hmem post
    cases p with
    | decodeFails =>
      rw [mainLoop] at h
      rw [List.cons_append, mainLoop]
      exact ih _ _ _ _ h (by simpa using hlog) hmem post
    | resampleFails =>
      rw [mainLoop] at h
      rw [List.cons_append, mainLoop]
      exact ih _ _ _ _ h (by simpa using hlog) hmem post
    | resampled frame =>
      rw [mainLoop] at h
      rw [List.cons_append, mainLoop]
      cases he : ap.frameEncoder_.encodeFrame env.codec fuel (some frame) none with
      | none => rw [he] at h; exact absurd h (by simp)
      | some r =>
        rw [he] at h
        simp only at h ⊢
        by_cases hneg : r.1 < 0
        · simp only [hneg, if_true] at h ⊢
          exact h
        · simp only [hneg, if_false] at h ⊢
          cases hd : drainQueue env fuel { ap with frameEncoder_ := r.2.1 } e with
          | none => rw [hd] at h; exact absurd h (by simp)
          | some p =>
            rw [hd] at h
            simp only at h ⊢
            obtain ⟨_, d2⟩ := drainQueue_encoder env fuel _ _ _ hd
            exact ih _ _ _ _ h (by rw [d2]; exact hlog) hmem post

end AudioProcessor

namespace FrameEncoder

/-- Draining the queue does not touch what the aggregator holds. -/
theorem fed_drained (F : Nat) (fe : FrameEncoder) (X : List Sample) (h : Fed F fe X) :
    Fed F fe.drained X := h

/-- Encoding frames one after the other leaves the codec context alone. -/
theorem encodeUntilFailure_codecContext (c : Codec) (fuel : Nat) (frames : List AVFrame) :
    ∀ (fe : FrameEncoder) (r : Bool × FrameEncoder),
      fe.encodeUntilFailure c fuel frames = some r → r.2.codecContext_ = fe.codecContext_ := by
  induction frames with
  | nil =>
    intro fe r h
    simp only [encodeUntilFailure, Option.some.injEq] at h
    rw [← h]
  | cons f rest ih =>
    intro fe r h
    rw [encodeUntilFailure] at h
    cases he : fe.encodeFrame c fuel (some f) none with
    | none => rw [he] at h; exact absurd h (by simp)
    | some v =>
      rw [he] at h
      simp only at h
      obtain ⟨_, _, _, hc⟩ := encodeFrame_keeps c fuel fe (some f) none v he
      split_ifs at h with hneg
      · simp only [Option.some.injEq] at h
        rw [← h]
        exact hc
      · exact (ih _ _ h).trans hc

/-- When every encoder call succeeds no frame fails, and the aggregator ends up holding
the samples it held followed by the samples of all the frames, in order. -/
theorem encodeUntilFailure_fed (c : Codec) (F : Nat) (hF : c.frame_size = F) (hpos : 0 < F)
    (hok : c.Succeeds) (fuel : Nat) (frames : List AVFrame) :
    ∀ (fe : FrameEncoder) (X : List Sample) (r : Bool × FrameEncoder), Fed F fe X →
      fe.encodeUntilFailure c fuel frames = some r →
      r.1 = false ∧ Fed F r.2 (X ++ chunkSamples frames) := by
  induction frames with
  | nil =>
    intro fe X r hinv h
    simp only [encodeUntilFailure, Option.some.injEq] at h
    rw [← h]
    exact ⟨rfl, by simpa [chunkSamples] using hinv⟩
  | cons f rest ih =>
    intro fe X r hinv h
    rw [encodeUntilFailure] at h
    cases he : fe.encodeFrame c fuel (some f) none with
    | none => rw [he] at h; exact absurd h (by simp)
    | some v =>
      rw [he] at h
      simp only at h
      obtain ⟨fe1, out1, hrun, hinv1⟩ := encodeFrame_spec c F hF hpos hok f
        (max fuel (f.data.length + 1)) fe X none (by omega) hinv
      have hv := encodeFrame_mono c fuel (max fuel (f.data.length + 1)) fe (some f) none v
        (le_max_left _ _) he
      rw [hrun] at hv
      simp only [Option.some.injEq] at hv
      rw [← hv] at h
      simp only [lt_self_iff_false, if_false] at h
      obtain ⟨a, b⟩ := ih _ _ _ (fed_drained F fe1 _ hinv1) h
      exact ⟨a, by simpa [chunkSamples, List.append_assoc] using b⟩

end FrameEncoder

namespace AudioProcessor

/-- The run after the setup is the main loop followed, however the loop ended, by the
resampler flush, the encoder flush and the end of the run. -/
theorem run_parts (env : Env) (fuel : Nat) (ap : AudioProcessor) (r : RunResult)
    (h : run env fuel ap = some r) :
    ∃ m f e, mainLoop env fuel env.input ap false 0 = some m ∧
      flushResamplerStep env fuel m.1 m.2.1 = some f ∧
      flushEncoderStep env fuel f.1 f.2 = some e ∧
      r = finish env e.1 e.2.1 m.2.2 e.2.2 := by
  simp only [run] at h
  cases hm : mainLoop env fuel env.input ap false 0 with
  | none => rw [hm] at h; exact absurd h (by simp)
  | some m =>
    rw [hm] at h
    simp only at h
    cases hf : flushResamplerStep env fuel m.1 m.2.1 with
    | none => rw [hf] at h; exact absurd h (by simp)
    | some f =>
      rw [hf] at h
      simp only at h
      cases he : flushEncoderStep env fuel f.1 f.2 with
      | none => rw [he] at h; exact absurd h (by simp)
      | some e =>
        rw [he] at h
        simp only [Option.some.injEq] at h
        exact ⟨m, f, e, rfl, hf, he, h.symm⟩

/-- The resampler flush leaves the codec context alone. -/
theorem flushResamplerStep_codecContext (env : Env) (fuel : Nat) (ap : AudioProcessor)
    (e : Bool) (f : AudioProcessor × Bool) (h : flushResamplerStep env fuel ap e = some f) :
    f.1.frameEncoder_.codecContext_ = ap.frameEncoder_.codecContext_ := by
  simp only [flushResamplerStep] at h
  cases hfl : env.flushed with
  | none =>
    rw [hfl] at h
    simp only [Option.some.injEq] at h
    rw [← h]
  | some g =>
    rw [hfl] at h
    simp only at h
    cases he : ap.frameEncoder_.encodeFrame env.codec fuel (some g) none with
    | none => rw [he] at h; exact absurd h (by simp)
    | some v =>
      rw [he] at h
      simp only at h
      obtain ⟨_, _, _, hc⟩ := FrameEncoder.encodeFrame_keeps _ _ _ _ _ _ he
      obtain ⟨d1, _⟩ := drainQueue_encoder env fuel _ _ _ h
      rw [d1]
      exact hc

/-- With the codec context open, the encoder flush ends by sending the null frame. -/
theorem flushEncoderStep_sent (env : Env) (fuel : Nat) (ap : AudioProcessor) (e : Bool)
    (r : AudioProcessor × Bool × Option AVPacket)
    (hctx : ap.frameEncoder_.codecContext_ = true)
    (h : flushEncoderStep env fuel ap e = some r) :
    r.1.frameEncoder_.sent.getLast? = some none := by
  simp only [flushEncoderStep] at h
  cases hfl : ap.frameEncoder_.flushEncoder env.codec fuel (some none) with
  | none => rw [hfl] at h; exact absurd h (by simp)
  | some v =>
    rw [hfl] at h
    simp only at h
    have hsent : v.1.sent.getLast? = some none := by
      simp only [FrameEncoder.flushEncoder, hctx, Bool.not_true, Bool.false_eq_true,
        if_false] at hfl
      have hpc : (ap.frameEncoder_.flushRemaining env.codec (some none)).1.codecContext_
          = true := (FrameEncoder.flushRemaining_keeps _ _ _).2.2.2.trans hctx
      rw [FrameEncoder.encodeFrame_null _ fuel _ _ hpc] at hfl
      simp only [Option.some.injEq] at hfl
      rw [← hfl]
      simp only
      rw [(FrameEncoder.sendAndReceive_sent _ _ _ none).1]
      simp
    split at h
    · simp only [Option.some.injEq] at h
      rw [← h]
      simp only
      rw [(forwardPacket_fields env _ e _).1]
      exact hsent
    · simp only [Option.some.injEq] at h
      rw [← h]
      exact hsent

/-- The end of the run leaves the frames sent to the encoder as they are. -/
theorem finish_sent (env : Env) (ap : AudioProcessor) (e : Bool) (n : Int)
    (fp : Option AVPacket) :
    (finish env ap e n fp).ap.frameEncoder_.sent = ap.frameEncoder_.sent := by
  simp only [finish, sendUdpData, closeLocalOutputFile, closeUdpClient,
    FrameEncoder.closeEncoder, FrameEncoder.clearPacketQueue]
  split_ifs <;> rfl

end AudioProcessor

namespace AudioProcessor

/-- The state the main loop starts from when every setup step succeeds. -/
theorem setup_eq (env : Env) (h : env.setupOk = true) :
    setup env AudioProcessor.new = Sum.inr
      { AudioProcessor.new with
        udpSocket_ := env.socket_fd
        resamplerFormat := some (targetSampleFormat env.input_codec)
        localFormatContext_ := true
        frameEncoder_ := { FrameEncoder.new with
          codecContext_ := true, sample_fmt := some AVSampleFormat.S16P,
          formatContext_ := env.output_context_created } } := by
  simp only [Env.setupOk, Bool.and_eq_true] at h
  obtain ⟨⟨⟨⟨⟨⟨⟨h1, h2⟩, h3⟩, h4⟩, h5⟩, h6⟩, h7⟩, h8⟩ := h
  simp [setup, h1, h2, h3, h4, h5, h6, h7, h8, FrameEncoder.initializeEncoder,
    initializeLocalOutputFile, initUdpClient_snd, FrameEncoder.setOutputFile,
    AudioProcessor.new]

/-- The resampler flush leaves the log alone. -/
theorem flushResamplerStep_log (env : Env) (fuel : Nat) (ap : AudioProcessor)
    (e : Bool) (f : AudioProcessor × Bool) (h : flushResamplerStep env fuel ap e = some f) :
    f.1.log = ap.log := by
  simp only [flushResamplerStep] at h
  cases hfl : env.flushed with
  | none =>
    rw [hfl] at h
    simp only [Option.some.injEq] at h
    rw [← h]
  | some g =>
    rw [hfl] at h
    simp only at h
    cases he : ap.frameEncoder_.encodeFrame env.codec fuel (some g) none with
    | none => rw [he] at h; exact absurd h (by simp)
    | some v =>
      rw [he] at h
      simp only at h
      exact (drainQueue_encoder env fuel _ _ _ h).2

/-- The encoder flush leaves the log alone. -/
theorem flushEncoderStep_log (env : Env) (fuel : Nat) (ap : AudioProcessor) (e : Bool)
    (r : AudioProcessor × Bool × Option AVPacket)
    (h : flushEncoderStep env fuel ap e = some r) : r.1.log = ap.log := by
  simp only [flushEncoderStep] at h
  cases hfl : ap.frameEncoder_.flushEncoder env.codec fuel (some none) with
  | none => rw [hfl] at h; exact absurd h (by simp)
  | some v =>
    rw [hfl] at h
    simp only at h
    split at h
    · simp only [Option.some.injEq] at h
      rw [← h]
      simp only
      rw [(forwardPacket_fields env _ e _).2.2.2.1]
    · simp only [Option.some.injEq] at h
      rw [← h]

end AudioProcessor

/-- C10, amended: for every environment the run returns, and after a successful setup the
run is the main loop followed, however the loop ended, by the resampler flush, the encoder
flush and the end of the run.  Seen from the encoder the main loop encodes the resampled
frames of the input one after the other, whatever fails to decode or to resample in
between, and drains the queue after each, up to the first frame that fails to encode
(`encodeUntilFailure`); a frame failed exactly when the encode failure of the last packet
read is in the log.  When no frame failed every input packet was read (`frameCount` is the
number of input packets); when a frame failed the main loop ended at that frame
(`frameCount` is its number) and what the loop returns is the same whatever packets follow
it.  When every encoder call succeeds no frame fails, and the samples sent to the encoder
followed by the samples carried are the samples of all the resampled frames, in order.
After the loop, whether or not a frame failed, the last frame sent to the encoder is the
null frame of the encoder flush, and the end marker is the last operation on the sinks
when the socket is open and no send failed. -/
theorem C10_decode_resample_skip_encode_breaks (env : Env) :
    (∃ fuel r, AudioProcessor.processAudio env fuel = some r) ∧
    ∀ fuel r, AudioProcessor.processAudio env fuel = some r → env.setupOk = true →
      ∃ ap0 m f e,
        AudioProcessor.setup env AudioProcessor.new = Sum.inr ap0 ∧
        AudioProcessor.mainLoop env fuel env.input ap0 false 0 = some m ∧
        AudioProcessor.flushResamplerStep env fuel m.1 m.2.1 = some f ∧
        AudioProcessor.flushEncoderStep env fuel f.1 f.2 = some e ∧
        r = AudioProcessor.finish env e.1 e.2.1 m.2.2 e.2.2 ∧
        r.frameCount = m.2.2 ∧ r.ap.log = m.1.log ∧
        (∃ broke, FrameEncoder.encodeUntilFailure env.codec fuel ap0.frameEncoder_
              (resampledFrames env.input) = some (broke, m.1.frameEncoder_) ∧
            (broke = true ↔ LogLine.failedEncode r.frameCount ∈ r.ap.log)) ∧
        ((∀ k, LogLine.failedEncode k ∉ r.ap.log) → r.frameCount = env.input.length) ∧
        (∀ k, LogLine.failedEncode k ∈ r.ap.log →
          r.frameCount = k ∧ k ≤ env.input.length ∧
          ∀ post, AudioProcessor.mainLoop env fuel (env.input ++ post) ap0 false 0 = some m) ∧
        (env.codec.Succeeds → 0 < env.codec.frame_size →
          (∀ k, LogLine.failedEncode k ∉ r.ap.log) ∧
          sentSamples m.1.frameEncoder_.sent ++ m.1.frameEncoder_.carried =
            chunkSamples (resampledFrames env.input)) ∧
        r.ap.frameEncoder_.sent.getLast? = some none ∧
        (0 ≤ env.socket_fd → r.udpError = false →
          ∃ t ret, r.ap.trace = t ++ [Event.udpSend none ret]) := by
  refine ⟨AudioProcessor.processAudio_terminates env, fun fuel r h hs => ?_⟩
  obtain ⟨hok, _⟩ := AudioProcessor.processAudio_post env fuel r h
  obtain ⟨_, ⟨t, _, htrace⟩, hend⟩ := hok hs
  have hsetup := AudioProcessor.setup_eq env hs
  simp only [AudioProcessor.processAudio, hsetup] at h
  obtain ⟨m, f, e, hm, hf, he, hr⟩ := AudioProcessor.run_parts env fuel _ r h
  obtain ⟨_, _, c3, _, _, _, _, c8⟩ := AudioProcessor.finish_eq env e.1 e.2.1 m.2.2 e.2.2
  have hlogE : e.1.log = f.1.log := AudioProcessor.flushEncoderStep_log env fuel _ _ _ he
  have hcount : r.frameCount = m.2.2 := by rw [hr]; exact c3
  have hlog : r.ap.log = m.1.log := by
    rw [hr, c8, hlogE]
    exact AudioProcessor.flushResamplerStep_log env fuel _ _ _ hf
  obtain ⟨broke, hb1, hb2, hb3⟩ := AudioProcessor.mainLoop_encoder env fuel env.input _ false 0 m
    hm (by simp [AudioProcessor.new])
  have hctxm : m.1.frameEncoder_.codecContext_ = true :=
    FrameEncoder.encodeUntilFailure_codecContext _ _ _ _ _ hb1
  have hctxf : f.1.frameEncoder_.codecContext_ = true :=
    (AudioProcessor.flushResamplerStep_codecContext env fuel _ _ _ hf).trans hctxm
  refine ⟨_, m, f, e, hsetup, hm, hf, he, hr, hcount, hlog, ⟨broke, hb1, ?_⟩, ?_, ?_, ?_, ?_, ?_⟩
  · rw [hcount, hlog]
    constructor
    · exact hb2
    · intro hmem
      cases hbk : broke with
      | true => rfl
      | false => exact absurd hmem ((hb3 hbk).1 _)
  · intro hno
    rcases hend with ⟨_, hn⟩ | ⟨hmem, _, _⟩
    · simpa using hn
    · exact absurd hmem (hno _)
  · intro k hk
    rcases hend with ⟨hno, _⟩ | ⟨_, huniq, hle⟩
    · exact absurd hk (hno k)
    · have hk' := huniq k hk
      subst hk'
      refine ⟨rfl, by simpa using hle, fun post => ?_⟩
      exact AudioProcessor.mainLoop_rest env fuel env.input _ false 0 m hm
        (by simp [AudioProcessor.new]) (by rw [← hcount, ← hlog]; exact hk) post
  · intro hsucc hfs
    have hF : env.codec.frame_size = ((env.codec.frame_size.toNat : Nat) : Int) := by omega
    have hpos : 0 < env.codec.frame_size.toNat := by omega
    have hfed0 : FrameEncoder.Fed env.codec.frame_size.toNat
        ({ FrameEncoder.new with
          codecContext_ := true, sample_fmt := some AVSampleFormat.S16P,
          formatContext_ := env.output_context_created } : FrameEncoder) [] :=
      ⟨rfl, Or.inl ⟨rfl, rfl, rfl, rfl⟩⟩
    obtain ⟨hbf, hfed⟩ := FrameEncoder.encodeUntilFailure_fed env.codec _ hF hpos hsucc fuel
      (resampledFrames env.input) _ [] _ hfed0 hb1
    refine ⟨?_, by simpa using (FrameEncoder.Fed.content hpos hfed).1⟩
    rw [hlog]
    exact (hb3 hbf).1
  · rw [hr, AudioProcessor.finish_sent]
    exact AudioProcessor.flushEncoderStep_sent env fuel _ _ _ hctxf he
  · intro hsock hudp
    rw [htrace]
    simp only [hsock, hudp, and_self, if_true]
    exact ⟨t, _, rfl⟩

/-- C10, witness: of four input packets the first fails to decode and the third fails to
resample; all four are read, the two failures are reported, the two frames are encoded (the
samples 1, 2, 3, 4 reach the encoder in two blocks, whose units are written in order), and
the encoder flush follows. -/
theorem C10_witness :
    ∃ r, AudioProcessor.processAudio decodeAndResampleFail 5 = some r ∧
      r.frameCount = 4 ∧
      r.ap.log = [LogLine.failedDecode 1, LogLine.failedResample 3] ∧
      sentSamples r.ap.frameEncoder_.sent = [1, 2, 3, 4] ∧
      (localWrites r.ap.trace).length = 2 ∧
      r.ap.frameEncoder_.sent.getLast? = some none := by
  have hc : (AudioProcessor.processAudio decodeAndResampleFail 5).map
        (fun r => r.frameCount) = some 4 ∧
      (AudioProcessor.processAudio decodeAndResampleFail 5).map (fun r => r.ap.log) =
        some [LogLine.failedDecode 1, LogLine.failedResample 3] ∧
      (AudioProcessor.processAudio decodeAndResampleFail 5).map
        (fun r => sentSamples r.ap.frameEncoder_.sent) = some [1, 2, 3, 4] ∧
      (AudioProcessor.processAudio decodeAndResampleFail 5).map
        (fun r => (localWrites r.ap.trace).length) = some 2 := by
    decide
  cases h : AudioProcessor.processAudio decodeAndResampleFail 5 with
  | none => rw [h] at hc; exact absurd hc.1 (by simp)
  | some r =>
    rw [h] at hc
    simp only [Option.map_some', Option.some.injEq] at hc
    obtain ⟨_, _, _, _, _, _, _, _, _, _, _, _, _, _, _, hlast, _⟩ :=
      (C10_decode_resample_skip_encode_breaks decodeAndResampleFail).2 5 r h (by decide)
    exact ⟨r, rfl, hc.1, hc.2.1, hc.2.2.1, hc.2.2.2, hlast⟩

/-! ## The outer loop of the receiver -/

namespace UdpServer

/-- An iteration makes `start` return only with -1, and only when creating or binding the
socket failed. -/
theorem iteration_returned (env : SessionEnv) (srv srv1 : UdpServer) (evs : List RecvEvent)
    (code : Int) (es : List ServerEvent)
    (h : iteration env srv evs = IterationResult.returned code srv1 es) :
    code = -1 ∧ (env.socket < 0 ∨ env.bind < 0) := by
  by_cases hs : env.socket < 0
  · simp only [iteration, hs, if_true, IterationResult.returned.injEq] at h
    exact ⟨h.1.symm, Or.inl hs⟩
  · by_cases hb : env.bind < 0
    · simp only [iteration, hs, hb, if_true, if_false, IterationResult.returned.injEq] at h
      exact ⟨h.1.symm, Or.inr hb⟩
    · rw [iteration_bound env srv evs (by omega) (by omega)] at h
      exact absurd h (by simp)

/-- Whatever `start` returns is -1, returned by an iteration in which creating or binding
the socket failed. -/
theorem start_code (envs : Nat → SessionEnv) (fuel : Nat) :
    ∀ (k : Nat) (srv : UdpServer) (trace : List ServerEvent) (evs : List RecvEvent) (c : Int),
      (start envs fuel k srv trace evs).code = some c →
      c = -1 ∧ ∃ j, k ≤ j ∧ j < k + fuel ∧ ((envs j).socket < 0 ∨ (envs j).bind < 0) := by
  induction fuel with
  | zero => intro k srv trace evs c h; simp [start] at h
  | succ n ih =>
    intro k srv trace evs c h
    cases hit : iteration (envs k) srv evs with
    | returned code srv1 es =>
      rw [start, hit] at h
      simp only [Option.some.injEq] at h
      obtain ⟨h1, h2⟩ := iteration_returned (envs k) srv srv1 evs code es hit
      exact ⟨h ▸ h1, k, le_refl _, by omega, h2⟩
    | looped srv1 s rest =>
      rw [start_looped envs n k srv srv1 trace evs rest s hit] at h
      obtain ⟨h1, j, hj1, hj2, hj3⟩ := ih (k + 1) srv1 _ rest c h
      exact ⟨h1, j, by omega, by omega, hj3⟩

/-- While the socket can be created and bound, `start` does not return. -/
theorem start_loops (envs : Nat → SessionEnv)
    (hok : ∀ j, 0 ≤ (envs j).socket ∧ 0 ≤ (envs j).bind) (fuel : Nat) :
    ∀ (k : Nat) (srv : UdpServer) (trace : List ServerEvent) (evs : List RecvEvent),
      (start envs fuel k srv trace evs).code = none := by
  induction fuel with
  | zero => intro k srv trace evs; rfl
  | succ n ih =>
    intro k srv trace evs
    rw [start, iteration_bound (envs k) srv evs (hok k).1 (hok k).2]
    exact ih _ _ _ _

end UdpServer

/-- C27: `start` never returns 0.  (1) Whatever `start` returns is -1, and it is returned
by an iteration in which creating or binding the socket failed.  (2) While the socket can
be created and bound, `start` does not return, whatever is received: terminal markers,
timeouts, receive errors and calls of `stop()` included.  (3) An iteration in which the
socket is created and bound does not depend on the state it is entered with, so not on
`running_`: it sets `running_` to true before the receive loop, and it ends by going round
the outer loop.  (4) After such an iteration the next one creates a socket again and, when
that succeeds, binds it.  (5) On a datagram, a call of `stop()`, a datagram and the end
marker, `start` after one iteration has `running_` false and the last two events left, and
after two iterations it has received the second datagram and written it, and still has not
returned. -/
theorem C27_start_returns_only_minus_one :
    (∀ (envs : Nat → SessionEnv) (fuel k : Nat) (srv : UdpServer) (trace : List ServerEvent)
        (evs : List RecvEvent) (c : Int),
        (UdpServer.start envs fuel k srv trace evs).code = some c →
        c = -1 ∧ ∃ j, k ≤ j ∧ j < k + fuel ∧ ((envs j).socket < 0 ∨ (envs j).bind < 0)) ∧
      (∀ (envs : Nat → SessionEnv), (∀ j, 0 ≤ (envs j).socket ∧ 0 ≤ (envs j).bind) →
        ∀ (fuel k : Nat) (srv : UdpServer) (trace : List ServerEvent) (evs : List RecvEvent),
          (UdpServer.start envs fuel k srv trace evs).code = none) ∧
      (∀ (env : SessionEnv) (srv srv2 : UdpServer) (evs : List RecvEvent),
        0 ≤ env.socket → 0 ≤ env.bind →
        UdpServer.iteration env srv evs = UdpServer.iteration env srv2 evs ∧
        ∃ srv1 s rest, UdpServer.iteration env srv evs = IterationResult.looped srv1 s rest ∧
          ∃ more, s.events =
            ServerEvent.socketCreated env.socket :: ServerEvent.bound env.bind :: more) ∧
      (∀ (envs : Nat → SessionEnv) (fuel k : Nat) (srv : UdpServer) (trace : List ServerEvent)
        (evs : List RecvEvent), 0 ≤ (envs k).socket → 0 ≤ (envs k).bind →
        ∃ more, (UdpServer.start envs (fuel + 2) k srv trace evs).trace =
            trace ++ (UdpServer.iteration (envs k) srv evs).events ++
              ServerEvent.socketCreated (envs (k + 1)).socket :: more ∧
          (0 ≤ (envs (k + 1)).socket →
            ∃ more2, more = ServerEvent.bound (envs (k + 1)).bind :: more2)) ∧
      (UdpServer.start (fun _ => demoSession) 1 0 UdpServer.new [] stoppedThenResumed).srv
        = { running_ := false, socket_fd_ := -1 } ∧
      (UdpServer.start (fun _ => demoSession) 1 0 UdpServer.new [] stoppedThenResumed).rest
        = [RecvEvent.datagram [2], RecvEvent.datagram []] ∧
      writtenPayloads
        (UdpServer.start (fun _ => demoSession) 1 0 UdpServer.new [] stoppedThenResumed).trace
        = [[1]] ∧
      (UdpServer.start (fun _ => demoSession) 2 0 UdpServer.new [] stoppedThenResumed).code
        = none ∧
      (UdpServer.start (fun _ => demoSession) 2 0 UdpServer.new [] stoppedThenResumed).rest
        = [] ∧
      writtenPayloads
        (UdpServer.start (fun _ => demoSession) 2 0 UdpServer.new [] stoppedThenResumed).trace
        = [[1], [2]] := by
  refine ⟨fun envs fuel => UdpServer.start_code envs fuel,
    fun envs hok fuel => UdpServer.start_loops envs hok fuel, ?_, ?_,
    by decide, by decide, by decide, by decide, by decide, by decide⟩
  · intro env srv srv2 evs hs hb
    refine ⟨by rw [UdpServer.iteration_bound env srv evs hs hb,
      UdpServer.iteration_bound env srv2 evs hs hb], ?_⟩
    obtain ⟨more, hm, hm2⟩ := UdpServer.iteration_head env srv evs
    obtain ⟨more2, hm3⟩ := hm2 hs
    rw [UdpServer.iteration_bound env srv evs hs hb] at hm ⊢
    exact ⟨_, _, _, rfl, more2, by rw [← hm3]; exact hm⟩
  · intro envs fuel k srv trace evs hs hb
    have hit := UdpServer.iteration_bound (envs k) srv evs hs hb
    obtain ⟨more, h1, h2⟩ := UdpServer.start_rebinds envs fuel k srv _ trace evs _ _ hit
    refine ⟨more, ?_, h2⟩
    rw [h1, hit]
    rfl

/-! ## Datagrams longer than the receive buffer -/

/-- C28: a session of nonempty datagrams `ps`, of any lengths, ended by the end marker or a
timeout, where the socket, the bind and the set-up of the container succeed.  The iteration
writes one packet per datagram, in order; the packet of a datagram `p` is what `recvfrom`
left in the 4096-byte buffer, the first `min L 4096` bytes of `p`, and has that length.  A
longer datagram is handled like any other: in an open session the receive-loop body appends
exactly that packet, changes nothing else and does not end the loop. -/
theorem C28_long_datagram_is_stored_truncated (env : SessionEnv) (srv : UdpServer)
    (ps : List (List Nat)) (marker : RecvEvent) (rest : List RecvEvent)
    (hm : marker = RecvEvent.timeout ∨ marker = RecvEvent.datagram [])
    (hn : ps ≠ []) (hne : ∀ p ∈ ps, p ≠ []) (henv : env.Succeeds) :
    (∃ srv1 s, UdpServer.iteration env srv (ps.map RecvEvent.datagram ++ marker :: rest) =
          IterationResult.looped srv1 s rest ∧
        s.packets = ps.length ∧
        writtenPayloads s.events = ps.map (fun p => p.take 4096) ∧
        (writtenPayloads s.events).map List.length = ps.map (fun p => min p.length 4096)) ∧
      ∀ (s : Session) (p : List Nat), p ≠ [] → s.dataReceived = true →
        UdpServer.receive env srv s (RecvEvent.datagram p) =
          (srv,
            { s with
              packets := s.packets + 1
              events := s.events ++
                [ServerEvent.packetWritten (p.take 4096)
                  (env.av_write_frame s.packets (p.take 4096))] },
            true) ∧
        (p.take 4096).length = min p.length 4096 := by
  constructor
  · have hit := UdpServer.iteration_session env srv ps marker rest hm hn
      (fun q hq => UdpServer.recvfrom_ne_nil q (hne q hq)) henv
    have hw : writtenPayloads (UdpServer.recordedSession env (ps.map UdpServer.recvfrom)) =
        ps.map (fun p => p.take 4096) :=
      (UdpServer.recordedSession_spec env (ps.map UdpServer.recvfrom)).1
    refine ⟨_, _, hit, rfl, hw, ?_⟩
    rw [hw, List.map_map]
    refine List.map_congr_left (fun p _ => ?_)
    simp only [Function.comp, List.length_take]
    exact min_comm _ _
  · intro s p hp hd
    refine ⟨UdpServer.receive_data env srv s p (UdpServer.recvfrom_ne_nil p hp) hd, ?_⟩
    rw [List.length_take]
    exact min_comm _ _

/-- C28 on a datagram of 5000 bytes followed by one of two bytes and the end marker: two
packets are written, the first one with the first 4096 bytes. -/
theorem C28_witness :
    (∃ srv1 s,
        UdpServer.iteration demoSession UdpServer.new
            ([List.replicate 5000 7, [1, 2]].map RecvEvent.datagram ++
              RecvEvent.datagram [] :: []) =
          IterationResult.looped srv1 s [] ∧
        s.packets = [List.replicate 5000 7, [1, 2]].length ∧
        writtenPayloads s.events =
          [List.replicate 5000 7, [1, 2]].map (fun p => p.take 4096) ∧
        (writtenPayloads s.events).map List.length =
          [List.replicate 5000 7, [1, 2]].map (fun p => min p.length 4096)) ∧
      (List.replicate 5000 7).take 4096 = List.replicate 4096 7 :=
  ⟨(C28_long_datagram_is_stored_truncated demoSession UdpServer.new
      [List.replicate 5000 7, [1, 2]] (RecvEvent.datagram []) [] (Or.inr rfl)
      (List.cons_ne_nil _ _)
      (by
        intro p hp
        rcases List.mem_cons.mp hp with h1 | h2
        · rw [h1]
          exact List.ne_nil_of_length_pos (by rw [List.length_replicate]; decide)
        · rw [List.mem_singleton.mp h2]
          exact List.cons_ne_nil _ _)
      (by simp [SessionEnv.Succeeds, demoSession])).1,
    by rw [List.take_replicate, show min 4096 5000 = 4096 from by decide]⟩
